import Mathlib

/-!
Shallow embedding of the reconciliation engine of the datadog-migrator
repository (the provider-aware MigrationService class of
src/services/datadog.ts, together with utils/regex.ts), and proofs about
it.  JavaScript strings are modelled as lists of characters; the regular
expressions used by the source are implemented as explicit scanners with
the same left-to-right, greedy, non-overlapping match semantics; the
stateful parts (the created-webhook memo set and the remote Datadog API)
are modelled by explicit state passing plus an oracle environment, with a
trace of the remote calls that were issued.
-/

namespace DatadogMigrator

/-- JS strings are modelled as lists of characters. -/
abbrev Str := List Char

/-- The character class [A-Za-z0-9_-] shared by the service regexes
(the class [\w\-_]) and the webhook suffix class [a-zA-Z0-9_-]. -/
def isTokenChar (c : Char) : Bool := c.isAlphanum || c == '_' || c == '-'

/-- ASCII whitespace as matched by the JS regular expression \s
(the engine only ever feeds it ASCII monitor messages). -/
def isWsChar (c : Char) : Bool :=
  c == ' ' || c == '\t' || c == '\n' || c == '\r' || c == '\x0b' || c == '\x0c'

/-- The literal head of PAGERDUTY_SERVICE_REGEX = @pagerduty-([\w\-_]+) . -/
def pagerdutyLit : Str := "@pagerduty-".toList

/-- The literal head of OPSGENIE_SERVICE_REGEX = @opsgenie-([\w\-_]+) . -/
def opsgenieLit : Str := "@opsgenie-".toList

/-- The literal head of the webhook pattern
@webhook-incident-io(?:-[a-zA-Z0-9_-]+)* . -/
def webhookLit : Str := "@webhook-incident-io".toList

/-- utils/regex.ts getServiceRegexForProvider: opsgenie gets the opsgenie
regex, every other provider string the pagerduty one.  We represent a
regex by its literal head (both service regexes have shape
lit ++ [\w\-_]+). -/
def getServiceRegexForProvider (provider : Str) : Str :=
  if provider = "opsgenie".toList then opsgenieLit else pagerdutyLit

/-- All matches of the regex lit([\w\-_]+) in a string, scanning left to
right, greedy and non-overlapping, exactly like String.prototype.match
with a /g regex.  Returns the full match texts.  The fuel argument only
serves termination; every recursive call shrinks the string, so any fuel
above the string length gives the true result. -/
def findMatchesFuel (lit : Str) : Nat → Str → List Str
  | 0, _ => []
  | _ + 1, [] => []
  | n + 1, c :: cs =>
    if lit.isPrefixOf (c :: cs) then
      let rest := (c :: cs).drop lit.length
      let tok := rest.takeWhile isTokenChar
      if tok.isEmpty then findMatchesFuel lit n cs
      else (lit ++ tok) :: findMatchesFuel lit n (rest.dropWhile isTokenChar)
    else findMatchesFuel lit n cs

/-- Matches of a service regex in a message (fuel instantiated). -/
def findMatches (lit : Str) (s : Str) : List Str :=
  findMatchesFuel lit (s.length + 1) s

/-- String.prototype.replace with a /g service regex and replacement "",
i.e. the message with every match of lit([\w\-_]+) deleted. -/
def stripMatchesFuel (lit : Str) : Nat → Str → Str
  | 0, s => s
  | _ + 1, [] => []
  | n + 1, c :: cs =>
    if lit.isPrefixOf (c :: cs) then
      let rest := (c :: cs).drop lit.length
      let tok := rest.takeWhile isTokenChar
      if tok.isEmpty then c :: stripMatchesFuel lit n cs
      else stripMatchesFuel lit n (rest.dropWhile isTokenChar)
    else c :: stripMatchesFuel lit n cs

/-- Deletion of all service-regex matches (fuel instantiated). -/
def stripMatches (lit : Str) (s : Str) : Str :=
  stripMatchesFuel lit (s.length + 1) s

/-- Whether the maximal class-character run after the webhook literal is
consumed by the greedy suffix group (?:-[a-zA-Z0-9_-]+)* : it is exactly
when the run starts with a hyphen followed by at least one more class
character (the class itself contains the hyphen, so one group iteration
then swallows the whole run). -/
def isExtSuffix : Str → Bool
  | '-' :: _ :: _ => true
  | _ => false

/-- All matches of @webhook-incident-io(?:-[a-zA-Z0-9_-]+)* in a message,
left to right, greedy, non-overlapping — the loop over pattern.exec in
findIncidentioWebhooks.  The fuel argument only serves termination. -/
def findWebhooksFuel : Nat → Str → List Str
  | 0, _ => []
  | _ + 1, [] => []
  | n + 1, c :: cs =>
    if webhookLit.isPrefixOf (c :: cs) then
      if isExtSuffix (((c :: cs).drop webhookLit.length).takeWhile isTokenChar) then
        (webhookLit ++ ((c :: cs).drop webhookLit.length).takeWhile isTokenChar) ::
          findWebhooksFuel n (((c :: cs).drop webhookLit.length).dropWhile isTokenChar)
      else webhookLit :: findWebhooksFuel n ((c :: cs).drop webhookLit.length)
    else findWebhooksFuel n cs

/-- findIncidentioWebhooks of the source (fuel instantiated). -/
def findIncidentioWebhooks (s : Str) : List Str :=
  findWebhooksFuel (s.length + 1) s

/-- String.prototype.replace with a plain string pattern and replacement
"": deletes the first occurrence of pat, leaves the string unchanged when
pat does not occur. -/
def replaceFirst (pat : Str) : Str → Str
  | [] => if pat.isPrefixOf ([] : Str) then ([] : Str).drop pat.length else []
  | c :: cs =>
    if pat.isPrefixOf (c :: cs) then (c :: cs).drop pat.length
    else c :: replaceFirst pat cs

/-- .replace(/\s+/g, " "): every maximal whitespace run becomes a single
space.  The Bool flag records whether we are inside a run whose space has
already been emitted. -/
def collapseWsAux : Bool → Str → Str
  | _, [] => []
  | inWs, c :: cs =>
    if isWsChar c then
      if inWs then collapseWsAux true cs else ' ' :: collapseWsAux true cs
    else c :: collapseWsAux false cs

/-- .replace(/\s+/g, " ") on a whole string. -/
def collapseWs (s : Str) : Str := collapseWsAux false s

/-- String.prototype.trim (leading and trailing whitespace removed). -/
def jsTrim (s : Str) : Str :=
  ((s.dropWhile isWsChar).reverse.dropWhile isWsChar).reverse

/-- One step of the webhook-removal loops of processMonitor:
newMessage.replace(webhook, "").replace(/\s+/g, " ").trim() . -/
def stripStep (m w : Str) : Str := jsTrim (collapseWs (replaceFirst w m))

/-- The webhook-removal loop itself: fold stripStep over the found
webhook match texts, in match order. -/
def stripMarkers (ws : List Str) (m : Str) : Str := ws.foldl stripStep m

/-- JS String.prototype.split with separator "-". -/
def splitDash : Str → List Str
  | [] => [[]]
  | c :: cs =>
    if c = '-' then [] :: splitDash cs
    else
      match splitDash cs with
      | [] => [[c]]
      | p :: ps => (c :: p) :: ps

/-- Array.prototype.join with separator "-". -/
def joinDash : List Str → Str
  | [] => []
  | [p] => p
  | p :: ps => p ++ '-' :: joinDash ps

/-- Service-name extraction from a raw regex match:
match.split("-").slice(1).join("-") . -/
def extractService (m : Str) : Str := joinDash ((splitDash m).drop 1)

/-- Array.prototype.join with an arbitrary separator. -/
def joinSep (sep : Str) : List Str → Str
  | [] => []
  | [x] => x
  | x :: xs => x ++ sep ++ joinSep sep xs

/-! ## Data model

TypeScript optional/nullable values: an `Option` models `T | undefined`;
`Option (Option T)` models `T | null | undefined` (`none` = absent or
undefined, `some none` = null, `some (some t)` = a value). -/

/-- JS truthiness of a string | undefined value: empty string is falsy. -/
def strTruthy : Option Str → Bool
  | none => false
  | some s => !s.isEmpty

/-- JS truthiness of a string | null | undefined value. -/
def teamFieldTruthy : Option (Option Str) → Bool
  | some (some t) => !t.isEmpty
  | _ => false

/-- IncidentioConfig of types/index.ts (provider-aware version, with the
optional source field). -/
structure IncidentioConfig where
  webhookPerTeam : Bool
  webhookUrl : Option Str := none
  webhookToken : Option Str := none
  addTeamTags : Bool := false
  teamTagPrefix : Option Str := none
  source : Option Str := none

/-- MigrationMapping of types/index.ts.  additionalMetadata is a
Record<string, string>; we keep its entries in insertion order, which is
what Object.entries iterates. -/
structure MigrationMapping where
  pagerdutyService : Option Str := none
  opsgenieService : Option Str := none
  incidentioTeam : Option (Option Str) := none
  additionalMetadata : Option (List (Str × Str)) := none

/-- DatadogMonitor of types/index.ts. -/
structure DatadogMonitor where
  id : Nat
  name : Str
  message : Str
  tags : List Str
deriving DecidableEq

/-- MigrationType of types/index.ts. -/
inductive MigrationType
  | addIncidentioWebhook
  | removeIncidentioWebhook
  | removePagerduty
deriving DecidableEq

/-- FilterOptions; the two RegExp filters are modelled as predicates. -/
structure FilterOptions where
  tags : Option (List Str) := none
  namePattern : Option (Str → Bool) := none
  messagePattern : Option (Str → Bool) := none

/-- MigrationOptions of types/index.ts. -/
structure MigrationOptions where
  dryRun : Option Bool := none
  type : MigrationType
  webhookPerTeam : Bool := false
  verbose : Bool := false
  filter : Option FilterOptions := none

/-- this.incidentioConfig.source || "pagerduty" . -/
def sourceProvider (cfg : IncidentioConfig) : Str :=
  match cfg.source with
  | some s => if s.isEmpty then "pagerduty".toList else s
  | none => "pagerduty".toList

/-- findProviderServices: match the provider regex and extract each
service name from the raw match text. -/
def findProviderServices (cfg : IncidentioConfig) (message : Str) : List Str :=
  (findMatches (getServiceRegexForProvider (sourceProvider cfg)) message).map extractService

/-- getDatadogWebhookName: name of the webhook resource itself. -/
def getDatadogWebhookName (cfg : IncidentioConfig) (team : Option Str) : Str :=
  if !cfg.webhookPerTeam || !strTruthy team then "incident-io".toList
  else "incident-io-".toList ++ team.getD []

/-- getWebhookNameForTeam: name used inside monitor messages (without the
leading @, which call sites add themselves). -/
def getWebhookNameForTeam (cfg : IncidentioConfig) (team : Option Str) : Str :=
  if !cfg.webhookPerTeam || !strTruthy team then "webhook-incident-io".toList
  else "webhook-incident-io-".toList ++ team.getD []

/-- mapping?.incidentioTeam ?? undefined : collapses both a missing
mapping and a null/undefined team into undefined. -/
def teamOrUndefined : Option MigrationMapping → Option Str
  | none => none
  | some m =>
    match m.incidentioTeam with
    | some (some t) => some t
    | _ => none

/-- getTeamForProviderService: provider-aware mapping lookup (opsgenie
keys when the configured source is opsgenie, pagerduty keys otherwise). -/
def getTeamForProviderService (cfg : IncidentioConfig)
    (mappings : List MigrationMapping) (service : Str) : Option Str :=
  let provider := sourceProvider cfg
  let mapping := mappings.find? (fun m =>
    if provider = "opsgenie".toList then decide (m.opsgenieService = some service)
    else decide (m.pagerdutyService = some service))
  teamOrUndefined mapping

/-- getMappingForService: provider-aware lookup that falls back to a
fresh mapping containing only the service key. -/
def getMappingForService (cfg : IncidentioConfig)
    (mappings : List MigrationMapping) (service : Str) : MigrationMapping :=
  let provider := sourceProvider cfg
  if provider = "opsgenie".toList then
    (mappings.find? (fun m => decide (m.opsgenieService = some service))).getD
      { opsgenieService := some service }
  else
    (mappings.find? (fun m => decide (m.pagerdutyService = some service))).getD
      { pagerdutyService := some service }

/-- createTeamTag: (teamTagPrefix || "team") + ":" + team . -/
def createTeamTag (cfg : IncidentioConfig) (team : Str) : Str :=
  (match cfg.teamTagPrefix with
   | some p => if p.isEmpty then "team".toList else p
   | none => "team".toList) ++ ':' :: team

/-- filterMonitors of the source, with the RegExp tests abstracted. -/
def filterMonitors (monitors : List DatadogMonitor) (f : FilterOptions) :
    List DatadogMonitor :=
  monitors.filter (fun mon =>
    (match f.tags with
     | some ts => ts.isEmpty || mon.tags.any (fun tag => decide (tag ∈ ts))
     | none => true) &&
    (match f.namePattern with
     | some p => p mon.name
     | none => true) &&
    (match f.messagePattern with
     | some p => p mon.message
     | none => true))

/-! ## Mapping validation -/

/-- MigrationValidation of the source. -/
structure MigrationValidation where
  valid : Bool
  unmappedServices : List Str
  nullMappings : List Str
  invalidTeamNames : List Str
deriving DecidableEq

/-- The character class of validTeamNamePattern = [a-z0-9-] . -/
def isValidTeamChar (c : Char) : Bool :=
  (('a' ≤ c) && (c ≤ 'z')) || c.isDigit || c == '-'

/-- A JS Set<string> accumulated with .add: distinct members kept in
first-insertion order. -/
def setAdd (l : List Str) (x : Str) : List Str := if x ∈ l then l else l ++ [x]

/-- The set of provider services referenced across the monitors, in
first-encounter order (the servicesInMonitors set of
validateProviderMappings). -/
def servicesInMonitors (cfg : IncidentioConfig) (monitors : List DatadogMonitor) :
    List Str :=
  let lit := getServiceRegexForProvider (sourceProvider cfg)
  monitors.foldl
    (fun acc mon => ((findMatches lit mon.message).map extractService).foldl setAdd acc)
    []

/-- The entries fed to the mappedServices Map: mappings whose key for the
configured provider is truthy, keyed by that service key, valued by the
raw incidentioTeam field. -/
def mappedServicesEntries (cfg : IncidentioConfig) (mappings : List MigrationMapping) :
    List (Str × Option (Option Str)) :=
  let provider := sourceProvider cfg
  (mappings.filter (fun m =>
      strTruthy (if provider = "opsgenie".toList then m.opsgenieService else m.pagerdutyService))).map
    (fun m =>
      ((if provider = "opsgenie".toList then m.opsgenieService else m.pagerdutyService).getD [],
        m.incidentioTeam))

/-- JS Map.has over the entry list (later entries shadow earlier ones,
which membership does not observe). -/
def mapHas (entries : List (Str × Option (Option Str))) (k : Str) : Bool :=
  entries.any (fun e => decide (e.1 = k))

/-- JS Map.get over the entry list: the last entry with the key wins. -/
def mapGet (entries : List (Str × Option (Option Str))) (k : Str) :
    Option (Option (Option Str)) :=
  (entries.reverse.find? (fun e => decide (e.1 = k))).map (fun e => e.2)

/-- One iteration of the classification loop of
validateProviderMappings. -/
def classifyStep (cfg : IncidentioConfig)
    (entries : List (Str × Option (Option Str)))
    (acc : List Str × List Str × List (Str × Str)) (service : Str) :
    List Str × List Str × List (Str × Str) :=
  let unmapped := acc.1
  let nulls := acc.2.1
  let invalid := acc.2.2
  if !mapHas entries service then (unmapped ++ [service], nulls, invalid)
  else if mapGet entries service = some (some none) then
    (unmapped, nulls ++ [service], invalid)
  else if cfg.webhookPerTeam || cfg.addTeamTags then
    match mapGet entries service with
    | some (some (some teamName)) =>
      if !teamName.isEmpty && !teamName.all isValidTeamChar then
        (unmapped, nulls, invalid ++ [(service, teamName)])
      else acc
    | _ => acc
  else acc

/-- The classification loop of validateProviderMappings, in iteration
order over the referenced-service set: produces (unmappedServices,
nullMappings, invalidTeamNames as service/team pairs). -/
def classifyServices (cfg : IncidentioConfig)
    (entries : List (Str × Option (Option Str))) (services : List Str) :
    List Str × List Str × List (Str × Str) :=
  services.foldl (classifyStep cfg entries) ([], [], [])

/-- validateProviderMappings of the source. -/
def validateProviderMappings (cfg : IncidentioConfig)
    (mappings : List MigrationMapping) (monitors : List DatadogMonitor) :
    MigrationValidation :=
  let services := servicesInMonitors cfg monitors
  let entries := mappedServicesEntries cfg mappings
  let c := classifyServices cfg entries services
  let requireTeamMappings := cfg.webhookPerTeam || cfg.addTeamTags
  { valid := c.1.isEmpty && (!requireTeamMappings || (c.2.1.isEmpty && c.2.2.isEmpty)),
    unmappedServices := c.1,
    nullMappings := c.2.1,
    invalidTeamNames := c.2.2.map (fun e =>
      e.1 ++ " → \"".toList ++ e.2 ++ "\"".toList) }

/-! ## Effectful engine: environment, remote-call trace, service state -/

/-- One remote Datadog API call issued by the engine. -/
inductive RemoteCall
  | getW (name : Str)
  | createW (name : Str)
  | updateM (id : Nat) (message : Str) (tags : Option (List Str))
deriving DecidableEq

/-- Oracle for the remote platform: whether a webhook of a given name
already exists, whether creating it succeeds, whether updating a monitor
succeeds, and the error text reported on update failure. -/
structure Env where
  getWebhook : Str → Bool
  createOk : Str → Bool
  updateOk : Nat → Bool
  updateErr : Nat → Str

/-- The MigrationService object: configuration, mappings, the
constructor dryRun flag, and the mutable createdWebhooks memo set. -/
structure MigrationService where
  cfg : IncidentioConfig
  mappings : List MigrationMapping
  ctorDryRun : Bool
  createdWebhooks : List Str

/-- ensureWebhookExists.  The first argument past env is the message-side
webhook name, which the source only uses for debug output; the resource
name is recomputed from the team via getDatadogWebhookName.  The payload
text (a fixed JSON template plus team/metadata fields) does not influence
control flow and is not modelled; the trace records the resource name.
Returns (success, new service state, remote calls issued). -/
def ensureWebhookExists (svc : MigrationService) (env : Env)
    (_webhookName : Str) (team : Option Str)
    (_additionalMetadata : Option (List (Str × Str))) :
    Bool × MigrationService × List RemoteCall :=
  if svc.ctorDryRun then (true, svc, [])
  else
    let dd := getDatadogWebhookName svc.cfg team
    if dd ∈ svc.createdWebhooks then (true, svc, [])
    else if env.getWebhook dd then
      (true, { svc with createdWebhooks := dd :: svc.createdWebhooks }, [.getW dd])
    else if !(strTruthy svc.cfg.webhookUrl && strTruthy svc.cfg.webhookToken) then
      (false, svc, [.getW dd])
    else if env.createOk dd then
      (true, { svc with createdWebhooks := dd :: svc.createdWebhooks },
        [.getW dd, .createW dd])
    else (false, svc, [.getW dd, .createW dd])

/-- Per-alert reconciliation outcome (the object returned by
processMonitor; message is always set by the source, so it is not
optional here). -/
structure ProcessResult where
  updated : Bool
  message : Str
  reason : Option Str := none
  tagsBefore : Option (List Str) := none
  tagsAfter : Option (List Str) := none
deriving DecidableEq

/-- team || "unknown" in the per-team failure reason. -/
def teamOrUnknown (team : Option Str) : Str :=
  if strTruthy team then team.getD [] else "unknown".toList

/-- The loop over providerServices in the team-specific branch of
processMonitor.  Note: the source resolves the team here with
mappings.find(m => m.pagerdutyService === service), regardless of the
configured provider (unlike getTeamForProviderService).  Either
early-returns a failure outcome or yields the final state, trace and
expected webhook set (a JS Set kept in insertion order). -/
def perTeamWebhookLoop (env : Env) (dryRun : Bool) (message : Str) :
    MigrationService → List RemoteCall → List Str → List Str →
    (ProcessResult × MigrationService × List RemoteCall) ⊕
      (MigrationService × List RemoteCall × List Str)
  | svc, trace, expected, [] => Sum.inr (svc, trace, expected)
  | svc, trace, expected, service :: rest =>
    let mapping := svc.mappings.find? (fun m => decide (m.pagerdutyService = some service))
    let team := teamOrUndefined mapping
    let webhookName := getWebhookNameForTeam svc.cfg team
    if dryRun then
      perTeamWebhookLoop env dryRun message svc trace
        (setAdd expected ('@' :: webhookName)) rest
    else
      let e := ensureWebhookExists svc env webhookName team
        (mapping.bind (fun m => m.additionalMetadata))
      if e.1 then
        perTeamWebhookLoop env dryRun message e.2.1 (trace ++ e.2.2)
          (setAdd expected ('@' :: webhookName)) rest
      else
        Sum.inl
          ({ updated := false, message := message,
             reason := some ("Failed to create required webhook for team ".toList ++
               teamOrUnknown team) },
            e.2.1, trace ++ e.2.2)

/-- Whether a mapping has nonempty additionalMetadata (the guard of the
tag-annotation block checks Object.keys(...).length > 0). -/
def metaNonempty (m : MigrationMapping) : Bool :=
  match m.additionalMetadata with
  | some l => !l.isEmpty
  | none => false

/-- Tag additions contributed by one service's mapping inside the
single-webhook tag-annotation loop: team tag when addTeamTags is set and
the team is truthy, then one tag per metadata entry; each appended only
when not already present, flipping the tagsUpdated flag. -/
def addServiceTags (cfg : IncidentioConfig) (mapping : MigrationMapping) :
    List Str × Bool → List Str × Bool :=
  fun acc =>
    let afterTeam :=
      match mapping.incidentioTeam with
      | some (some t) =>
        if cfg.addTeamTags && !t.isEmpty then
          let teamTag := createTeamTag cfg t
          if teamTag ∈ acc.1 then acc else (acc.1 ++ [teamTag], true)
        else acc
      | _ => acc
    match mapping.additionalMetadata with
    | some entries =>
      entries.foldl
        (fun acc2 kv =>
          let tag := kv.1 ++ ':' :: kv.2
          if tag ∈ acc2.1 then acc2 else (acc2.1 ++ [tag], true))
        afterTeam
    | none => afterTeam

/-- The whole tag-annotation loop over the monitor's provider services:
returns (new tag list, whether any tag was added). -/
def addTagsLoop (cfg : IncidentioConfig) (mappings : List MigrationMapping)
    (services : List Str) (tags0 : List Str) : List Str × Bool :=
  services.foldl
    (fun acc service => addServiceTags cfg (getMappingForService cfg mappings service) acc)
    (tags0, false)

/-- The shared commit step at the end of processMonitor: when the local
computation marked the monitor updated and the run is not a dry run, the
remote update is attempted with the new message plus the new tags when
tags changed; a failure downgrades the outcome to not-updated, keeps the
original message, and attaches the error text as the reason. -/
def commitStep (env : Env) (monitor : DatadogMonitor) (dryRun : Bool)
    (updated : Bool) (newMessage : Str) (tagsBefore tagsAfter : Option (List Str))
    (svc : MigrationService) (trace : List RemoteCall) :
    ProcessResult × MigrationService × List RemoteCall :=
  if updated && !dryRun then
    if env.updateOk monitor.id then
      ({ updated := true, message := newMessage,
         tagsBefore := tagsBefore, tagsAfter := tagsAfter },
        svc, trace ++ [.updateM monitor.id newMessage tagsAfter])
    else
      ({ updated := false, message := monitor.message,
         reason := some ("API update failed: ".toList ++ env.updateErr monitor.id),
         tagsBefore := tagsBefore, tagsAfter := tagsAfter },
        svc, trace ++ [.updateM monitor.id newMessage tagsAfter])
  else
    ({ updated := updated, message := newMessage,
       tagsBefore := tagsBefore, tagsAfter := tagsAfter }, svc, trace)

/-- processMonitor of the provider-aware MigrationService. -/
def processMonitor (svc : MigrationService) (env : Env)
    (monitor : DatadogMonitor) (options : MigrationOptions) :
    ProcessResult × MigrationService × List RemoteCall :=
  let message := monitor.message
  let dryRun := options.dryRun.getD svc.ctorDryRun
  let provider := sourceProvider svc.cfg
  match options.type with
  | .addIncidentioWebhook =>
    let providerServices := findProviderServices svc.cfg message
    if providerServices.isEmpty then
      ({ updated := false, message := message,
         reason := some ("No ".toList ++ provider ++ " services found".toList) },
        svc, [])
    else
      let existingWebhooks := findIncidentioWebhooks message
      if !options.webhookPerTeam then
        -- single shared webhook
        let webhookName := getWebhookNameForTeam svc.cfg none
        let ensured :
            (MigrationService × List RemoteCall) ⊕
              (ProcessResult × MigrationService × List RemoteCall) :=
          if !dryRun then
            let e := ensureWebhookExists svc env webhookName none none
            if e.1 then Sum.inl (e.2.1, e.2.2)
            else
              Sum.inr
                ({ updated := false, message := message,
                   reason := some ("Failed to create required webhook".toList) },
                  e.2.1, e.2.2)
          else Sum.inl (svc, [])
        match ensured with
        | Sum.inr r => r
        | Sum.inl (svc', trace) =>
          let tagTriple : Option (List Str) × Option (List Str) × Bool :=
            if (!svc.cfg.webhookPerTeam) &&
               (svc.cfg.addTeamTags ||
                 providerServices.any (fun s =>
                   metaNonempty (getMappingForService svc.cfg svc.mappings s))) then
              let res := addTagsLoop svc.cfg svc.mappings providerServices monitor.tags
              (some monitor.tags, if res.2 then some res.1 else none, res.2)
            else (none, none, false)
          let tagsBefore := tagTriple.1
          let tagsAfter := tagTriple.2.1
          if !existingWebhooks.isEmpty then
            if !(existingWebhooks.contains ('@' :: webhookName)) then
              let m1 := stripMarkers existingWebhooks message
              commitStep env monitor dryRun true (m1 ++ ' ' :: '@' :: webhookName)
                tagsBefore tagsAfter svc' trace
            else
              ({ updated := false, message := message,
                 reason := some ("Already has correct incident.io webhook".toList),
                 tagsBefore := tagsBefore, tagsAfter := tagsAfter }, svc', trace)
          else
            commitStep env monitor dryRun true (message ++ ' ' :: '@' :: webhookName)
              tagsBefore tagsAfter svc' trace
      else
        -- team-specific webhooks
        match perTeamWebhookLoop env dryRun message svc [] [] providerServices with
        | Sum.inl r => r
        | Sum.inr (svc', trace, expectedWebhooks) =>
          let existingSet := existingWebhooks.dedup
          let needsUpdate := existingWebhooks.isEmpty ||
            decide (existingSet.length ≠ expectedWebhooks.length) ||
            !(expectedWebhooks.all (fun w => existingSet.contains w))
          if needsUpdate then
            let m1 := stripMarkers existingWebhooks message
            let m2 := expectedWebhooks.foldl (fun m w => m ++ ' ' :: w) m1
            commitStep env monitor dryRun true m2 none none svc' trace
          else
            ({ updated := false, message := message,
               reason := some ("Already has all correct incident.io webhooks".toList) },
              svc', trace)
  | .removeIncidentioWebhook =>
    let incidentWebhooks := findIncidentioWebhooks message
    if incidentWebhooks.isEmpty then
      ({ updated := false, message := message,
         reason := some ("No incident.io webhooks found".toList) }, svc, [])
    else
      commitStep env monitor dryRun true (stripMarkers incidentWebhooks message)
        none none svc []
  | .removePagerduty =>
    let services := findProviderServices svc.cfg message
    if services.isEmpty then
      ({ updated := false, message := message,
         reason := some ("No ".toList ++ provider ++ " services found".toList) },
        svc, [])
    else
      commitStep env monitor dryRun true
        (jsTrim (collapseWs
          (stripMatches (getServiceRegexForProvider provider) message)))
        none none svc []

/-- One per-alert change record of the run result. -/
structure MigrationChange where
  id : Nat
  name : Str
  before : Str
  after : Str
  reason : Option Str := none
  tagsBefore : Option (List Str) := none
  tagsAfter : Option (List Str) := none
deriving DecidableEq

/-- The run-level MigrationResult. -/
structure MigrationResult where
  processed : Nat
  updated : Nat
  unchanged : Nat
  changes : List MigrationChange
  errors : List (Nat × Str)
  validationResults : Option MigrationValidation := none
deriving DecidableEq

/-- providerName display string of the validation error messages. -/
def providerDisplayName (provider : Str) : Str :=
  if provider = "opsgenie".toList then "Opsgenie".toList else "PagerDuty".toList

/-- contextMessage of the validation error messages. -/
def teamContextMessage (cfg : IncidentioConfig) : Str :=
  if cfg.webhookPerTeam then "When using team-specific webhooks".toList
  else "When adding team tags based on mappings".toList

/-- The error text thrown for unmapped services. -/
def unmappedError (providerName : Str) (unmapped : List Str) : Str :=
  "Missing mappings for ".toList ++ providerName ++ " services: ".toList ++
    joinSep ", ".toList unmapped ++
    "\n\nPlease add these services to your config file before migrating.".toList

/-- The error text thrown for null team assignments. -/
def nullMappingsError (cfg : IncidentioConfig) (providerName : Str)
    (nulls : List Str) : Str :=
  teamContextMessage cfg ++ ", all ".toList ++ providerName ++
    " services must have team assignments.\nMissing team assignments for: ".toList ++
    joinSep ", ".toList nulls ++
    "\n\nPlease edit your config file to assign incident.io teams to these ".toList ++
    providerName ++ " services before migrating.\n".toList

/-- The error text thrown for malformed team names. -/
def invalidTeamNamesError (cfg : IncidentioConfig) (providerName : Str)
    (invalid : List Str) : Str :=
  teamContextMessage cfg ++
    ", team names must be in a valid format (lowercase alphanumeric with hyphens).\nInvalid team names for services:\n".toList ++
    joinSep "\n".toList invalid ++
    "\n\nPlease edit your config file to use valid team names for these ".toList ++
    providerName ++ " services before migrating.\n".toList

/-- The fold state of the per-monitor loop of migrateMonitors. -/
structure RunAcc where
  processed : Nat
  updatedCount : Nat
  unchangedCount : Nat
  changes : List MigrationChange
  svc : MigrationService
  trace : List RemoteCall

/-- One iteration of the per-monitor loop.  processMonitor in this model
is total, so the catch branch that would append to the errors list is
never taken (in the source it only fires when processMonitor throws). -/
def runStep (env : Env) (options : MigrationOptions) (acc : RunAcc)
    (monitor : DatadogMonitor) : RunAcc :=
  let p := processMonitor acc.svc env monitor options
  let r := p.1
  if r.updated then
    { processed := acc.processed + 1
      updatedCount := acc.updatedCount + 1
      unchangedCount := acc.unchangedCount
      changes := acc.changes ++
        [{ id := monitor.id, name := monitor.name, before := monitor.message,
           after := if r.message.isEmpty then monitor.message else r.message,
           tagsBefore := r.tagsBefore, tagsAfter := r.tagsAfter }]
      svc := p.2.1
      trace := acc.trace ++ p.2.2 }
  else
    { processed := acc.processed + 1
      updatedCount := acc.updatedCount
      unchangedCount := acc.unchangedCount + 1
      changes := acc.changes ++
        (if options.verbose then
          [{ id := monitor.id, name := monitor.name, before := monitor.message,
             after := monitor.message, reason := r.reason }]
        else [])
      svc := p.2.1
      trace := acc.trace ++ p.2.2 }

/-- The validation gate at the head of migrateMonitors: either the thrown
Error text, or the validationResults to record on the run result. -/
def validationGate (svc : MigrationService) (options : MigrationOptions)
    (monitors : List DatadogMonitor) : Except Str (Option MigrationValidation) :=
  if options.type = MigrationType.addIncidentioWebhook then
    let v := validateProviderMappings svc.cfg svc.mappings monitors
    if !v.valid && !(options.dryRun.getD false) then
      let provider := sourceProvider svc.cfg
      let providerName := providerDisplayName provider
      let requiresTeamMappings := svc.cfg.webhookPerTeam || svc.cfg.addTeamTags
      if !v.unmappedServices.isEmpty then
        throw (unmappedError providerName v.unmappedServices)
      else if !v.nullMappings.isEmpty && requiresTeamMappings then
        throw (nullMappingsError svc.cfg providerName v.nullMappings)
      else if !v.invalidTeamNames.isEmpty && requiresTeamMappings then
        throw (invalidTeamNamesError svc.cfg providerName v.invalidTeamNames)
      else pure (some v)
    else pure (some v)
  else pure none

/-- migrateMonitors, starting from the already-fetched monitor list (the
remote listing call is an external collaborator).  A thrown Error is an
Except.error carrying the message text. -/
def migrateMonitors (svc : MigrationService) (env : Env)
    (allMonitors : List DatadogMonitor) (options : MigrationOptions) :
    Except Str (MigrationResult × MigrationService × List RemoteCall) :=
  let monitors :=
    match options.filter with
    | some f => filterMonitors allMonitors f
    | none => allMonitors
  match validationGate svc options monitors with
  | .error e => .error e
  | .ok validationResults =>
    let a := monitors.foldl (runStep env options)
      { processed := 0, updatedCount := 0, unchangedCount := 0,
        changes := [], svc := svc, trace := [] }
    .ok
      ({ processed := a.processed, updated := a.updatedCount,
         unchanged := a.unchangedCount, changes := a.changes, errors := [],
         validationResults := validationResults },
        a.svc, a.trace)

/-! ## Concrete fixtures for the evaluation theorems -/

/-- Remote platform where every call succeeds. -/
def envAllOk : Env := ⟨fun _ => true, fun _ => true, fun _ => true, fun _ => []⟩

/-- Remote platform with no existing webhooks and failing creation. -/
def envCreateFail : Env := ⟨fun _ => false, fun _ => false, fun _ => true, fun _ => []⟩

/-- Remote platform where the monitor update fails with "boom". -/
def envUpdateFail : Env :=
  ⟨fun _ => true, fun _ => true, fun _ => false, fun _ => "boom".toList⟩

/-- Remote platform with no existing webhooks and working creation. -/
def envNeedsCreate : Env := ⟨fun _ => false, fun _ => true, fun _ => true, fun _ => []⟩

def svcSingleDry : MigrationService :=
  { cfg := { webhookPerTeam := false }, mappings := [], ctorDryRun := true,
    createdWebhooks := [] }

def svcTeamDryQ : MigrationService :=
  { cfg := { webhookPerTeam := true },
    mappings := [{ pagerdutyService := some "a".toList,
                   incidentioTeam := some (some "q".toList) }],
    ctorDryRun := true, createdWebhooks := [] }

def svcCreateRetry : MigrationService :=
  { cfg := { webhookPerTeam := false, webhookUrl := some "u".toList,
             webhookToken := some "t".toList },
    mappings := [{ pagerdutyService := some "a".toList }],
    ctorDryRun := false, createdWebhooks := [] }

def svcUpdateFail : MigrationService :=
  { cfg := { webhookPerTeam := false },
    mappings := [{ pagerdutyService := some "a".toList }],
    ctorDryRun := false, createdWebhooks := [] }

def svcTeamLive : MigrationService :=
  { cfg := { webhookPerTeam := true },
    mappings := [{ pagerdutyService := some "a".toList,
                   incidentioTeam := some (some "b".toList) }],
    ctorDryRun := false, createdWebhooks := [] }

def svcTagAnnotate : MigrationService :=
  { cfg := { webhookPerTeam := false, addTeamTags := true },
    mappings := [{ pagerdutyService := some "api-critical".toList,
                   incidentioTeam := some (some "api-team".toList) }],
    ctorDryRun := false, createdWebhooks := [] }

def svcOpsgenie : MigrationService :=
  { cfg := { webhookPerTeam := true, source := some "opsgenie".toList },
    mappings := [{ opsgenieService := some "db".toList,
                   incidentioTeam := some (some "data".toList) }],
    ctorDryRun := true, createdWebhooks := [] }

def monDup : DatadogMonitor :=
  ⟨1, "m".toList, "@pagerduty-a @webhook-incident-io @webhook-incident-io".toList, []⟩

def monSpliceQ : DatadogMonitor :=
  ⟨2, "m".toList, "@pagerduty-a x@web@webhook-incident-iohook-incident-io-q".toList, []⟩

def monSpliceB : DatadogMonitor :=
  ⟨3, "m".toList, "@pagerduty-a @pagerduty-@webhook-incident-iost x".toList, []⟩

def monPd1 : DatadogMonitor := ⟨1, "m1".toList, "@pagerduty-a".toList, []⟩

def monPd2 : DatadogMonitor := ⟨2, "m2".toList, "@pagerduty-a".toList, []⟩

def monPdFail : DatadogMonitor := ⟨7, "m".toList, "@pagerduty-a".toList, []⟩

def monTagged : DatadogMonitor :=
  ⟨5, "m".toList, "@pagerduty-api-critical @webhook-incident-io".toList, []⟩

def monOps : DatadogMonitor := ⟨6, "m".toList, "@opsgenie-db".toList, []⟩

def optsAddDry : MigrationOptions := { dryRun := some true, type := .addIncidentioWebhook }

def optsAddTeamDry : MigrationOptions :=
  { dryRun := some true, type := .addIncidentioWebhook, webhookPerTeam := true }

def optsAddLive : MigrationOptions := { dryRun := some false, type := .addIncidentioWebhook }

def optsAddTeamLive : MigrationOptions :=
  { dryRun := some false, type := .addIncidentioWebhook, webhookPerTeam := true }

def optsAddLiveVerbose : MigrationOptions :=
  { dryRun := some false, type := .addIncidentioWebhook, verbose := true }

def optsRemDry : MigrationOptions :=
  { dryRun := some true, type := .removeIncidentioWebhook }

/-! ## Well-formed token model, expected sets, and proof-level state relations

For the structural theorems we consider messages that are whitespace-
delimited sequences of tokens; the token predicates and the render
function below define that class.  The remaining definitions are
specification devices used by the theorems (expected-webhook folds and
state relations), derived from the engine's semantics. -/

/-- A destination-marker token: the webhook literal plus a suffix that
the greedy group consumes whole (empty, or a class run led by a hyphen
with at least one more character). -/
def isDestTok (t : Str) : Bool :=
  webhookLit.isPrefixOf t &&
    ((t.drop webhookLit.length).all isTokenChar &&
      ((t.drop webhookLit.length).isEmpty || isExtSuffix (t.drop webhookLit.length)))

/-- A provider-service token for the service regex with literal lit. -/
def isProvTok (lit : Str) (t : Str) : Bool :=
  lit.isPrefixOf t &&
    (!(t.drop lit.length).isEmpty && (t.drop lit.length).all isTokenChar)

/-- A plain word token: nonempty, with no whitespace and no @ at all. -/
def isWordTok (t : Str) : Bool :=
  !t.isEmpty && t.all (fun c => !isWsChar c && !(c == '@'))

/-- Well-formed message token relative to the active provider literal. -/
def wfTok (lit : Str) (t : Str) : Bool :=
  isWordTok t || isProvTok lit t || isDestTok t

/-- Rendering a token list into a message: tokens joined by single
spaces. -/
def render : List Str → Str
  | [] => []
  | [t] => t
  | t :: ts => t ++ ' ' :: render ts

/-- The facts about a provider literal that the structural lemmas need;
both `@pagerduty-` and `@opsgenie-` satisfy all of them. -/
structure ProvLit (lit : Str) : Prop where
  nonempty : lit ≠ []
  headAt : lit.head? = some '@'
  noWs : ∀ c ∈ lit, isWsChar c = false
  tailNoAt : ∀ c ∈ lit.tail, (c == '@') = false
  len_le : lit.length ≤ webhookLit.length
  take_ne : webhookLit.take lit.length ≠ lit
  lastDash : lit.dropLast ++ ['-'] = lit
  bodyNoDash : ∀ c ∈ lit.dropLast, (c == '-') = false

/-- The pure value of the expected-webhook set computed by the per-team
loop: one setAdd per service, in order, using the loop's own
pagerduty-keyed lookup. -/
def perTeamExpectedFold (cfg : IncidentioConfig) (mappings : List MigrationMapping)
    (expected : List Str) (services : List Str) : List Str :=
  services.foldl
    (fun acc service =>
      setAdd acc ('@' :: getWebhookNameForTeam cfg
        (teamOrUndefined (mappings.find? (fun m => decide (m.pagerdutyService = some service))))))
    expected

/-- Relation between service states over one engine step: the remote
calls Δ it issued create any name at most once, a created name lands in
the memo set, and a name already memoized is never created again and
survives in the memo. -/
def CreateStep (svc svc' : MigrationService) (Δ : List RemoteCall) : Prop :=
  ∀ n, Δ.count (RemoteCall.createW n) ≤ 1 ∧
    (1 ≤ Δ.count (RemoteCall.createW n) → n ∈ svc'.createdWebhooks) ∧
    (n ∈ svc.createdWebhooks →
      n ∈ svc'.createdWebhooks ∧ Δ.count (RemoteCall.createW n) = 0)

/-- Run-level invariant: the accumulated trace creates each name at most
once, and a created name is memoized in the current service state. -/
def TraceInv (svc : MigrationService) (trace : List RemoteCall) : Prop :=
  ∀ n, trace.count (RemoteCall.createW n) ≤ 1 ∧
    (1 ≤ trace.count (RemoteCall.createW n) → n ∈ svc.createdWebhooks)

/-- A service key counted as fully mapped by the classification loop of
validateProviderMappings: present in the provider-keyed mapping table
with a non-null team field. -/
def mappedComplete (entries : List (Str × Option (Option Str))) (s : Str) : Bool :=
  mapHas entries s && !(decide (mapGet entries s = some (some none)))

/-- Token list for the witness message "hello @pagerduty-a". -/
def toksW1 : List Str := ["hello".toList, "@pagerduty-a".toList]

def monW1 : DatadogMonitor := ⟨1, "m".toList, render toksW1, []⟩

/-- The witness monitor carrying the committed first-run message. -/
def monW6 : DatadogMonitor :=
  ⟨1, "m".toList, (processMonitor svcSingleDry envAllOk monW1 optsAddDry).1.message, []⟩

/-- The C2 witness run: one webhook created once across two alerts. -/
def runW2 : Except Str (MigrationResult × MigrationService × List RemoteCall) :=
  migrateMonitors svcCreateRetry envNeedsCreate [monPd1, monPd2] optsAddLive


/-! ## List helper lemmas -/

theorem length_dropWhile_le (p : Char → Bool) (l : Str) :
    (l.dropWhile p).length ≤ l.length := by
  induction l with
  | nil => simp [List.dropWhile]
  | cons c cs ih =>
    rw [List.dropWhile_cons]
    by_cases h : p c = true
    · simp only [h, if_true]
      exact Nat.le_succ_of_le ih
    · simp [h]

theorem takeWhile_append_of_all {p : Char → Bool} {s : Str} (v : Str)
    (h : ∀ c ∈ s, p c = true) : (s ++ v).takeWhile p = s ++ v.takeWhile p := by
  induction s with
  | nil => simp
  | cons c cs ih =>
    have hc : p c = true := h c (List.mem_cons_self c cs)
    simp only [List.cons_append, List.takeWhile_cons, hc, if_true, List.cons.injEq, true_and]
    exact ih (fun d hd => h d (List.mem_cons_of_mem c hd))

theorem dropWhile_append_of_all {p : Char → Bool} {s : Str} (v : Str)
    (h : ∀ c ∈ s, p c = true) : (s ++ v).dropWhile p = v.dropWhile p := by
  induction s with
  | nil => simp
  | cons c cs ih =>
    have hc : p c = true := h c (List.mem_cons_self c cs)
    simp only [List.cons_append, List.dropWhile_cons, hc, if_true]
    exact ih (fun d hd => h d (List.mem_cons_of_mem c hd))

theorem length_takeWhile_add_dropWhile (p : Char → Bool) (l : Str) :
    (l.takeWhile p).length + (l.dropWhile p).length = l.length := by
  conv_rhs => rw [← List.takeWhile_append_dropWhile p l]
  rw [List.length_append]

/-! ## Fuel stability of the scanners -/

theorem findWebhooksFuel_stable :
    ∀ (n : Nat) (s : Str) (m : Nat), s.length < n → s.length < m →
      findWebhooksFuel n s = findWebhooksFuel m s := by
  intro n
  induction n with
  | zero => intro s m h _; exact absurd h (Nat.not_lt_zero _)
  | succ n ih =>
    intro s m hn hm
    cases s with
    | nil =>
      cases m with
      | zero => exact absurd hm (Nat.not_lt_zero _)
      | succ m => rfl
    | cons c cs =>
      cases m with
      | zero => exact absurd hm (Nat.not_lt_zero _)
      | succ m =>
        have hn' : cs.length < n := Nat.lt_of_succ_lt_succ hn
        have hm' : cs.length < m := Nat.lt_of_succ_lt_succ hm
        have hlit : webhookLit.length = 20 := by decide
        cases hp : webhookLit.isPrefixOf (c :: cs) with
        | false => simp only [findWebhooksFuel, hp]; exact ih cs m hn' hm'
        | true =>
          have hlen : webhookLit.length ≤ (c :: cs).length :=
            (List.isPrefixOf_iff_prefix.mp hp).length_le
          have hdroplen : ((c :: cs).drop webhookLit.length).length ≤ cs.length := by
            rw [List.length_drop]
            simp only [List.length_cons] at hlen ⊢
            omega
          cases he : isExtSuffix (((c :: cs).drop webhookLit.length).takeWhile isTokenChar) with
          | true =>
            have hdw : (((c :: cs).drop webhookLit.length).dropWhile isTokenChar).length ≤ cs.length :=
              le_trans (length_dropWhile_le _ _) hdroplen
            simp [findWebhooksFuel, hp, he]
            exact ih (((c :: cs).drop webhookLit.length).dropWhile isTokenChar) m
              (by omega) (by omega)
          | false =>
            simp [findWebhooksFuel, hp, he]
            exact ih ((c :: cs).drop webhookLit.length) m (by omega) (by omega)

theorem findMatchesFuel_stable (lit : Str) :
    ∀ (n : Nat) (s : Str) (m : Nat), s.length < n → s.length < m →
      findMatchesFuel lit n s = findMatchesFuel lit m s := by
  intro n
  induction n with
  | zero => intro s m h _; exact absurd h (Nat.not_lt_zero _)
  | succ n ih =>
    intro s m hn hm
    cases s with
    | nil =>
      cases m with
      | zero => exact absurd hm (Nat.not_lt_zero _)
      | succ m => rfl
    | cons c cs =>
      cases m with
      | zero => exact absurd hm (Nat.not_lt_zero _)
      | succ m =>
        have hn' : cs.length < n := Nat.lt_of_succ_lt_succ hn
        have hm' : cs.length < m := Nat.lt_of_succ_lt_succ hm
        cases hp : lit.isPrefixOf (c :: cs) with
        | false => simp only [findMatchesFuel, hp]; exact ih cs m hn' hm'
        | true =>
          have hdroplen : ((c :: cs).drop lit.length).length ≤ (c :: cs).length := by
            rw [List.length_drop]; omega
          cases ht : (((c :: cs).drop lit.length).takeWhile isTokenChar).isEmpty with
          | true =>
            simp [findMatchesFuel, hp, ht]
            exact ih cs m hn' hm'
          | false =>
            have htk : 1 ≤ (((c :: cs).drop lit.length).takeWhile isTokenChar).length := by
              cases hcase : ((c :: cs).drop lit.length).takeWhile isTokenChar with
              | nil => rw [hcase] at ht; simp [List.isEmpty] at ht
              | cons d ds => simp [hcase]
            have hdw : (((c :: cs).drop lit.length).dropWhile isTokenChar).length < (c :: cs).length := by
              have hsum := length_takeWhile_add_dropWhile isTokenChar ((c :: cs).drop lit.length)
              omega
            simp [findMatchesFuel, hp, ht]
            exact ih (((c :: cs).drop lit.length).dropWhile isTokenChar) m
              (by simp only [List.length_cons] at hdw ⊢; omega)
              (by simp only [List.length_cons] at hdw ⊢; omega)

theorem stripMatchesFuel_stable (lit : Str) :
    ∀ (n : Nat) (s : Str) (m : Nat), s.length < n → s.length < m →
      stripMatchesFuel lit n s = stripMatchesFuel lit m s := by
  intro n
  induction n with
  | zero => intro s m h _; exact absurd h (Nat.not_lt_zero _)
  | succ n ih =>
    intro s m hn hm
    cases s with
    | nil =>
      cases m with
      | zero => exact absurd hm (Nat.not_lt_zero _)
      | succ m => rfl
    | cons c cs =>
      cases m with
      | zero => exact absurd hm (Nat.not_lt_zero _)
      | succ m =>
        have hn' : cs.length < n := Nat.lt_of_succ_lt_succ hn
        have hm' : cs.length < m := Nat.lt_of_succ_lt_succ hm
        cases hp : lit.isPrefixOf (c :: cs) with
        | false => simp [stripMatchesFuel, hp]; rw [ih cs m hn' hm']
        | true =>
          cases ht : (((c :: cs).drop lit.length).takeWhile isTokenChar).isEmpty with
          | true =>
            simp [stripMatchesFuel, hp, ht]
            exact ih cs m hn' hm'
          | false =>
            have htk : 1 ≤ (((c :: cs).drop lit.length).takeWhile isTokenChar).length := by
              cases hcase : ((c :: cs).drop lit.length).takeWhile isTokenChar with
              | nil => rw [hcase] at ht; simp [List.isEmpty] at ht
              | cons d ds => simp [hcase]
            have hdroplen : ((c :: cs).drop lit.length).length ≤ (c :: cs).length := by
              rw [List.length_drop]; omega
            have hdw : (((c :: cs).drop lit.length).dropWhile isTokenChar).length < (c :: cs).length := by
              have hsum := length_takeWhile_add_dropWhile isTokenChar ((c :: cs).drop lit.length)
              omega
            simp [stripMatchesFuel, hp, ht]
            exact ih (((c :: cs).drop lit.length).dropWhile isTokenChar) m
              (by simp only [List.length_cons] at hdw ⊢; omega)
              (by simp only [List.length_cons] at hdw ⊢; omega)

/-! ## Scanner step lemmas at the wrapper level -/

theorem findIncidentioWebhooks_nil : findIncidentioWebhooks [] = [] := rfl

theorem findIncidentioWebhooks_cons_neg {c : Char} {cs : Str}
    (h : webhookLit.isPrefixOf (c :: cs) = false) :
    findIncidentioWebhooks (c :: cs) = findIncidentioWebhooks cs := by
  unfold findIncidentioWebhooks
  rw [show (c :: cs).length + 1 = cs.length + 1 + 1 by simp]
  simp [findWebhooksFuel, h]

theorem findIncidentioWebhooks_cons_lit {c : Char} {cs : Str}
    (hp : webhookLit.isPrefixOf (c :: cs) = true)
    (he : isExtSuffix (((c :: cs).drop webhookLit.length).takeWhile isTokenChar) = false) :
    findIncidentioWebhooks (c :: cs) =
      webhookLit :: findIncidentioWebhooks ((c :: cs).drop webhookLit.length) := by
  have hlen : webhookLit.length ≤ (c :: cs).length :=
    (List.isPrefixOf_iff_prefix.mp hp).length_le
  have hlit : webhookLit.length = 20 := by decide
  unfold findIncidentioWebhooks
  rw [show (c :: cs).length + 1 = cs.length + 1 + 1 by simp]
  simp only [findWebhooksFuel, hp, he, if_true, Bool.false_eq_true, if_false, List.cons.injEq,
    true_and]
  apply findWebhooksFuel_stable
  · rw [List.length_drop]
    simp only [List.length_cons] at hlen ⊢
    omega
  · rw [List.length_drop]
    omega

theorem findIncidentioWebhooks_cons_ext {c : Char} {cs : Str}
    (hp : webhookLit.isPrefixOf (c :: cs) = true)
    (he : isExtSuffix (((c :: cs).drop webhookLit.length).takeWhile isTokenChar) = true) :
    findIncidentioWebhooks (c :: cs) =
      (webhookLit ++ ((c :: cs).drop webhookLit.length).takeWhile isTokenChar) ::
        findIncidentioWebhooks (((c :: cs).drop webhookLit.length).dropWhile isTokenChar) := by
  have hlen : webhookLit.length ≤ (c :: cs).length :=
    (List.isPrefixOf_iff_prefix.mp hp).length_le
  have hlit : webhookLit.length = 20 := by decide
  have hdroplen : ((c :: cs).drop webhookLit.length).length ≤ cs.length := by
    rw [List.length_drop]
    simp only [List.length_cons] at hlen ⊢
    omega
  have hdw : (((c :: cs).drop webhookLit.length).dropWhile isTokenChar).length ≤ cs.length :=
    le_trans (length_dropWhile_le _ _) hdroplen
  unfold findIncidentioWebhooks
  rw [show (c :: cs).length + 1 = cs.length + 1 + 1 by simp]
  simp only [findWebhooksFuel, hp, he, if_true, List.cons.injEq, true_and]
  apply findWebhooksFuel_stable
  · omega
  · omega

theorem findMatches_nil (lit : Str) : findMatches lit [] = [] := rfl

theorem findMatches_cons_neg {lit : Str} {c : Char} {cs : Str}
    (h : lit.isPrefixOf (c :: cs) = false) :
    findMatches lit (c :: cs) = findMatches lit cs := by
  unfold findMatches
  rw [show (c :: cs).length + 1 = cs.length + 1 + 1 by simp]
  simp [findMatchesFuel, h]

theorem findMatches_cons_emptyTok {lit : Str} {c : Char} {cs : Str}
    (hp : lit.isPrefixOf (c :: cs) = true)
    (ht : (((c :: cs).drop lit.length).takeWhile isTokenChar).isEmpty = true) :
    findMatches lit (c :: cs) = findMatches lit cs := by
  unfold findMatches
  rw [show (c :: cs).length + 1 = cs.length + 1 + 1 by simp]
  simp [findMatchesFuel, hp, ht]

theorem findMatches_cons_match {lit : Str} {c : Char} {cs : Str}
    (hp : lit.isPrefixOf (c :: cs) = true)
    (ht : (((c :: cs).drop lit.length).takeWhile isTokenChar).isEmpty = false) :
    findMatches lit (c :: cs) =
      (lit ++ ((c :: cs).drop lit.length).takeWhile isTokenChar) ::
        findMatches lit (((c :: cs).drop lit.length).dropWhile isTokenChar) := by
  have htk : 1 ≤ (((c :: cs).drop lit.length).takeWhile isTokenChar).length := by
    cases hcase : ((c :: cs).drop lit.length).takeWhile isTokenChar with
    | nil => rw [hcase] at ht; simp [List.isEmpty] at ht
    | cons d ds => simp [hcase]
  have hdroplen : ((c :: cs).drop lit.length).length ≤ (c :: cs).length := by
    rw [List.length_drop]; omega
  have hdw : (((c :: cs).drop lit.length).dropWhile isTokenChar).length < (c :: cs).length := by
    have hsum := length_takeWhile_add_dropWhile isTokenChar ((c :: cs).drop lit.length)
    omega
  unfold findMatches
  rw [show (c :: cs).length + 1 = cs.length + 1 + 1 by simp]
  simp only [findMatchesFuel, hp, ht, Bool.false_eq_true, if_false, if_true, eq_self_iff_true,
    List.cons.injEq, true_and]
  apply findMatchesFuel_stable
  · simp only [List.length_cons] at hdw ⊢; omega
  · omega

theorem stripMatches_nil (lit : Str) : stripMatches lit [] = [] := rfl

theorem stripMatches_cons_neg {lit : Str} {c : Char} {cs : Str}
    (h : lit.isPrefixOf (c :: cs) = false) :
    stripMatches lit (c :: cs) = c :: stripMatches lit cs := by
  unfold stripMatches
  rw [show (c :: cs).length + 1 = cs.length + 1 + 1 by simp]
  simp [stripMatchesFuel, h]

theorem stripMatches_cons_emptyTok {lit : Str} {c : Char} {cs : Str}
    (hp : lit.isPrefixOf (c :: cs) = true)
    (ht : (((c :: cs).drop lit.length).takeWhile isTokenChar).isEmpty = true) :
    stripMatches lit (c :: cs) = c :: stripMatches lit cs := by
  unfold stripMatches
  rw [show (c :: cs).length + 1 = cs.length + 1 + 1 by simp]
  simp [stripMatchesFuel, hp, ht]

theorem stripMatches_cons_match {lit : Str} {c : Char} {cs : Str}
    (hp : lit.isPrefixOf (c :: cs) = true)
    (ht : (((c :: cs).drop lit.length).takeWhile isTokenChar).isEmpty = false) :
    stripMatches lit (c :: cs) =
      stripMatches lit (((c :: cs).drop lit.length).dropWhile isTokenChar) := by
  have htk : 1 ≤ (((c :: cs).drop lit.length).takeWhile isTokenChar).length := by
    cases hcase : ((c :: cs).drop lit.length).takeWhile isTokenChar with
    | nil => rw [hcase] at ht; simp [List.isEmpty] at ht
    | cons d ds => simp [hcase]
  have hdroplen : ((c :: cs).drop lit.length).length ≤ (c :: cs).length := by
    rw [List.length_drop]; omega
  have hdw : (((c :: cs).drop lit.length).dropWhile isTokenChar).length < (c :: cs).length := by
    have hsum := length_takeWhile_add_dropWhile isTokenChar ((c :: cs).drop lit.length)
    omega
  unfold stripMatches
  rw [show (c :: cs).length + 1 = cs.length + 1 + 1 by simp]
  simp only [stripMatchesFuel, hp, ht, Bool.false_eq_true, if_false, if_true, eq_self_iff_true]
  apply stripMatchesFuel_stable
  · simp only [List.length_cons] at hdw ⊢; omega
  · omega

/-! ## Prefix and occurrence helper lemmas -/

theorem isPrefixOf_false_of_head_ne {p : Str} {c : Char} {cs : Str}
    (hp : p.head? = some '@') (hc : ¬ c = '@') : p.isPrefixOf (c :: cs) = false := by
  cases p with
  | nil => simp at hp
  | cons a as =>
    have ha : a = '@' := by simpa using hp
    subst ha
    simp only [List.isPrefixOf, Bool.and_eq_false_iff]
    left
    exact beq_eq_false_iff_ne.mpr (fun h => hc h.symm)

theorem take_of_isPrefixOf_append {p q : Str} (r : Str) (hlen : q.length ≤ p.length)
    (h : p.isPrefixOf (q ++ r) = true) : p.take q.length = q := by
  have hp := List.prefix_iff_eq_take.mp (List.isPrefixOf_iff_prefix.mp h)
  rw [hp, List.take_take, min_eq_left hlen, List.take_left]

theorem isPrefixOf_append_false_of_take_ne {p q : Str} (r : Str)
    (hlen : q.length ≤ p.length) (hne : p.take q.length ≠ q) :
    p.isPrefixOf (q ++ r) = false := by
  cases hb : p.isPrefixOf (q ++ r) with
  | false => rfl
  | true => exact absurd (take_of_isPrefixOf_append r hlen hb) hne

theorem prefix_append_elem {w u v : Str} {c : Char} (hc : c ∉ w)
    (h : w <+: u ++ c :: v) : w <+: u := by
  rcases h with ⟨t, ht⟩
  by_cases hl : w.length ≤ u.length
  · have h1 : (u ++ c :: v).take w.length = u.take w.length := by
      rw [List.take_append_of_le_length hl]
    have h2 : w = (u ++ c :: v).take w.length := by
      rw [← ht, List.take_left]
    have h3 : w = List.take w.length u := by
      conv_lhs => rw [h2, h1]
    exact List.prefix_iff_eq_take.mpr h3
  · exfalso
    have h1 : (u ++ c :: v)[u.length]? = some c := by
      rw [List.getElem?_append_right (Nat.le_refl _)]
      simp
    have h2 : (w ++ t)[u.length]? = w[u.length]? := by
      rw [List.getElem?_append]
      rw [if_pos (by omega)]
    rw [ht, h1] at h2
    exact hc (List.mem_iff_getElem?.mpr ⟨u.length, h2.symm⟩)

theorem infix_append_elem {w u v : Str} {c : Char} (hc : c ∉ w)
    (h : w <:+: u ++ c :: v) : w <:+: u ∨ w <:+: v := by
  induction u with
  | nil =>
    rw [List.nil_append] at h
    rcases List.infix_cons_iff.mp h with hpre | hinf
    · have : w <+: ([] : Str) := prefix_append_elem hc (by simpa using hpre)
      left
      simp [List.prefix_nil.mp this]
    · right; exact hinf
  | cons b bs ih =>
    rcases List.infix_cons_iff.mp h with hpre | hinf
    · left
      exact (prefix_append_elem hc (by simpa using hpre)).isInfix
    · rcases ih hinf with h1 | h2
      · left; exact List.infix_cons h1
      · right; exact h2

/-! ## Well-formed token model

For the structural theorems we consider messages that are whitespace-
delimited sequences of tokens: plain words without @, provider-service
markers, and destination-webhook markers, each a whole token.  The
counterexamples show the source misbehaves outside this class (markers
spliced into other text), so the amended claims quantify over it. -/

theorem render_cons_cons (t r : Str) (rs : List Str) :
    render (t :: r :: rs) = t ++ ' ' :: render (r :: rs) := rfl

theorem provLit_pagerduty : ProvLit pagerdutyLit := by
  constructor <;> decide

theorem provLit_opsgenie : ProvLit opsgenieLit := by
  constructor <;> decide

theorem provLit_of_regex (provider : Str) :
    ProvLit (getServiceRegexForProvider provider) := by
  unfold getServiceRegexForProvider
  by_cases h : provider = "opsgenie".toList
  · simp only [h, if_true]; exact provLit_opsgenie
  · simp only [h, if_false]; exact provLit_pagerduty

theorem tokenChar_not_ws {c : Char} (h : isTokenChar c = true) : isWsChar c = false := by
  cases hw : isWsChar c with
  | false => rfl
  | true =>
    exfalso
    have hc : c = ' ' ∨ c = '\t' ∨ c = '\n' ∨ c = '\r' ∨ c = '\x0b' ∨ c = '\x0c' := by
      simpa [isWsChar, or_assoc] using hw
    rcases hc with h1 | h1 | h1 | h1 | h1 | h1 <;> subst h1 <;> exact absurd h (by decide)

theorem tokenChar_not_at {c : Char} (h : isTokenChar c = true) : (c == '@') = false := by
  cases ha : c == '@' with
  | false => rfl
  | true =>
    have : c = '@' := beq_iff_eq.mp ha
    subst this
    exact absurd h (by decide)

theorem webhookLit_headq : webhookLit.head? = some '@' := by decide

theorem webhookLit_no_ws : ∀ c ∈ webhookLit, isWsChar c = false := by decide

theorem webhookLit_isPrefixOf_false_of_head_ne {c : Char} {cs : Str} (hc : ¬ c = '@') :
    webhookLit.isPrefixOf (c :: cs) = false :=
  isPrefixOf_false_of_head_ne webhookLit_headq hc

/-- Scanner with the shorter pattern cannot match at the head of a string
beginning with a longer, different-prefixed text. -/
theorem isPrefixOf_append_false_of_take_ne' {p q : Str} (r : Str)
    (hlen : p.length ≤ q.length) (hne : q.take p.length ≠ p) :
    p.isPrefixOf (q ++ r) = false := by
  cases hb : p.isPrefixOf (q ++ r) with
  | false => rfl
  | true =>
    have hpre := List.prefix_iff_eq_take.mp (List.isPrefixOf_iff_prefix.mp hb)
    rw [List.take_append_of_le_length hlen] at hpre
    exact absurd hpre.symm hne

/-! ### Region lemmas: the scanners skip @-free text -/

theorem findIncidentioWebhooks_append_noAt {u : Str} (v : Str)
    (hu : ∀ c ∈ u, (c == '@') = false) :
    findIncidentioWebhooks (u ++ v) = findIncidentioWebhooks v := by
  induction u with
  | nil => simp
  | cons c cs ih =>
    have hc : ¬ c = '@' := by
      have := hu c (List.mem_cons_self c cs)
      simpa using this
    rw [List.cons_append,
      findIncidentioWebhooks_cons_neg (webhookLit_isPrefixOf_false_of_head_ne hc)]
    exact ih (fun d hd => hu d (List.mem_cons_of_mem c hd))

theorem findMatches_append_noAt {lit : Str} (hl : ProvLit lit) {u : Str} (v : Str)
    (hu : ∀ c ∈ u, (c == '@') = false) :
    findMatches lit (u ++ v) = findMatches lit v := by
  induction u with
  | nil => simp
  | cons c cs ih =>
    have hc : ¬ c = '@' := by
      have := hu c (List.mem_cons_self c cs)
      simpa using this
    rw [List.cons_append,
      findMatches_cons_neg (isPrefixOf_false_of_head_ne hl.headAt hc)]
    exact ih (fun d hd => hu d (List.mem_cons_of_mem c hd))

theorem findIncidentioWebhooks_space (x : Str) :
    findIncidentioWebhooks (' ' :: x) = findIncidentioWebhooks x :=
  findIncidentioWebhooks_cons_neg (webhookLit_isPrefixOf_false_of_head_ne (by decide))

theorem findMatches_space {lit : Str} (hl : ProvLit lit) (x : Str) :
    findMatches lit (' ' :: x) = findMatches lit x :=
  findMatches_cons_neg (isPrefixOf_false_of_head_ne hl.headAt (by decide))

/-! ### Token-level scanner lemmas -/

theorem append_drop_of_isPrefixOf {p t : Str} (h : p.isPrefixOf t = true) :
    p ++ t.drop p.length = t := by
  obtain ⟨k, hk⟩ := List.isPrefixOf_iff_prefix.mp h
  rw [← hk, List.drop_left]

theorem findIncidentioWebhooks_posLit {s : Str}
    (hp : webhookLit.isPrefixOf s = true)
    (he : isExtSuffix ((s.drop webhookLit.length).takeWhile isTokenChar) = false) :
    findIncidentioWebhooks s =
      webhookLit :: findIncidentioWebhooks (s.drop webhookLit.length) := by
  cases s with
  | nil => exact absurd hp (by decide)
  | cons c cs => exact findIncidentioWebhooks_cons_lit hp he

theorem findIncidentioWebhooks_posExt {s : Str}
    (hp : webhookLit.isPrefixOf s = true)
    (he : isExtSuffix ((s.drop webhookLit.length).takeWhile isTokenChar) = true) :
    findIncidentioWebhooks s =
      (webhookLit ++ (s.drop webhookLit.length).takeWhile isTokenChar) ::
        findIncidentioWebhooks ((s.drop webhookLit.length).dropWhile isTokenChar) := by
  cases s with
  | nil => exact absurd hp (by decide)
  | cons c cs => exact findIncidentioWebhooks_cons_ext hp he

theorem findMatches_posMatch {lit s : Str}
    (hl : ProvLit lit) (hp : lit.isPrefixOf s = true)
    (ht : ((s.drop lit.length).takeWhile isTokenChar).isEmpty = false) :
    findMatches lit s =
      (lit ++ (s.drop lit.length).takeWhile isTokenChar) ::
        findMatches lit ((s.drop lit.length).dropWhile isTokenChar) := by
  cases s with
  | nil =>
    exfalso
    have := List.isPrefixOf_iff_prefix.mp hp
    exact hl.nonempty (List.prefix_nil.mp this)
  | cons c cs => exact findMatches_cons_match hp ht

theorem destTok_fields {t : Str} (ht : isDestTok t = true) :
    webhookLit.isPrefixOf t = true ∧
    (∀ c ∈ t.drop webhookLit.length, isTokenChar c = true) ∧
    ((t.drop webhookLit.length).isEmpty = true ∨
      isExtSuffix (t.drop webhookLit.length) = true) := by
  simp only [isDestTok, Bool.and_eq_true, Bool.or_eq_true, List.all_eq_true] at ht
  exact ⟨ht.1, ht.2.1, ht.2.2⟩

theorem provTok_fields {lit t : Str} (ht : isProvTok lit t = true) :
    lit.isPrefixOf t = true ∧
    (t.drop lit.length).isEmpty = false ∧
    (∀ c ∈ t.drop lit.length, isTokenChar c = true) := by
  simp only [isProvTok, Bool.and_eq_true, Bool.not_eq_true', List.all_eq_true] at ht
  exact ⟨ht.1, ht.2.1, ht.2.2⟩

theorem wordTok_fields {t : Str} (ht : isWordTok t = true) :
    t.isEmpty = false ∧ (∀ c ∈ t, isWsChar c = false ∧ (c == '@') = false) := by
  simp only [isWordTok, Bool.and_eq_true, Bool.not_eq_true', List.all_eq_true] at ht
  refine ⟨ht.1, fun c hc => ?_⟩
  have := ht.2 c hc
  simp only [Bool.and_eq_true, Bool.not_eq_true'] at this
  exact this

theorem word_not_dest {t : Str} (ht : isWordTok t = true) : isDestTok t = false := by
  cases hd : isDestTok t with
  | false => rfl
  | true =>
    exfalso
    obtain ⟨hp, -, -⟩ := destTok_fields hd
    obtain ⟨-, hno⟩ := wordTok_fields ht
    obtain ⟨k, hk⟩ := List.isPrefixOf_iff_prefix.mp hp
    have hat : '@' ∈ t := by
      rw [← hk]
      have : '@' ∈ webhookLit := by decide
      exact List.mem_append_left _ this
    have := (hno '@' hat).2
    simp at this

theorem word_not_prov {lit t : Str} (hl : ProvLit lit) (ht : isWordTok t = true) :
    isProvTok lit t = false := by
  cases hd : isProvTok lit t with
  | false => rfl
  | true =>
    exfalso
    obtain ⟨hp, -, -⟩ := provTok_fields hd
    obtain ⟨-, hno⟩ := wordTok_fields ht
    obtain ⟨k, hk⟩ := List.isPrefixOf_iff_prefix.mp hp
    have hat : '@' ∈ t := by
      rw [← hk]
      apply List.mem_append_left
      cases hlit : lit with
      | nil => exact absurd hlit hl.nonempty
      | cons a as =>
        have : a = '@' := by
          have := hl.headAt
          rw [hlit] at this
          simpa using this
        rw [this]
        exact List.mem_cons_self _ _
    have := (hno '@' hat).2
    simp at this

theorem prov_not_dest {lit t : Str} (hl : ProvLit lit) (ht : isProvTok lit t = true) :
    isDestTok t = false := by
  cases hd : isDestTok t with
  | false => rfl
  | true =>
    exfalso
    obtain ⟨hpw, -, -⟩ := destTok_fields hd
    obtain ⟨hpl, -, -⟩ := provTok_fields ht
    have hk := append_drop_of_isPrefixOf hpl
    rw [← hk] at hpw
    rw [isPrefixOf_append_false_of_take_ne _ hl.len_le hl.take_ne] at hpw
    exact Bool.false_ne_true hpw

theorem dest_not_prov {lit t : Str} (hl : ProvLit lit) (ht : isDestTok t = true) :
    isProvTok lit t = false := by
  cases hd : isProvTok lit t with
  | false => rfl
  | true =>
    exfalso
    obtain ⟨hpw, -, -⟩ := destTok_fields ht
    obtain ⟨hpl, -, -⟩ := provTok_fields hd
    have hk := append_drop_of_isPrefixOf hpw
    rw [← hk] at hpl
    rw [isPrefixOf_append_false_of_take_ne' _ hl.len_le hl.take_ne] at hpl
    exact Bool.false_ne_true hpl

theorem findIncidentioWebhooks_wordTok {t : Str} (v : Str) (ht : isWordTok t = true) :
    findIncidentioWebhooks (t ++ v) = findIncidentioWebhooks v := by
  obtain ⟨-, hno⟩ := wordTok_fields ht
  exact findIncidentioWebhooks_append_noAt v (fun c hc => (hno c hc).2)

theorem tail_append_of_ne_nil {u : Str} (w : Str) (h : u ≠ []) :
    (u ++ w).tail = u.tail ++ w := by
  cases u with
  | nil => exact absurd rfl h
  | cons a as => rfl

theorem findW_skip_token {t v : Str} (hne : t ≠ [])
    (hhead : webhookLit.isPrefixOf (t ++ v) = false)
    (htail : ∀ c ∈ t.tail, (c == '@') = false) :
    findIncidentioWebhooks (t ++ v) = findIncidentioWebhooks v := by
  cases t with
  | nil => exact absurd rfl hne
  | cons a as =>
    rw [List.cons_append, findIncidentioWebhooks_cons_neg (by
      rw [← List.cons_append]; exact hhead)]
    exact findIncidentioWebhooks_append_noAt v (by simpa using htail)

theorem findM_skip_token {lit : Str} (hl : ProvLit lit) {t v : Str} (hne : t ≠ [])
    (hhead : lit.isPrefixOf (t ++ v) = false)
    (htail : ∀ c ∈ t.tail, (c == '@') = false) :
    findMatches lit (t ++ v) = findMatches lit v := by
  cases t with
  | nil => exact absurd rfl hne
  | cons a as =>
    rw [List.cons_append, findMatches_cons_neg (by
      rw [← List.cons_append]; exact hhead)]
    exact findMatches_append_noAt hl v (by simpa using htail)

theorem provTok_ne_nil {lit t : Str} (hl : ProvLit lit) (ht : isProvTok lit t = true) :
    t ≠ [] := by
  obtain ⟨hpl, -, -⟩ := provTok_fields ht
  intro h
  subst h
  exact hl.nonempty (List.prefix_nil.mp (List.isPrefixOf_iff_prefix.mp hpl))

theorem destTok_ne_nil {t : Str} (ht : isDestTok t = true) : t ≠ [] := by
  obtain ⟨hp, -, -⟩ := destTok_fields ht
  intro h
  subst h
  exact absurd hp (by decide)

theorem provTok_tail_noAt {lit t : Str} (hl : ProvLit lit) (ht : isProvTok lit t = true) :
    ∀ c ∈ t.tail, (c == '@') = false := by
  obtain ⟨hpl, -, hall⟩ := provTok_fields ht
  have hk := append_drop_of_isPrefixOf hpl
  intro c hc
  rw [← hk, tail_append_of_ne_nil _ hl.nonempty] at hc
  rcases List.mem_append.mp hc with h1 | h1
  · exact hl.tailNoAt c h1
  · exact tokenChar_not_at (hall c h1)

theorem destTok_tail_noAt {t : Str} (ht : isDestTok t = true) :
    ∀ c ∈ t.tail, (c == '@') = false := by
  obtain ⟨hp, hall, -⟩ := destTok_fields ht
  have hk := append_drop_of_isPrefixOf hp
  intro c hc
  rw [← hk, tail_append_of_ne_nil _ (by decide)] at hc
  rcases List.mem_append.mp hc with h1 | h1
  · have hwt : ∀ d ∈ webhookLit.tail, (d == '@') = false := by decide
    exact hwt c h1
  · exact tokenChar_not_at (hall c h1)

theorem findIncidentioWebhooks_provTok {lit t : Str} (hl : ProvLit lit) (v : Str)
    (ht : isProvTok lit t = true) :
    findIncidentioWebhooks (t ++ v) = findIncidentioWebhooks v := by
  obtain ⟨hpl, -, -⟩ := provTok_fields ht
  have hk := append_drop_of_isPrefixOf hpl
  have hhead : webhookLit.isPrefixOf (t ++ v) = false := by
    conv_lhs => rw [← hk, List.append_assoc]
    exact isPrefixOf_append_false_of_take_ne _ hl.len_le hl.take_ne
  exact findW_skip_token (provTok_ne_nil hl ht) hhead (provTok_tail_noAt hl ht)

theorem findIncidentioWebhooks_destTok {t : Str} (v : Str) (ht : isDestTok t = true)
    (hv : v = [] ∨ ∃ v', v = ' ' :: v') :
    findIncidentioWebhooks (t ++ v) = t :: findIncidentioWebhooks v := by
  obtain ⟨hp, hall, hshape⟩ := destTok_fields ht
  have hk := append_drop_of_isPrefixOf hp
  have hp2 : webhookLit.isPrefixOf (t ++ v) = true := by
    rw [← hk, List.append_assoc]
    exact List.isPrefixOf_iff_prefix.mpr (List.prefix_append _ _)
  have hdrop : (t ++ v).drop webhookLit.length = t.drop webhookLit.length ++ v := by
    conv_lhs => rw [← hk]
    rw [List.append_assoc, List.drop_left]
  have htake : ((t ++ v).drop webhookLit.length).takeWhile isTokenChar =
      t.drop webhookLit.length := by
    rw [hdrop]
    rcases hv with rfl | ⟨v', rfl⟩
    · rw [List.append_nil]
      have := takeWhile_append_of_all ([] : Str) hall
      simpa using this
    · rw [takeWhile_append_of_all _ hall]
      simp [List.takeWhile_cons, (by decide : isTokenChar ' ' = false)]
  have hdw : ((t ++ v).drop webhookLit.length).dropWhile isTokenChar = v := by
    rw [hdrop]
    rcases hv with rfl | ⟨v', rfl⟩
    · rw [List.append_nil]
      have := dropWhile_append_of_all ([] : Str) hall
      simpa using this
    · rw [dropWhile_append_of_all _ hall]
      simp [List.dropWhile_cons, (by decide : isTokenChar ' ' = false)]
  rcases hshape with hse | hext
  · have hs0 : t.drop webhookLit.length = [] := by
      cases hcase : t.drop webhookLit.length with
      | nil => rfl
      | cons d ds => rw [hcase] at hse; simp [List.isEmpty] at hse
    have he : isExtSuffix (((t ++ v).drop webhookLit.length).takeWhile isTokenChar) = false := by
      rw [htake, hs0]; rfl
    rw [findIncidentioWebhooks_posLit hp2 he, hdrop, hs0, List.nil_append]
    have ht0 : t = webhookLit := by rw [← hk, hs0, List.append_nil]
    rw [← ht0]
  · have he : isExtSuffix (((t ++ v).drop webhookLit.length).takeWhile isTokenChar) = true := by
      rw [htake]; exact hext
    rw [findIncidentioWebhooks_posExt hp2 he, htake, hdw, hk]

theorem findMatches_wordTok {lit : Str} (hl : ProvLit lit) {t : Str} (v : Str)
    (ht : isWordTok t = true) :
    findMatches lit (t ++ v) = findMatches lit v := by
  obtain ⟨-, hno⟩ := wordTok_fields ht
  exact findMatches_append_noAt hl v (fun c hc => (hno c hc).2)

theorem findMatches_destTok {lit : Str} (hl : ProvLit lit) {t : Str} (v : Str)
    (ht : isDestTok t = true) :
    findMatches lit (t ++ v) = findMatches lit v := by
  obtain ⟨hpw, -, -⟩ := destTok_fields ht
  have hk := append_drop_of_isPrefixOf hpw
  have hhead : lit.isPrefixOf (t ++ v) = false := by
    conv_lhs => rw [← hk, List.append_assoc]
    exact isPrefixOf_append_false_of_take_ne' _ hl.len_le hl.take_ne
  exact findM_skip_token hl (destTok_ne_nil ht) hhead (destTok_tail_noAt ht)

theorem findMatches_provTok {lit t : Str} (hl : ProvLit lit) (v : Str)
    (ht : isProvTok lit t = true) (hv : v = [] ∨ ∃ v', v = ' ' :: v') :
    findMatches lit (t ++ v) = t :: findMatches lit v := by
  obtain ⟨hpl, hne, hall⟩ := provTok_fields ht
  have hk := append_drop_of_isPrefixOf hpl
  have hp2 : lit.isPrefixOf (t ++ v) = true := by
    rw [← hk, List.append_assoc]
    exact List.isPrefixOf_iff_prefix.mpr (List.prefix_append _ _)
  have hdrop : (t ++ v).drop lit.length = t.drop lit.length ++ v := by
    conv_lhs => rw [← hk]
    rw [List.append_assoc, List.drop_left]
  have htake : ((t ++ v).drop lit.length).takeWhile isTokenChar = t.drop lit.length := by
    rw [hdrop]
    rcases hv with rfl | ⟨v', rfl⟩
    · rw [List.append_nil]
      have := takeWhile_append_of_all ([] : Str) hall
      simpa using this
    · rw [takeWhile_append_of_all _ hall]
      simp [List.takeWhile_cons, (by decide : isTokenChar ' ' = false)]
  have hdw : ((t ++ v).drop lit.length).dropWhile isTokenChar = v := by
    rw [hdrop]
    rcases hv with rfl | ⟨v', rfl⟩
    · rw [List.append_nil]
      have := dropWhile_append_of_all ([] : Str) hall
      simpa using this
    · rw [dropWhile_append_of_all _ hall]
      simp [List.dropWhile_cons, (by decide : isTokenChar ' ' = false)]
  have hte : (((t ++ v).drop lit.length).takeWhile isTokenChar).isEmpty = false := by
    rw [htake]; exact hne
  rw [findMatches_posMatch hl hp2 hte, htake, hdw, hk]

/-! ### Master lemmas: scanners on rendered token lists -/

theorem findIncidentioWebhooks_render {lit : Str} (hl : ProvLit lit) :
    ∀ toks : List Str, (∀ t ∈ toks, wfTok lit t = true) →
      findIncidentioWebhooks (render toks) = toks.filter isDestTok := by
  intro toks
  induction toks with
  | nil => intro _; rfl
  | cons t rest ih =>
    intro hwf
    have hwt : wfTok lit t = true := hwf t (List.mem_cons_self _ _)
    have hwrest : ∀ u ∈ rest, wfTok lit u = true :=
      fun u hu => hwf u (List.mem_cons_of_mem _ hu)
    have hcases : isWordTok t = true ∨ isProvTok lit t = true ∨ isDestTok t = true := by
      simpa [wfTok, Bool.or_eq_true, or_assoc] using hwt
    cases rest with
    | nil =>
      have hr : render [t] = t ++ [] := by simp [render]
      rw [hr]
      rcases hcases with hw | hp | hd
      · rw [findIncidentioWebhooks_wordTok _ hw]
        simp [List.filter_cons, word_not_dest hw, findIncidentioWebhooks_nil]
      · rw [findIncidentioWebhooks_provTok hl _ hp]
        simp [List.filter_cons, prov_not_dest hl hp, findIncidentioWebhooks_nil]
      · rw [findIncidentioWebhooks_destTok _ hd (Or.inl rfl)]
        simp [List.filter_cons, hd, findIncidentioWebhooks_nil]
    | cons r rs =>
      rw [render_cons_cons]
      rcases hcases with hw | hp | hd
      · rw [findIncidentioWebhooks_wordTok _ hw, findIncidentioWebhooks_space,
          ih hwrest]
        simp [List.filter_cons, word_not_dest hw]
      · rw [findIncidentioWebhooks_provTok hl _ hp, findIncidentioWebhooks_space,
          ih hwrest]
        simp [List.filter_cons, prov_not_dest hl hp]
      · rw [findIncidentioWebhooks_destTok _ hd (Or.inr ⟨render (r :: rs), rfl⟩),
          findIncidentioWebhooks_space, ih hwrest]
        simp [List.filter_cons, hd]

theorem findMatches_render {lit : Str} (hl : ProvLit lit) :
    ∀ toks : List Str, (∀ t ∈ toks, wfTok lit t = true) →
      findMatches lit (render toks) = toks.filter (isProvTok lit) := by
  intro toks
  induction toks with
  | nil => intro _; rfl
  | cons t rest ih =>
    intro hwf
    have hwt : wfTok lit t = true := hwf t (List.mem_cons_self _ _)
    have hwrest : ∀ u ∈ rest, wfTok lit u = true :=
      fun u hu => hwf u (List.mem_cons_of_mem _ hu)
    have hcases : isWordTok t = true ∨ isProvTok lit t = true ∨ isDestTok t = true := by
      simpa [wfTok, Bool.or_eq_true, or_assoc] using hwt
    cases rest with
    | nil =>
      have hr : render [t] = t ++ [] := by simp [render]
      rw [hr]
      rcases hcases with hw | hp | hd
      · rw [findMatches_wordTok hl _ hw]
        simp [List.filter_cons, word_not_prov hl hw, findMatches_nil]
      · rw [findMatches_provTok hl _ hp (Or.inl rfl)]
        simp [List.filter_cons, hp, findMatches_nil]
      · rw [findMatches_destTok hl _ hd]
        simp [List.filter_cons, dest_not_prov hl hd, findMatches_nil]
    | cons r rs =>
      rw [render_cons_cons]
      rcases hcases with hw | hp | hd
      · rw [findMatches_wordTok hl _ hw, findMatches_space hl, ih hwrest]
        simp [List.filter_cons, word_not_prov hl hw]
      · rw [findMatches_provTok hl _ hp (Or.inr ⟨render (r :: rs), rfl⟩),
          findMatches_space hl, ih hwrest]
        simp [List.filter_cons, hp]
      · rw [findMatches_destTok hl _ hd, findMatches_space hl, ih hwrest]
        simp [List.filter_cons, dest_not_prov hl hd]

/-! ### replaceFirst, collapseWs, jsTrim on rendered token lists -/

theorem mem_of_getLast?_eq {l : Str} {c : Char} (h : l.getLast? = some c) : c ∈ l := by
  rw [List.getLast?_eq_head?_reverse] at h
  cases hr : l.reverse with
  | nil => rw [hr] at h; simp at h
  | cons d ds =>
    rw [hr] at h
    simp only [List.head?] at h
    have hd : d = c := by simpa using h
    subst hd
    have : d ∈ l.reverse := by rw [hr]; exact List.mem_cons_self _ _
    exact List.mem_reverse.mp this

theorem replaceFirst_of_isPrefixOf {pat s : Str} (h : pat.isPrefixOf s = true) :
    replaceFirst pat s = s.drop pat.length := by
  cases s with
  | nil => simp [replaceFirst, h]
  | cons c cs => simp [replaceFirst, h]

theorem replaceFirst_cons_neg {pat : Str} {c : Char} {cs : Str}
    (h : pat.isPrefixOf (c :: cs) = false) :
    replaceFirst pat (c :: cs) = c :: replaceFirst pat cs := by
  simp [replaceFirst, h]

theorem replaceFirst_first_occ {w : Str} (y : Str) :
    ∀ x : Str, (∀ x2, x2 ≠ [] → x2 <:+ x → w.isPrefixOf (x2 ++ (w ++ y)) = false) →
      replaceFirst w (x ++ (w ++ y)) = x ++ y := by
  intro x
  induction x with
  | nil =>
    intro _
    simp only [List.nil_append]
    rw [replaceFirst_of_isPrefixOf (List.isPrefixOf_iff_prefix.mpr (List.prefix_append _ _)),
      List.drop_left]
  | cons c cs ih =>
    intro h
    have h' : w.isPrefixOf (c :: (cs ++ (w ++ y))) = false := by
      have := h (c :: cs) (by simp) (List.suffix_refl _)
      simpa using this
    rw [List.cons_append, replaceFirst_cons_neg h',
      ih (fun x2 hne hsuf => h x2 hne (hsuf.trans (List.suffix_cons c cs)))]
    rfl

theorem destTok_no_ws {t : Str} (ht : isDestTok t = true) :
    ∀ c ∈ t, isWsChar c = false := by
  obtain ⟨hp, hall, -⟩ := destTok_fields ht
  have hk := append_drop_of_isPrefixOf hp
  intro c hc
  rw [← hk] at hc
  rcases List.mem_append.mp hc with h1 | h1
  · exact webhookLit_no_ws c h1
  · exact tokenChar_not_ws (hall c h1)

theorem wfTok_no_ws {lit t : Str} (hl : ProvLit lit) (ht : wfTok lit t = true) :
    ∀ c ∈ t, isWsChar c = false := by
  have hcases : isWordTok t = true ∨ isProvTok lit t = true ∨ isDestTok t = true := by
    simpa [wfTok, Bool.or_eq_true, or_assoc] using ht
  rcases hcases with hw | hp | hd
  · exact fun c hc => ((wordTok_fields hw).2 c hc).1
  · obtain ⟨hpl, -, hall⟩ := provTok_fields hp
    have hk := append_drop_of_isPrefixOf hpl
    intro c hc
    rw [← hk] at hc
    rcases List.mem_append.mp hc with h1 | h1
    · exact hl.noWs c h1
    · exact tokenChar_not_ws (hall c h1)
  · exact destTok_no_ws hd

theorem wfTok_ne_nil {lit t : Str} (hl : ProvLit lit) (ht : wfTok lit t = true) :
    t ≠ [] := by
  have hcases : isWordTok t = true ∨ isProvTok lit t = true ∨ isDestTok t = true := by
    simpa [wfTok, Bool.or_eq_true, or_assoc] using ht
  rcases hcases with hw | hp | hd
  · intro h; subst h; exact absurd hw (by decide)
  · exact provTok_ne_nil hl hp
  · exact destTok_ne_nil hd

theorem noLit_of_headfail_tailNoAt {t : Str} (hne : t ≠ [])
    (hpre : webhookLit.isPrefixOf t = false)
    (htail : ∀ c ∈ t.tail, (c == '@') = false) : ¬ webhookLit <:+: t := by
  cases t with
  | nil => exact absurd rfl hne
  | cons a as =>
    intro hinf
    rcases List.infix_cons_iff.mp hinf with hp | hinf2
    · rw [List.isPrefixOf_iff_prefix.mpr hp] at hpre
      exact absurd hpre (by decide)
    · have hat : '@' ∈ as := hinf2.subset (by decide)
      have := htail '@' (by simpa using hat)
      simp at this

theorem noLit_token {lit t : Str} (hl : ProvLit lit)
    (ht : isWordTok t = true ∨ isProvTok lit t = true) : ¬ webhookLit <:+: t := by
  rcases ht with hw | hp
  · intro hinf
    obtain ⟨-, hno⟩ := wordTok_fields hw
    have hat : '@' ∈ t := hinf.subset (by decide)
    have := (hno '@' hat).2
    simp at this
  · obtain ⟨hpl, -, -⟩ := provTok_fields hp
    have hk := append_drop_of_isPrefixOf hpl
    refine noLit_of_headfail_tailNoAt (provTok_ne_nil hl hp) ?_ (provTok_tail_noAt hl hp)
    conv_lhs => rw [← hk]
    exact isPrefixOf_append_false_of_take_ne _ hl.len_le hl.take_ne

theorem noLit_render {lit : Str} (hl : ProvLit lit) :
    ∀ A : List Str, (∀ t ∈ A, isWordTok t = true ∨ isProvTok lit t = true) →
      ¬ webhookLit <:+: render A := by
  intro A
  induction A with
  | nil =>
    intro _ hinf
    have := List.sublist_nil.mp hinf.sublist
    exact absurd this (by decide)
  | cons t rest ih =>
    intro hA hinf
    cases rest with
    | nil => exact noLit_token hl (hA t (List.mem_cons_self _ _)) (by simpa [render] using hinf)
    | cons r rs =>
      rw [render_cons_cons] at hinf
      rcases infix_append_elem (by decide : ' ' ∉ webhookLit) hinf with h1 | h1
      · exact noLit_token hl (hA t (List.mem_cons_self _ _)) h1
      · exact ih (fun u hu => hA u (List.mem_cons_of_mem _ hu)) h1

theorem no_early_occ {lit : Str} (hl : ProvLit lit) {A : List Str}
    (hA : ∀ t ∈ A, isWordTok t = true ∨ isProvTok lit t = true)
    {w : Str} (hw : isDestTok w = true) (y : Str) :
    ∀ x2, x2 ≠ [] → x2 <:+ (render A ++ [' ']) →
      w.isPrefixOf (x2 ++ (w ++ y)) = false := by
  intro x2 hne hsuf
  cases hb : w.isPrefixOf (x2 ++ (w ++ y)) with
  | false => rfl
  | true =>
    exfalso
    have hpre : w <+: x2 ++ (w ++ y) := List.isPrefixOf_iff_prefix.mp hb
    have hnows : ' ' ∉ w := by
      intro hmem
      have := destTok_no_ws hw ' ' hmem
      simp [isWsChar] at this
    by_cases hlen : w.length ≤ x2.length
    · have hwx : w <+: x2 := by
        have h1 := List.prefix_iff_eq_take.mp hpre
        rw [List.take_append_of_le_length hlen] at h1
        exact List.prefix_iff_eq_take.mpr h1
      have hinf : w <:+: render A ++ [' '] := hwx.isInfix.trans hsuf.isInfix
      have h2 : render A ++ [' '] = render A ++ ' ' :: [] := rfl
      rw [h2] at hinf
      rcases infix_append_elem hnows hinf with h1 | h1
      · obtain ⟨hplit, -, -⟩ := destTok_fields hw
        have h3 : webhookLit <:+: render A :=
          (List.isPrefixOf_iff_prefix.mp hplit).isInfix.trans h1
        exact noLit_render hl A hA h3
      · have := List.sublist_nil.mp h1.sublist
        exact destTok_ne_nil hw this
    · push_neg at hlen
      have hx2 : x2 <+: w := by
        have h1 := List.prefix_iff_eq_take.mp hpre
        have h2 : w.take x2.length = (x2 ++ (w ++ y)).take x2.length := by
          conv_lhs => rw [h1]
          rw [List.take_take, min_eq_left (Nat.le_of_lt hlen)]
        rw [List.take_left] at h2
        have := List.take_prefix x2.length w
        rw [h2] at this
        exact this
      have hlast : x2.getLast? = some ' ' := by
        obtain ⟨p, hp⟩ := hsuf
        have h3 : (render A ++ [' ']).getLast? = some ' ' := by
          rw [List.getLast?_append]
          simp
        rw [← hp, List.getLast?_append] at h3
        cases hx : x2.getLast? with
        | none =>
          exfalso
          cases x2 with
          | nil => exact hne rfl
          | cons a as => rw [List.getLast?_eq_head?_reverse] at hx; simp at hx
        | some d =>
          rw [hx] at h3
          simp only [Option.or_some] at h3
          exact h3
      have hmem : ' ' ∈ x2 := mem_of_getLast?_eq hlast
      exact hnows (hx2.subset hmem)

theorem collapseWsAux_append_noWs {t : Str} (h : ∀ c ∈ t, isWsChar c = false) :
    ∀ r, collapseWsAux false (t ++ r) = t ++ collapseWsAux false r := by
  induction t with
  | nil => intro r; rfl
  | cons c cs ih =>
    intro r
    have hc := h c (List.mem_cons_self _ _)
    simp only [List.cons_append, collapseWsAux, hc, Bool.false_eq_true, if_false,
      List.cons.injEq, true_and]
    exact ih (fun d hd => h d (List.mem_cons_of_mem _ hd)) r

theorem render_ne_nil {lit : Str} (hl : ProvLit lit) {toks : List Str} (hne : toks ≠ [])
    (hwf : ∀ t ∈ toks, wfTok lit t = true) : render toks ≠ [] := by
  cases toks with
  | nil => exact absurd rfl hne
  | cons t rest =>
    have ht := wfTok_ne_nil hl (hwf t (List.mem_cons_self _ _))
    cases rest with
    | nil => simpa [render] using ht
    | cons r rs =>
      rw [render_cons_cons]
      exact List.append_ne_nil_of_left_ne_nil ht _

theorem exists_head_render {lit : Str} (hl : ProvLit lit) {toks : List Str}
    (hne : toks ≠ []) (hwf : ∀ t ∈ toks, wfTok lit t = true) :
    ∃ c cs, render toks = c :: cs ∧ isWsChar c = false := by
  cases toks with
  | nil => exact absurd rfl hne
  | cons t rest =>
    have htne := wfTok_ne_nil hl (hwf t (List.mem_cons_self _ _))
    have hnws := wfTok_no_ws hl (hwf t (List.mem_cons_self _ _))
    cases ht : t with
    | nil => exact absurd ht htne
    | cons a as =>
      have ha : isWsChar a = false := hnws a (by rw [ht]; exact List.mem_cons_self _ _)
      cases rest with
      | nil => exact ⟨a, as, by simp [render, ht], ha⟩
      | cons r rs =>
        refine ⟨a, as ++ ' ' :: render (r :: rs), ?_, ha⟩
        rw [render_cons_cons]
        rfl

theorem render_head?_not_ws {lit : Str} (hl : ProvLit lit) {toks : List Str}
    (hwf : ∀ t ∈ toks, wfTok lit t = true) :
    ∀ c, (render toks).head? = some c → isWsChar c = false := by
  intro c h
  cases toks with
  | nil => simp [render] at h
  | cons t rest =>
    obtain ⟨c0, cs0, heq, hws⟩ := exists_head_render hl (by simp) hwf
    rw [heq] at h
    have : c0 = c := by simpa using h
    subst this
    exact hws

theorem getLast?_isSome_of_ne_nil {l : Str} (h : l ≠ []) : ∃ c, l.getLast? = some c := by
  rw [List.getLast?_eq_head?_reverse]
  cases hr : l.reverse with
  | nil =>
    exfalso
    have : l = [] := by
      have := congrArg List.reverse hr
      simpa using this
    exact h this
  | cons a as => exact ⟨a, rfl⟩

theorem render_getLast?_not_ws {lit : Str} (hl : ProvLit lit) :
    ∀ toks : List Str, (∀ t ∈ toks, wfTok lit t = true) →
      ∀ c, (render toks).getLast? = some c → isWsChar c = false := by
  intro toks
  induction toks with
  | nil => intro _ c h; simp [render] at h
  | cons t rest ih =>
    intro hwf c h
    cases rest with
    | nil =>
      have : c ∈ t := mem_of_getLast?_eq (by simpa [render] using h)
      exact wfTok_no_ws hl (hwf t (List.mem_cons_self _ _)) c this
    | cons r rs =>
      have hwrest : ∀ u ∈ r :: rs, wfTok lit u = true :=
        fun u hu => hwf u (List.mem_cons_of_mem _ hu)
      have hrne : render (r :: rs) ≠ [] := render_ne_nil hl (by simp) hwrest
      rw [render_cons_cons, List.getLast?_append] at h
      obtain ⟨d, hd⟩ := getLast?_isSome_of_ne_nil hrne
      have h2 : (' ' :: render (r :: rs)).getLast? = some d := by
        cases hX : render (r :: rs) with
        | nil => exact absurd hX hrne
        | cons a as =>
          rw [List.getLast?_cons_cons]
          rw [hX] at hd
          exact hd
      rw [h2] at h
      simp only [Option.or_some] at h
      have hdc : d = c := by simpa using h
      subst hdc
      exact ih hwrest d hd

theorem jsTrim_eq_self {s : Str}
    (h1 : ∀ c, s.head? = some c → isWsChar c = false)
    (h2 : ∀ c, s.getLast? = some c → isWsChar c = false) : jsTrim s = s := by
  cases s with
  | nil => rfl
  | cons a as =>
    have ha : isWsChar a = false := h1 a rfl
    unfold jsTrim
    rw [List.dropWhile_cons, if_neg (by simp [ha])]
    cases hr : (a :: as).reverse with
    | nil => simp at hr
    | cons b bs =>
      have hb : isWsChar b = false := by
        apply h2
        rw [List.getLast?_eq_head?_reverse, hr]
        rfl
      have hbd : List.dropWhile isWsChar (b :: bs) = b :: bs := by
        rw [List.dropWhile_cons]
        simp [hb]
      rw [hbd, ← hr, List.reverse_reverse]

theorem collapseWsAux_render_append {lit : Str} (hl : ProvLit lit) :
    ∀ toks : List Str, (∀ t ∈ toks, wfTok lit t = true) →
      ∀ r, collapseWsAux false (render toks ++ r) = render toks ++ collapseWsAux false r := by
  intro toks
  induction toks with
  | nil => intro _ r; rfl
  | cons t rest ih =>
    intro hwf r
    have hnws := wfTok_no_ws hl (hwf t (List.mem_cons_self _ _))
    cases rest with
    | nil =>
      have := collapseWsAux_append_noWs hnws r
      simpa [render] using this
    | cons rr rs =>
      have hwrest : ∀ u ∈ rr :: rs, wfTok lit u = true :=
        fun u hu => hwf u (List.mem_cons_of_mem _ hu)
      obtain ⟨c0, cs0, heq, hc0⟩ := exists_head_render hl (by simp) hwrest
      have e1 : render (t :: rr :: rs) ++ r = t ++ (' ' :: (render (rr :: rs) ++ r)) := by
        rw [render_cons_cons]
        simp
      have e2 : render (t :: rr :: rs) ++ collapseWsAux false r =
          t ++ (' ' :: (render (rr :: rs) ++ collapseWsAux false r)) := by
        rw [render_cons_cons]
        simp
      rw [e1, e2, collapseWsAux_append_noWs hnws]
      congr 1
      have hstep : collapseWsAux false (' ' :: (render (rr :: rs) ++ r)) =
          ' ' :: collapseWsAux true (render (rr :: rs) ++ r) := by
        simp [collapseWsAux, (by decide : isWsChar ' ' = true)]
      rw [hstep]
      congr 1
      have htru : collapseWsAux true (render (rr :: rs) ++ r) =
          collapseWsAux false (render (rr :: rs) ++ r) := by
        rw [heq, List.cons_append]
        simp [collapseWsAux, hc0]
      rw [htru]
      exact ih hwrest r

theorem collapseWs_render_eq {lit : Str} (hl : ProvLit lit) {toks : List Str}
    (hwf : ∀ t ∈ toks, wfTok lit t = true) : collapseWs (render toks) = render toks := by
  have := collapseWsAux_render_append hl toks hwf []
  simpa [collapseWs, collapseWsAux] using this

theorem jsTrim_render_eq {lit : Str} (hl : ProvLit lit) {toks : List Str}
    (hwf : ∀ t ∈ toks, wfTok lit t = true) : jsTrim (render toks) = render toks :=
  jsTrim_eq_self (render_head?_not_ws hl hwf) (render_getLast?_not_ws hl toks hwf)

/-! ### The webhook-removal loop on rendered token lists -/

theorem render_cons_ne_nil (t : Str) {L : List Str} (h : L ≠ []) :
    render (t :: L) = t ++ ' ' :: render L := by
  cases L with
  | nil => exact absurd rfl h
  | cons l ls => exact render_cons_cons t l ls

theorem render_append {A B : List Str} (hA : A ≠ []) (hB : B ≠ []) :
    render (A ++ B) = render A ++ ' ' :: render B := by
  revert hA
  induction A with
  | nil => intro h; exact absurd rfl h
  | cons a A' ih =>
    intro _
    cases A' with
    | nil =>
      rw [show ([a] ++ B) = a :: B from rfl, render_cons_ne_nil a hB]
      rfl
    | cons a2 as =>
      rw [show ((a :: a2 :: as) ++ B) = a :: ((a2 :: as) ++ B) from rfl]
      rw [render_cons_ne_nil a (List.append_ne_nil_of_left_ne_nil (by simp) B)]
      rw [ih (by simp)]
      rw [render_cons_cons]
      simp

theorem wfTok_elim {lit t : Str} (ht : wfTok lit t = true) :
    isWordTok t = true ∨ isProvTok lit t = true ∨ isDestTok t = true := by
  simpa [wfTok, Bool.or_eq_true, or_assoc] using ht

theorem wfTok_of_wp {lit t : Str} (ht : isWordTok t = true ∨ isProvTok lit t = true) :
    wfTok lit t = true := by
  rcases ht with h | h <;> simp [wfTok, h]

theorem wfTok_of_dest {lit t : Str} (ht : isDestTok t = true) : wfTok lit t = true := by
  simp [wfTok, ht]

theorem jsTrim_cons_ws {c : Char} (hc : isWsChar c = true) (s : Str) :
    jsTrim (c :: s) = jsTrim s := by
  unfold jsTrim
  rw [List.dropWhile_cons, if_pos hc]

theorem reverse_dropWhile_render {lit : Str} (hl : ProvLit lit) {A : List Str}
    (hwfA : ∀ t ∈ A, wfTok lit t = true) :
    ((render A).reverse).dropWhile isWsChar = (render A).reverse := by
  cases hrv : (render A).reverse with
  | nil => rfl
  | cons d ds =>
    have hd0 : (render A).getLast? = some d := by
      rw [List.getLast?_eq_head?_reverse, hrv]
      rfl
    have hd := render_getLast?_not_ws hl A hwfA d hd0
    rw [List.dropWhile_cons, if_neg (by simp [hd])]

theorem jsTrim_render_space {lit : Str} (hl : ProvLit lit) {A : List Str}
    (hAne : A ≠ []) (hwfA : ∀ t ∈ A, wfTok lit t = true) :
    jsTrim (render A ++ [' ']) = render A := by
  obtain ⟨c0, cs0, heq, hc0⟩ := exists_head_render hl hAne hwfA
  unfold jsTrim
  have h1 : (render A ++ [' ']).dropWhile isWsChar = render A ++ [' '] := by
    rw [heq, List.cons_append, List.dropWhile_cons, if_neg (by simp [hc0])]
  rw [h1, List.reverse_append]
  rw [show ([' '] : Str).reverse = [' '] from rfl]
  rw [show ([' '] : Str) ++ (render A).reverse = ' ' :: (render A).reverse from rfl]
  rw [List.dropWhile_cons, if_pos (by decide)]
  rw [reverse_dropWhile_render hl hwfA, List.reverse_reverse]

theorem dropWhile_head_not {α : Type} (p : α → Bool) :
    ∀ (l : List α) (c : α) (cs : List α), l.dropWhile p = c :: cs → p c = false := by
  intro l
  induction l with
  | nil => intro c cs h; simp [List.dropWhile] at h
  | cons a as ih =>
    intro c cs h
    rw [List.dropWhile_cons] at h
    by_cases ha : p a = true
    · rw [if_pos ha] at h
      exact ih c cs h
    · rw [if_neg ha] at h
      have hac : a = c := (List.cons.injEq _ _ _ _).mp h |>.1
      subst hac
      simpa using ha

theorem stripStep_render {lit : Str} (hl : ProvLit lit) (A B : List Str) (w : Str)
    (hA : ∀ t ∈ A, isWordTok t = true ∨ isProvTok lit t = true)
    (hw : isDestTok w = true)
    (hB : ∀ t ∈ B, wfTok lit t = true) :
    stripStep (render (A ++ w :: B)) w = render (A ++ B) := by
  have hwfA : ∀ t ∈ A, wfTok lit t = true := fun t htm => wfTok_of_wp (hA t htm)
  have hwp : webhookLit.isPrefixOf w = true := (destTok_fields hw).1
  have hwne : w ≠ [] := destTok_ne_nil hw
  cases A with
  | nil =>
    cases B with
    | nil =>
      unfold stripStep
      rw [show (([] : List Str) ++ w :: []) = [w] from rfl]
      rw [show (([] : List Str) ++ ([] : List Str)) = ([] : List Str) from rfl]
      rw [show render [w] = w from rfl,
        replaceFirst_of_isPrefixOf (List.isPrefixOf_iff_prefix.mpr (List.prefix_refl _)),
        List.drop_length]
      rfl
    | cons b bs =>
      unfold stripStep
      rw [show (([] : List Str) ++ w :: b :: bs) = w :: b :: bs from rfl]
      rw [show (([] : List Str) ++ b :: bs) = b :: bs from rfl]
      rw [render_cons_cons]
      rw [show w ++ ' ' :: render (b :: bs) = w ++ (' ' :: render (b :: bs)) from rfl]
      rw [replaceFirst_of_isPrefixOf (by
        exact List.isPrefixOf_iff_prefix.mpr (List.prefix_append _ _))]
      rw [List.drop_left]
      have hwfB : ∀ t ∈ b :: bs, wfTok lit t = true := hB
      obtain ⟨c0, cs0, heq, hc0⟩ := exists_head_render hl (by simp) hwfB
      have hcol : collapseWs (' ' :: render (b :: bs)) = ' ' :: render (b :: bs) := by
        unfold collapseWs
        rw [show collapseWsAux false (' ' :: render (b :: bs)) =
          ' ' :: collapseWsAux true (render (b :: bs)) from by
            simp [collapseWsAux, (by decide : isWsChar ' ' = true)]]
        rw [heq]
        rw [show collapseWsAux true (c0 :: cs0) = collapseWsAux false (c0 :: cs0) from by
          simp [collapseWsAux, hc0]]
        rw [← heq]
        have := collapseWs_render_eq hl hwfB
        unfold collapseWs at this
        rw [this]
      rw [hcol, jsTrim_cons_ws (by decide), jsTrim_render_eq hl hwfB]
  | cons a as =>
    have hAne : (a :: as : List Str) ≠ [] := by simp
    cases B with
    | nil =>
      unfold stripStep
      rw [render_append hAne (by simp)]
      rw [show render [w] = w from rfl]
      rw [show render (a :: as) ++ ' ' :: w =
        (render (a :: as) ++ [' ']) ++ (w ++ []) from by simp]
      rw [replaceFirst_first_occ [] (render (a :: as) ++ [' '])
        (no_early_occ hl hA hw [])]
      rw [List.append_nil]
      have hcol : collapseWs (render (a :: as) ++ [' ']) = render (a :: as) ++ [' '] := by
        unfold collapseWs
        rw [collapseWsAux_render_append hl (a :: as) hwfA [' ']]
        rfl
      rw [hcol, jsTrim_render_space hl hAne hwfA, List.append_nil]
    | cons b bs =>
      unfold stripStep
      have hBne : (b :: bs : List Str) ≠ [] := by simp
      have hwB : render (w :: b :: bs) = w ++ ' ' :: render (b :: bs) :=
        render_cons_ne_nil w hBne
      rw [render_append hAne (by simp)]
      rw [hwB]
      rw [show render (a :: as) ++ ' ' :: (w ++ ' ' :: render (b :: bs)) =
        (render (a :: as) ++ [' ']) ++ (w ++ (' ' :: render (b :: bs))) from by simp]
      rw [replaceFirst_first_occ (' ' :: render (b :: bs)) (render (a :: as) ++ [' '])
        (no_early_occ hl hA hw (' ' :: render (b :: bs)))]
      rw [show (render (a :: as) ++ [' ']) ++ ' ' :: render (b :: bs) =
        render (a :: as) ++ (' ' :: ' ' :: render (b :: bs)) from by simp]
      have hwfB : ∀ t ∈ b :: bs, wfTok lit t = true := hB
      obtain ⟨c0, cs0, heq, hc0⟩ := exists_head_render hl hBne hwfB
      have hcol : collapseWs (render (a :: as) ++ (' ' :: ' ' :: render (b :: bs))) =
          render (a :: as) ++ ' ' :: render (b :: bs) := by
        unfold collapseWs
        rw [collapseWsAux_render_append hl (a :: as) hwfA]
        congr 1
        rw [show collapseWsAux false (' ' :: ' ' :: render (b :: bs)) =
          ' ' :: collapseWsAux true (' ' :: render (b :: bs)) from by
            simp [collapseWsAux, (by decide : isWsChar ' ' = true)]]
        rw [show collapseWsAux true (' ' :: render (b :: bs)) =
          collapseWsAux true (render (b :: bs)) from by
            simp [collapseWsAux, (by decide : isWsChar ' ' = true)]]
        rw [heq]
        rw [show collapseWsAux true (c0 :: cs0) = collapseWsAux false (c0 :: cs0) from by
          simp [collapseWsAux, hc0]]
        rw [← heq]
        have := collapseWs_render_eq hl hwfB
        unfold collapseWs at this
        rw [this]
      rw [hcol]
      rw [← render_append hAne hBne]
      exact jsTrim_render_eq hl (fun t htm => by
        rcases List.mem_append.mp htm with h1 | h1
        · exact hwfA t h1
        · exact hwfB t h1)

theorem stripMarkers_render {lit : Str} (hl : ProvLit lit) :
    ∀ (n : Nat) (toks : List Str), toks.length ≤ n →
      (∀ t ∈ toks, wfTok lit t = true) →
      stripMarkers (toks.filter isDestTok) (render toks) =
        render (toks.filter (fun t => !isDestTok t)) := by
  intro n
  induction n with
  | zero =>
    intro toks hlen hwf
    have h0 : toks = [] := by
      cases toks with
      | nil => rfl
      | cons t ts => simp at hlen
    subst h0
    rfl
  | succ n ih =>
    intro toks hlen hwf
    cases hsplit : toks.dropWhile (fun t => !isDestTok t) with
    | nil =>
      have hall : ∀ a ∈ toks, (!isDestTok a) = true :=
        List.dropWhile_eq_nil_iff.mp hsplit
      have hfil : toks.filter isDestTok = [] := by
        rw [List.filter_eq_nil_iff]
        intro a ha
        have := hall a ha
        simp at this
        simp [this]
      have hfil2 : toks.filter (fun t => !isDestTok t) = toks :=
        List.filter_eq_self.mpr hall
      rw [hfil, hfil2]
      rfl
    | cons w B =>
      have htoks : toks.takeWhile (fun t => !isDestTok t) ++ w :: B = toks := by
        conv_rhs => rw [← List.takeWhile_append_dropWhile (fun t => !isDestTok t) toks]
        rw [hsplit]
      have hAfalse : ∀ t ∈ toks.takeWhile (fun t => !isDestTok t), isDestTok t = false :=
        fun t htm => by
          have := List.mem_takeWhile_imp htm
          simpa using this
      have hw : isDestTok w = true := by
        have := dropWhile_head_not (fun t => !isDestTok t) toks w B hsplit
        simpa using this
      have hwfA : ∀ t ∈ toks.takeWhile (fun t => !isDestTok t), wfTok lit t = true :=
        fun t htm => hwf t (by rw [← htoks]; exact List.mem_append_left _ htm)
      have hwfB : ∀ t ∈ B, wfTok lit t = true :=
        fun t htm => hwf t
          (by rw [← htoks]; exact List.mem_append_right _ (List.mem_cons_of_mem _ htm))
      have hAwp : ∀ t ∈ toks.takeWhile (fun t => !isDestTok t),
          isWordTok t = true ∨ isProvTok lit t = true := by
        intro t htm
        rcases wfTok_elim (hwfA t htm) with h | h | h
        · exact Or.inl h
        · exact Or.inr h
        · exact absurd ((hAfalse t htm).symm.trans h) Bool.false_ne_true
      have hfil : toks.filter isDestTok = w :: B.filter isDestTok := by
        conv_lhs => rw [← htoks]
        rw [List.filter_append,
          List.filter_eq_nil_iff.mpr (fun a ha => by simp [hAfalse a ha]),
          List.nil_append, List.filter_cons]
        simp [hw]
      have hfil2 : toks.filter (fun t => !isDestTok t) =
          toks.takeWhile (fun t => !isDestTok t) ++ B.filter (fun t => !isDestTok t) := by
        conv_lhs => rw [← htoks]
        rw [List.filter_append,
          List.filter_eq_self.mpr (fun a ha => by simp [hAfalse a ha]),
          List.filter_cons]
        simp [hw]
      rw [hfil, hfil2]
      rw [show stripMarkers (w :: B.filter isDestTok) (render toks) =
        stripMarkers (B.filter isDestTok) (stripStep (render toks) w) from rfl]
      rw [show render toks = render (toks.takeWhile (fun t => !isDestTok t) ++ w :: B)
        from by rw [htoks]]
      rw [stripStep_render hl _ B w hAwp hw hwfB]
      have hlenAB : (toks.takeWhile (fun t => !isDestTok t) ++ B).length ≤ n := by
        have h1 := congrArg List.length htoks
        simp only [List.length_append, List.length_cons] at h1
        simp only [List.length_append]
        omega
      have hwfAB : ∀ t ∈ toks.takeWhile (fun t => !isDestTok t) ++ B,
          wfTok lit t = true := by
        intro t htm
        rcases List.mem_append.mp htm with h | h
        · exact hwfA t h
        · exact hwfB t h
      have hmain := ih (toks.takeWhile (fun t => !isDestTok t) ++ B) hlenAB hwfAB
      have e1 : (toks.takeWhile (fun t => !isDestTok t) ++ B).filter isDestTok =
          B.filter isDestTok := by
        rw [List.filter_append,
          List.filter_eq_nil_iff.mpr (fun a ha => by simp [hAfalse a ha]),
          List.nil_append]
      have e2 : (toks.takeWhile (fun t => !isDestTok t) ++ B).filter
            (fun t => !isDestTok t) =
          toks.takeWhile (fun t => !isDestTok t) ++ B.filter (fun t => !isDestTok t) := by
        rw [List.filter_append,
          List.filter_eq_self.mpr (fun a ha => by simp [hAfalse a ha])]
      rw [e1, e2] at hmain
      exact hmain

/-! ### Service-name extraction on provider tokens -/

theorem splitDash_ne_nil : ∀ k : Str, splitDash k ≠ [] := by
  intro k
  cases k with
  | nil => simp [splitDash]
  | cons c cs =>
    by_cases hc : c = '-'
    · simp [splitDash, hc]
    · simp only [splitDash, hc, if_false]
      cases splitDash cs with
      | nil => simp
      | cons p ps => simp

theorem joinDash_splitDash : ∀ k : Str, joinDash (splitDash k) = k := by
  intro k
  induction k with
  | nil => rfl
  | cons c cs ih =>
    by_cases hc : c = '-'
    · subst hc
      rw [show splitDash ('-' :: cs) = [] :: splitDash cs from by simp [splitDash]]
      cases hsc : splitDash cs with
      | nil => exact absurd hsc (splitDash_ne_nil cs)
      | cons p ps =>
        rw [show joinDash ([] :: p :: ps) = [] ++ '-' :: joinDash (p :: ps) from rfl]
        rw [List.nil_append, ← hsc, ih]
    · simp only [splitDash, hc, if_false]
      cases hsc : splitDash cs with
      | nil => exact absurd hsc (splitDash_ne_nil cs)
      | cons p ps =>
        rw [hsc] at ih
        cases ps with
        | nil =>
          rw [show joinDash [c :: p] = c :: p from rfl]
          rw [show joinDash [p] = p from rfl] at ih
          rw [ih]
        | cons q qs =>
          rw [show joinDash ((c :: p) :: q :: qs) = (c :: p) ++ '-' :: joinDash (q :: qs)
            from rfl]
          rw [show joinDash (p :: q :: qs) = p ++ '-' :: joinDash (q :: qs) from rfl] at ih
          rw [List.cons_append, ih]

theorem splitDash_append_noDash :
    ∀ (u k : Str), (∀ c ∈ u, ¬(c = '-')) → splitDash (u ++ '-' :: k) = u :: splitDash k := by
  intro u
  induction u with
  | nil => intro k _; simp [splitDash]
  | cons c cs ih =>
    intro k h
    have hc : ¬ c = '-' := h c (List.mem_cons_self _ _)
    rw [List.cons_append]
    simp only [splitDash, hc, if_false]
    rw [ih k (fun d hd => h d (List.mem_cons_of_mem _ hd))]

theorem extractService_append {lit : Str} (hl : ProvLit lit) (k : Str) :
    extractService (lit ++ k) = k := by
  conv_lhs => rw [← hl.lastDash, List.append_assoc]
  rw [show (['-'] : Str) ++ k = '-' :: k from rfl]
  unfold extractService
  rw [splitDash_append_noDash _ _ (fun c hc => by
    have := hl.bodyNoDash c hc
    simpa using this)]
  rw [show (lit.dropLast :: splitDash k).drop 1 = splitDash k from rfl]
  exact joinDash_splitDash k

theorem findProviderServices_render (cfg : IncidentioConfig) {toks : List Str}
    (hwf : ∀ t ∈ toks, wfTok (getServiceRegexForProvider (sourceProvider cfg)) t = true) :
    findProviderServices cfg (render toks) =
      (toks.filter (isProvTok (getServiceRegexForProvider (sourceProvider cfg)))).map
        (fun t => t.drop (getServiceRegexForProvider (sourceProvider cfg)).length) := by
  unfold findProviderServices
  rw [findMatches_render (provLit_of_regex (sourceProvider cfg)) toks hwf]
  apply List.map_congr_left
  intro t htm
  have ht : isProvTok (getServiceRegexForProvider (sourceProvider cfg)) t = true :=
    List.of_mem_filter htm
  have hk := append_drop_of_isPrefixOf (provTok_fields ht).1
  conv_lhs => rw [← hk]
  exact extractService_append (provLit_of_regex (sourceProvider cfg)) _

/-! ### The per-team provisioning loop -/

theorem ensureWebhookExists_fields (svc : MigrationService) (env : Env)
    (w : Str) (team : Option Str) (meta : Option (List (Str × Str))) :
    (ensureWebhookExists svc env w team meta).2.1.cfg = svc.cfg ∧
    (ensureWebhookExists svc env w team meta).2.1.mappings = svc.mappings ∧
    (ensureWebhookExists svc env w team meta).2.1.ctorDryRun = svc.ctorDryRun := by
  unfold ensureWebhookExists
  by_cases h1 : svc.ctorDryRun = true
  · simp [h1]
  · by_cases h2 : getDatadogWebhookName svc.cfg team ∈ svc.createdWebhooks
    · simp [h1, h2]
    · by_cases h3 : env.getWebhook (getDatadogWebhookName svc.cfg team) = true
      · simp [h1, h2, h3]
      · by_cases h4 : (strTruthy svc.cfg.webhookUrl && strTruthy svc.cfg.webhookToken) = true
        · by_cases h5 : env.createOk (getDatadogWebhookName svc.cfg team) = true
          · simp [h1, h2, h3, h4, h5]
          · simp [h1, h2, h3, h4, h5]
        · simp [h1, h2, h3, h4]

theorem ensureWebhookExists_true_of_getW (svc : MigrationService) (env : Env)
    (hEnv : ∀ n, env.getWebhook n = true)
    (w : Str) (team : Option Str) (meta : Option (List (Str × Str))) :
    (ensureWebhookExists svc env w team meta).1 = true := by
  unfold ensureWebhookExists
  by_cases h1 : svc.ctorDryRun = true
  · simp [h1]
  · by_cases h2 : getDatadogWebhookName svc.cfg team ∈ svc.createdWebhooks
    · simp [h1, h2]
    · simp [h1, h2, hEnv]

theorem perTeamWebhookLoop_dry (env : Env) (message : Str) :
    ∀ (services : List Str) (svc : MigrationService) (trace : List RemoteCall)
      (expected : List Str),
      perTeamWebhookLoop env true message svc trace expected services =
        Sum.inr (svc, trace, perTeamExpectedFold svc.cfg svc.mappings expected services) := by
  intro services
  induction services with
  | nil => intro svc trace expected; rfl
  | cons s rest ih =>
    intro svc trace expected
    simp only [perTeamWebhookLoop, if_true]
    exact ih svc trace _

theorem perTeamWebhookLoop_envtrue (env : Env) (hEnv : ∀ n, env.getWebhook n = true)
    (dry : Bool) (message : Str) :
    ∀ (services : List Str) (svc : MigrationService) (trace : List RemoteCall)
      (expected : List Str),
      ∃ svc' trace',
        perTeamWebhookLoop env dry message svc trace expected services =
          Sum.inr (svc', trace',
            perTeamExpectedFold svc.cfg svc.mappings expected services) ∧
        svc'.cfg = svc.cfg ∧ svc'.mappings = svc.mappings ∧
        svc'.ctorDryRun = svc.ctorDryRun := by
  intro services
  induction services with
  | nil => intro svc trace expected; exact ⟨svc, trace, rfl, rfl, rfl, rfl⟩
  | cons s rest ih =>
    intro svc trace expected
    by_cases hdry : dry = true
    · obtain ⟨svc', trace', heq, h1, h2, h3⟩ := ih svc trace
        (setAdd expected ('@' :: getWebhookNameForTeam svc.cfg
          (teamOrUndefined (svc.mappings.find?
            (fun m => decide (m.pagerdutyService = some s))))))
      refine ⟨svc', trace', ?_, h1, h2, h3⟩
      simp only [perTeamWebhookLoop]
      rw [if_pos hdry]
      exact heq
    ·
      have hok := ensureWebhookExists_true_of_getW svc env hEnv
        (getWebhookNameForTeam svc.cfg
          (teamOrUndefined (svc.mappings.find?
            (fun m => decide (m.pagerdutyService = some s)))))
        (teamOrUndefined (svc.mappings.find?
          (fun m => decide (m.pagerdutyService = some s))))
        ((svc.mappings.find? (fun m => decide (m.pagerdutyService = some s))).bind
          (fun m => m.additionalMetadata))
      obtain ⟨hc, hm, hd⟩ := ensureWebhookExists_fields svc env
        (getWebhookNameForTeam svc.cfg
          (teamOrUndefined (svc.mappings.find?
            (fun m => decide (m.pagerdutyService = some s)))))
        (teamOrUndefined (svc.mappings.find?
          (fun m => decide (m.pagerdutyService = some s))))
        ((svc.mappings.find? (fun m => decide (m.pagerdutyService = some s))).bind
          (fun m => m.additionalMetadata))
      obtain ⟨svc', trace', heq, h1, h2, h3⟩ := ih
        (ensureWebhookExists svc env
          (getWebhookNameForTeam svc.cfg
            (teamOrUndefined (svc.mappings.find?
              (fun m => decide (m.pagerdutyService = some s)))))
          (teamOrUndefined (svc.mappings.find?
            (fun m => decide (m.pagerdutyService = some s))))
          ((svc.mappings.find? (fun m => decide (m.pagerdutyService = some s))).bind
            (fun m => m.additionalMetadata))).2.1
        (trace ++ (ensureWebhookExists svc env
          (getWebhookNameForTeam svc.cfg
            (teamOrUndefined (svc.mappings.find?
              (fun m => decide (m.pagerdutyService = some s)))))
          (teamOrUndefined (svc.mappings.find?
            (fun m => decide (m.pagerdutyService = some s))))
          ((svc.mappings.find? (fun m => decide (m.pagerdutyService = some s))).bind
            (fun m => m.additionalMetadata))).2.2)
        (setAdd expected ('@' :: getWebhookNameForTeam svc.cfg
          (teamOrUndefined (svc.mappings.find?
            (fun m => decide (m.pagerdutyService = some s))))))
      refine ⟨svc', trace', ?_, h1.trans hc, h2.trans hm, h3.trans hd⟩
      simp only [perTeamWebhookLoop]
      rw [if_neg hdry, if_pos hok, heq, hc, hm]
      rfl

/-! ### Marker-set helpers -/

theorem filter_not_filter (p : Str → Bool) (l : List Str) :
    (l.filter (fun t => !p t)).filter p = [] := by
  rw [List.filter_filter]
  simp

theorem filter_not_idem (p : Str → Bool) (l : List Str) :
    (l.filter (fun t => !p t)).filter (fun t => !p t) = l.filter (fun t => !p t) :=
  List.filter_eq_self.mpr (fun a ha => (List.mem_filter.mp ha).2)

theorem foldl_appendTok_render :
    ∀ (ws : List Str) (A : List Str), A ≠ [] →
      ws.foldl (fun m w => m ++ ' ' :: w) (render A) = render (A ++ ws) := by
  intro ws
  induction ws with
  | nil => intro A _; simp
  | cons w ws ih =>
    intro A hA
    rw [List.foldl_cons]
    have h1 : render A ++ ' ' :: w = render (A ++ [w]) := by
      rw [render_append hA (by simp)]
      rfl
    rw [h1, ih (A ++ [w]) (by simp)]
    simp

theorem filter_not_dest_ne_nil {lit : Str} (hl : ProvLit lit) {toks : List Str}
    (hprov : toks.filter (isProvTok lit) ≠ []) :
    toks.filter (fun t => !isDestTok t) ≠ [] := by
  obtain ⟨t, ht⟩ := List.exists_mem_of_ne_nil _ hprov
  have htm := List.mem_filter.mp ht
  intro hnil
  have hd := prov_not_dest hl htm.2
  have := List.filter_eq_nil_iff.mp hnil t htm.1
  rw [hd] at this
  exact this rfl

theorem isDestTok_ext {t : Str} (hne : t ≠ []) (htc : t.all isTokenChar = true) :
    isDestTok (webhookLit ++ '-' :: t) = true := by
  have hpre : webhookLit.isPrefixOf (webhookLit ++ '-' :: t) = true :=
    List.isPrefixOf_iff_prefix.mpr (List.prefix_append _ _)
  have hdrop : (webhookLit ++ '-' :: t).drop webhookLit.length = '-' :: t :=
    List.drop_left _ _
  unfold isDestTok
  rw [hpre, hdrop]
  cases t with
  | nil => exact absurd rfl hne
  | cons c cs =>
    have hdash : isTokenChar '-' = true := by decide
    simp [isExtSuffix, htc, hdash]

theorem isDestTok_webhookName (cfg : IncidentioConfig) (team : Option Str)
    (hteam : ∀ t, team = some t → t.all isTokenChar = true) :
    isDestTok ('@' :: getWebhookNameForTeam cfg team) = true := by
  unfold getWebhookNameForTeam
  by_cases hc : (!cfg.webhookPerTeam || !strTruthy team) = true
  · rw [if_pos hc]
    decide
  · rw [if_neg hc]
    cases team with
    | none => exact absurd (by simp [strTruthy]) hc
    | some t =>
      have hst : strTruthy (some t) = true := by
        cases hs : strTruthy (some t) with
        | true => rfl
        | false => exact absurd (by simp [hs]) hc
      have htne : t ≠ [] := by
        intro h
        subst h
        simp [strTruthy] at hst
      have hshape : ('@' :: ("webhook-incident-io-".toList ++ (some t).getD [])) =
          webhookLit ++ '-' :: t := by
        show ('@' :: ("webhook-incident-io-".toList ++ t)) = webhookLit ++ '-' :: t
        rw [show ('@' :: ("webhook-incident-io-".toList ++ t)) =
          ('@' :: "webhook-incident-io-".toList) ++ t from rfl]
        rw [show webhookLit ++ '-' :: t = (webhookLit ++ ['-']) ++ t from by simp]
        congr 1
      rw [hshape]
      exact isDestTok_ext htne (hteam t rfl)

theorem mem_setAdd {l : List Str} {x y : Str} (h : y ∈ setAdd l x) : y ∈ l ∨ y = x := by
  unfold setAdd at h
  by_cases hx : x ∈ l
  · rw [if_pos hx] at h
    exact Or.inl h
  · rw [if_neg hx] at h
    rcases List.mem_append.mp h with h1 | h1
    · exact Or.inl h1
    · simp at h1
      exact Or.inr h1

theorem mem_setAdd_self (l : List Str) (x : Str) : x ∈ setAdd l x := by
  unfold setAdd
  by_cases hx : x ∈ l
  · rw [if_pos hx]; exact hx
  · rw [if_neg hx]; simp

theorem mem_setAdd_of_mem {l : List Str} {x : Str} (y : Str) (h : x ∈ l) :
    x ∈ setAdd l y := by
  unfold setAdd
  by_cases hy : y ∈ l
  · rw [if_pos hy]; exact h
  · rw [if_neg hy]; exact List.mem_append_left _ h

theorem setAdd_nodup {l : List Str} (h : l.Nodup) (x : Str) : (setAdd l x).Nodup := by
  unfold setAdd
  by_cases hx : x ∈ l
  · rw [if_pos hx]; exact h
  · rw [if_neg hx]
    rw [List.nodup_append]
    exact ⟨h, List.nodup_singleton x,
      fun a ha hax => hx (List.mem_singleton.mp hax ▸ ha)⟩

theorem setAdd_ne_nil (l : List Str) (x : Str) : setAdd l x ≠ [] := by
  intro h
  exact absurd (h ▸ mem_setAdd_self l x) (List.not_mem_nil x)

theorem mem_foldl_setAdd (f : Str → Str) :
    ∀ (services : List Str) (init : List Str) (x : Str),
      x ∈ services.foldl (fun acc s => setAdd acc (f s)) init →
      x ∈ init ∨ ∃ s ∈ services, x = f s := by
  intro services
  induction services with
  | nil => intro init x h; exact Or.inl h
  | cons s rest ih =>
    intro init x h
    rw [List.foldl_cons] at h
    rcases ih (setAdd init (f s)) x h with h1 | h1
    · rcases mem_setAdd h1 with h2 | h2
      · exact Or.inl h2
      · exact Or.inr ⟨s, List.mem_cons_self _ _, h2⟩
    · obtain ⟨u, hu, hx⟩ := h1
      exact Or.inr ⟨u, List.mem_cons_of_mem _ hu, hx⟩

theorem mem_foldl_setAdd_mono (f : Str → Str) :
    ∀ (services : List Str) (init : List Str) (x : Str), x ∈ init →
      x ∈ services.foldl (fun acc s => setAdd acc (f s)) init := by
  intro services
  induction services with
  | nil => intro init x h; exact h
  | cons s rest ih =>
    intro init x h
    rw [List.foldl_cons]
    exact ih _ x (mem_setAdd_of_mem _ h)

theorem mem_foldl_setAdd_of_mem (f : Str → Str) :
    ∀ (services : List Str) (init : List Str) (s : Str), s ∈ services →
      f s ∈ services.foldl (fun acc u => setAdd acc (f u)) init := by
  intro services
  induction services with
  | nil => intro init s h; exact absurd h (List.not_mem_nil s)
  | cons u rest ih =>
    intro init s h
    rw [List.foldl_cons]
    rcases List.mem_cons.mp h with h1 | h1
    · subst h1
      exact mem_foldl_setAdd_mono f rest _ _ (mem_setAdd_self init (f s))
    · exact ih _ s h1

theorem nodup_foldl_setAdd (f : Str → Str) :
    ∀ (services : List Str) (init : List Str), init.Nodup →
      (services.foldl (fun acc s => setAdd acc (f s)) init).Nodup := by
  intro services
  induction services with
  | nil => intro init h; exact h
  | cons s rest ih => intro init h; exact ih _ (setAdd_nodup h _)

theorem foldl_setAdd_ne_nil (f : Str → Str) :
    ∀ (services : List Str) (init : List Str), init ≠ [] ∨ services ≠ [] →
      services.foldl (fun acc s => setAdd acc (f s)) init ≠ [] := by
  intro services
  induction services with
  | nil =>
    intro init h
    rcases h with h | h
    · exact h
    · exact absurd rfl h
  | cons s rest ih =>
    intro init _
    rw [List.foldl_cons]
    exact ih _ (Or.inl (setAdd_ne_nil init (f s)))

theorem perTeamExpectedFold_dest {cfg : IncidentioConfig} {mappings : List MigrationMapping}
    (hteam : ∀ m ∈ mappings, ∀ t, m.incidentioTeam = some (some t) →
      t.all isTokenChar = true)
    (services : List Str) {w : Str}
    (hw : w ∈ perTeamExpectedFold cfg mappings [] services) :
    isDestTok w = true := by
  unfold perTeamExpectedFold at hw
  rcases mem_foldl_setAdd _ services [] w hw with h | ⟨s, -, hx⟩
  · exact absurd h (List.not_mem_nil w)
  · subst hx
    apply isDestTok_webhookName
    intro t ht
    cases hf : mappings.find? (fun m => decide (m.pagerdutyService = some s)) with
    | none => rw [hf] at ht; simp [teamOrUndefined] at ht
    | some m =>
      rw [hf] at ht
      have hm : m ∈ mappings := List.mem_of_find?_eq_some hf
      cases hit : m.incidentioTeam with
      | none => simp [teamOrUndefined, hit] at ht
      | some o =>
        cases o with
        | none => simp [teamOrUndefined, hit] at ht
        | some u =>
          simp [teamOrUndefined, hit] at ht
          subst ht
          exact hteam m hm u hit

theorem perTeamExpectedFold_nodup (cfg : IncidentioConfig)
    (mappings : List MigrationMapping) (services : List Str) :
    (perTeamExpectedFold cfg mappings [] services).Nodup := by
  unfold perTeamExpectedFold
  exact nodup_foldl_setAdd _ services [] List.nodup_nil

theorem perTeamExpectedFold_ne_nil (cfg : IncidentioConfig)
    (mappings : List MigrationMapping) {services : List Str} (h : services ≠ []) :
    perTeamExpectedFold cfg mappings [] services ≠ [] := by
  unfold perTeamExpectedFold
  exact foldl_setAdd_ne_nil _ services [] (Or.inr h)

theorem wf_filter {lit : Str} {toks : List Str} (p : Str → Bool)
    (hwf : ∀ t ∈ toks, wfTok lit t = true) :
    ∀ t ∈ toks.filter p, wfTok lit t = true :=
  fun t ht => hwf t (List.mem_of_mem_filter ht)

theorem wf_append_dest {lit : Str} {A B : List Str}
    (hA : ∀ t ∈ A, wfTok lit t = true) (hB : ∀ t ∈ B, isDestTok t = true) :
    ∀ t ∈ A ++ B, wfTok lit t = true := by
  intro t ht
  rcases List.mem_append.mp ht with h | h
  · exact hA t h
  · exact wfTok_of_dest (hB t h)

/-- The marker set of the message produced by the reconciliation step:
strip every found destination marker, then append the replacement set ws
token by token.  On a well-formed token message the result's markers are
exactly ws. -/
theorem find_strip_append {lit : Str} (hl : ProvLit lit) {toks : List Str} (ws : List Str)
    (hwf : ∀ t ∈ toks, wfTok lit t = true)
    (hne : toks.filter (fun t => !isDestTok t) ≠ [])
    (hws : ∀ w ∈ ws, isDestTok w = true) :
    findIncidentioWebhooks
      (ws.foldl (fun m w => m ++ ' ' :: w)
        (stripMarkers (findIncidentioWebhooks (render toks)) (render toks))) = ws := by
  rw [findIncidentioWebhooks_render hl toks hwf,
      stripMarkers_render hl toks.length toks (Nat.le_refl _) hwf,
      foldl_appendTok_render ws _ hne,
      findIncidentioWebhooks_render hl _
        (wf_append_dest (wf_filter _ hwf) hws),
      List.filter_append, filter_not_filter,
      List.nil_append, List.filter_eq_self.mpr hws]

/-- Stripping the destination markers does not disturb the provider
markers of a well-formed token message. -/
theorem filter_prov_of_not_dest {lit : Str} (hl : ProvLit lit) (toks : List Str) :
    (toks.filter (fun t => !isDestTok t)).filter (isProvTok lit) =
      toks.filter (isProvTok lit) := by
  rw [List.filter_filter]
  apply List.filter_congr
  intro a _
  cases hp : isProvTok lit a with
  | false => simp [hp]
  | true => simp [hp, prov_not_dest hl hp]

/-- Appending destination markers does not add provider markers. -/
theorem filter_prov_append_dest {lit : Str} (hl : ProvLit lit) {A B : List Str}
    (hB : ∀ w ∈ B, isDestTok w = true) :
    (A ++ B).filter (isProvTok lit) = A.filter (isProvTok lit) := by
  rw [List.filter_append]
  have hBnil : B.filter (isProvTok lit) = [] :=
    List.filter_eq_nil_iff.mpr (fun w hw => by
      rw [dest_not_prov hl (hB w hw)]
      exact Bool.false_ne_true)
  rw [hBnil, List.append_nil]

theorem providerServices_render {svc_cfg : IncidentioConfig} {toks : List Str}
    (hwf : ∀ t ∈ toks, wfTok (getServiceRegexForProvider (sourceProvider svc_cfg)) t = true) :
    findProviderServices svc_cfg (render toks) = [] ↔
      toks.filter (isProvTok (getServiceRegexForProvider (sourceProvider svc_cfg))) = [] := by
  rw [findProviderServices_render svc_cfg hwf]
  simp

/-! ### Outcome characterization of processMonitor -/

theorem commitStep_true_cases (env : Env) (monitor : DatadogMonitor) (dryRun : Bool)
    (newMessage : Str) (tb ta : Option (List Str)) (svc : MigrationService)
    (trace : List RemoteCall) :
    (commitStep env monitor dryRun true newMessage tb ta svc trace).1.updated = false ∨
    (commitStep env monitor dryRun true newMessage tb ta svc trace).1.message = newMessage := by
  unfold commitStep
  split
  · split
    · right; rfl
    · left; rfl
  · right; rfl

theorem perTeamWebhookLoop_inl (env : Env) (dry : Bool) (msg : Str) :
    ∀ (services : List Str) (svc : MigrationService) (trace : List RemoteCall)
      (expected : List Str) (r : ProcessResult) (svc' : MigrationService)
      (trace' : List RemoteCall),
      perTeamWebhookLoop env dry msg svc trace expected services =
        Sum.inl (r, svc', trace') → r.updated = false := by
  intro services
  induction services with
  | nil =>
    intro svc trace expected r svc' trace' h
    exact absurd h (by simp [perTeamWebhookLoop])
  | cons s rest ih =>
    intro svc trace expected r svc' trace' h
    simp only [perTeamWebhookLoop] at h
    by_cases hdry : dry = true
    · rw [if_pos hdry] at h
      exact ih _ _ _ _ _ _ h
    · rw [if_neg hdry] at h
      by_cases he : (ensureWebhookExists svc env
          (getWebhookNameForTeam svc.cfg
            (teamOrUndefined (svc.mappings.find?
              (fun m => decide (m.pagerdutyService = some s)))))
          (teamOrUndefined (svc.mappings.find?
            (fun m => decide (m.pagerdutyService = some s))))
          ((svc.mappings.find? (fun m => decide (m.pagerdutyService = some s))).bind
            (fun m => m.additionalMetadata))).1 = true
      · rw [if_pos he] at h
        exact ih _ _ _ _ _ _ h
      · rw [if_neg he] at h
        have := Sum.inl.inj h
        rw [show r = (r, svc', trace').1 from rfl, ← this]

theorem perTeamWebhookLoop_inr (env : Env) (dry : Bool) (msg : Str) :
    ∀ (services : List Str) (svc : MigrationService) (trace : List RemoteCall)
      (expected : List Str) (svc' : MigrationService) (trace' : List RemoteCall)
      (e' : List Str),
      perTeamWebhookLoop env dry msg svc trace expected services =
        Sum.inr (svc', trace', e') →
      e' = perTeamExpectedFold svc.cfg svc.mappings expected services := by
  intro services
  induction services with
  | nil =>
    intro svc trace expected svc' trace' e' h
    simp only [perTeamWebhookLoop] at h
    have := Sum.inr.inj h
    rw [show e' = (svc', trace', e').2.2 from rfl, ← this]
    rfl
  | cons s rest ih =>
    intro svc trace expected svc' trace' e' h
    simp only [perTeamWebhookLoop] at h
    by_cases hdry : dry = true
    · rw [if_pos hdry] at h
      exact ih _ _ _ _ _ _ h
    · rw [if_neg hdry] at h
      by_cases he : (ensureWebhookExists svc env
          (getWebhookNameForTeam svc.cfg
            (teamOrUndefined (svc.mappings.find?
              (fun m => decide (m.pagerdutyService = some s)))))
          (teamOrUndefined (svc.mappings.find?
            (fun m => decide (m.pagerdutyService = some s))))
          ((svc.mappings.find? (fun m => decide (m.pagerdutyService = some s))).bind
            (fun m => m.additionalMetadata))).1 = true
      · rw [if_pos he] at h
        have hres := ih _ _ _ _ _ _ h
        obtain ⟨hc, hm, -⟩ := ensureWebhookExists_fields svc env
          (getWebhookNameForTeam svc.cfg
            (teamOrUndefined (svc.mappings.find?
              (fun m => decide (m.pagerdutyService = some s)))))
          (teamOrUndefined (svc.mappings.find?
            (fun m => decide (m.pagerdutyService = some s))))
          ((svc.mappings.find? (fun m => decide (m.pagerdutyService = some s))).bind
            (fun m => m.additionalMetadata))
        rw [hres, hc, hm]
        rfl
      · rw [if_neg he] at h
        exact absurd h (by simp)

theorem processMonitor_add_outcome (svc : MigrationService) (env : Env)
    (monitor : DatadogMonitor) (options : MigrationOptions)
    (ht : options.type = .addIncidentioWebhook) :
    (processMonitor svc env monitor options).1.updated = false ∨
    (findProviderServices svc.cfg monitor.message ≠ [] ∧
      ((options.webhookPerTeam = false ∧
        (findIncidentioWebhooks monitor.message).contains
          ('@' :: getWebhookNameForTeam svc.cfg none) = false ∧
        (processMonitor svc env monitor options).1.message =
          (['@' :: getWebhookNameForTeam svc.cfg none] : List Str).foldl
            (fun m w => m ++ ' ' :: w)
            (stripMarkers (findIncidentioWebhooks monitor.message) monitor.message)) ∨
       (options.webhookPerTeam = true ∧
        (processMonitor svc env monitor options).1.message =
          (perTeamExpectedFold svc.cfg svc.mappings []
              (findProviderServices svc.cfg monitor.message)).foldl
            (fun m w => m ++ ' ' :: w)
            (stripMarkers (findIncidentioWebhooks monitor.message) monitor.message)))) := by
  unfold processMonitor
  simp only [ht]
  split
  · left; rfl
  · rename_i hne
    have hne' : findProviderServices svc.cfg monitor.message ≠ [] := by
      intro h
      exact hne (by simp [h])
    split
    · rename_i hsingle
      have hsingle' : options.webhookPerTeam = false := by simpa using hsingle
      split
      · rename_i r heq
        left
        split at heq
        · split at heq
          · exact absurd heq (by simp)
          · have h := Sum.inr.inj heq
            rw [← h]
        · exact absurd heq (by simp)
      · rename_i svc1 trace1 heq
        split
        · rename_i hexist
          split
          · rename_i hcont
            rcases commitStep_true_cases env monitor (options.dryRun.getD svc.ctorDryRun)
              (stripMarkers (findIncidentioWebhooks monitor.message) monitor.message ++
                ' ' :: '@' :: getWebhookNameForTeam svc.cfg none)
              _ _ svc1 trace1 with hc | hc
            · left
              exact hc
            · right
              refine ⟨hne', Or.inl ⟨hsingle', by simpa using hcont, ?_⟩⟩
              rw [hc]
              rfl
          · left
            rfl
        · rename_i hexist
          have hexnil : findIncidentioWebhooks monitor.message = [] := by
            have : (findIncidentioWebhooks monitor.message).isEmpty = true := by
              cases hh : (findIncidentioWebhooks monitor.message).isEmpty with
              | true => rfl
              | false => exact absurd (by simp [hh]) hexist
            simpa using this
          rcases commitStep_true_cases env monitor (options.dryRun.getD svc.ctorDryRun)
            (monitor.message ++ ' ' :: '@' :: getWebhookNameForTeam svc.cfg none)
            _ _ svc1 trace1 with hc | hc
          · left
            exact hc
          · right
            refine ⟨hne', Or.inl ⟨hsingle', by simp [hexnil], ?_⟩⟩
            rw [hc, hexnil]
            rfl
    · rename_i hteam
      have hteam' : options.webhookPerTeam = true := by
        cases hh : options.webhookPerTeam with
        | true => rfl
        | false => exact absurd (by simp [hh]) hteam
      split
      · rename_i r heq
        left
        exact perTeamWebhookLoop_inl env _ monitor.message _ svc [] [] r.1 r.2.1 r.2.2 heq
      · rename_i svc1 trace1 expected heq
        have hexp := perTeamWebhookLoop_inr env _ monitor.message _ svc [] []
          svc1 trace1 expected heq
        split
        · rcases commitStep_true_cases env monitor (options.dryRun.getD svc.ctorDryRun)
            (expected.foldl (fun m w => m ++ ' ' :: w)
              (stripMarkers (findIncidentioWebhooks monitor.message) monitor.message))
            none none svc1 trace1 with hc | hc
          · left
            exact hc
          · right
            refine ⟨hne', Or.inr ⟨hteam', ?_⟩⟩
            rw [hc, hexp]
        · left
          rfl

theorem contains_ne_nil {l : List Str} {x : Str} (h : l.contains x = true) : l ≠ [] := by
  intro hl
  subst hl
  simp at h

theorem processMonitor_add_single_unchanged (svc : MigrationService) (env : Env)
    (monitor : DatadogMonitor) (options : MigrationOptions)
    (ht : options.type = .addIncidentioWebhook)
    (hpt : options.webhookPerTeam = false)
    (hmem : (findIncidentioWebhooks monitor.message).contains
      ('@' :: getWebhookNameForTeam svc.cfg none) = true) :
    (processMonitor svc env monitor options).1.updated = false := by
  unfold processMonitor
  simp only [ht]
  split
  · rfl
  · split
    · split
      · rename_i r heq
        split at heq
        · split at heq
          · exact absurd heq (by simp)
          · have h := Sum.inr.inj heq
            rw [← h]
        · exact absurd heq (by simp)
      · split
        · split
          · rename_i hcont
            rw [hmem] at hcont
            simp at hcont
          · rfl
        · rename_i hexist
          have : findIncidentioWebhooks monitor.message = [] := by
            cases hh : (findIncidentioWebhooks monitor.message).isEmpty with
            | true => simpa using hh
            | false => exact absurd (by simp [hh]) hexist
          exact absurd this (contains_ne_nil hmem)
    · rename_i hteam
      exact absurd (by simp [hpt]) hteam

theorem processMonitor_add_team_unchanged (svc : MigrationService) (env : Env)
    (monitor : DatadogMonitor) (options : MigrationOptions)
    (ht : options.type = .addIncidentioWebhook)
    (hpt : options.webhookPerTeam = true)
    (h1 : (findIncidentioWebhooks monitor.message).isEmpty = false)
    (h2 : (findIncidentioWebhooks monitor.message).dedup.length =
      (perTeamExpectedFold svc.cfg svc.mappings []
        (findProviderServices svc.cfg monitor.message)).length)
    (h3 : ∀ w ∈ perTeamExpectedFold svc.cfg svc.mappings []
        (findProviderServices svc.cfg monitor.message),
      (findIncidentioWebhooks monitor.message).dedup.contains w = true) :
    (processMonitor svc env monitor options).1.updated = false := by
  unfold processMonitor
  simp only [ht]
  split
  · rfl
  · split
    · rename_i hsingle
      rw [hpt] at hsingle
      simp at hsingle
    · split
      · rename_i r heq
        exact perTeamWebhookLoop_inl env _ monitor.message _ svc [] [] r.1 r.2.1 r.2.2 heq
      · rename_i svc1 trace1 expected heq
        have hexp := perTeamWebhookLoop_inr env _ monitor.message _ svc [] []
          svc1 trace1 expected heq
        split
        · rename_i hneeds
          exfalso
          rw [hexp] at hneeds
          simp [h1, ← h2] at hneeds
          obtain ⟨x, hx, hnot⟩ := hneeds
          have hx' := h3 x hx
          simp at hx'
          exact hnot hx'
        · rfl

theorem commitStep_message_cases (env : Env) (monitor : DatadogMonitor) (dryRun : Bool)
    (newMessage : Str) (tb ta : Option (List Str)) (svc : MigrationService)
    (trace : List RemoteCall) :
    (commitStep env monitor dryRun true newMessage tb ta svc trace).1.updated = true ∨
    (commitStep env monitor dryRun true newMessage tb ta svc trace).1.message =
      monitor.message := by
  unfold commitStep
  split
  · split
    · left; rfl
    · right; rfl
  · left; rfl

theorem perTeamWebhookLoop_inl_message (env : Env) (dry : Bool) (msg : Str) :
    ∀ (services : List Str) (svc : MigrationService) (trace : List RemoteCall)
      (expected : List Str) (r : ProcessResult) (svc' : MigrationService)
      (trace' : List RemoteCall),
      perTeamWebhookLoop env dry msg svc trace expected services =
        Sum.inl (r, svc', trace') → r.message = msg := by
  intro services
  induction services with
  | nil =>
    intro svc trace expected r svc' trace' h
    exact absurd h (by simp [perTeamWebhookLoop])
  | cons s rest ih =>
    intro svc trace expected r svc' trace' h
    simp only [perTeamWebhookLoop] at h
    by_cases hdry : dry = true
    · rw [if_pos hdry] at h
      exact ih _ _ _ _ _ _ h
    · rw [if_neg hdry] at h
      by_cases he : (ensureWebhookExists svc env
          (getWebhookNameForTeam svc.cfg
            (teamOrUndefined (svc.mappings.find?
              (fun m => decide (m.pagerdutyService = some s)))))
          (teamOrUndefined (svc.mappings.find?
            (fun m => decide (m.pagerdutyService = some s))))
          ((svc.mappings.find? (fun m => decide (m.pagerdutyService = some s))).bind
            (fun m => m.additionalMetadata))).1 = true
      · rw [if_pos he] at h
        exact ih _ _ _ _ _ _ h
      · rw [if_neg he] at h
        have := Sum.inl.inj h
        rw [show r = (r, svc', trace').1 from rfl, ← this]

theorem processMonitor_message_cases (svc : MigrationService) (env : Env)
    (monitor : DatadogMonitor) (options : MigrationOptions) :
    (processMonitor svc env monitor options).1.updated = true ∨
    (processMonitor svc env monitor options).1.message = monitor.message := by
  unfold processMonitor
  cases htype : options.type with
  | addIncidentioWebhook =>
    simp only []
    split
    · right; rfl
    · split
      · split
        · rename_i r heq
          right
          split at heq
          · split at heq
            · exact absurd heq (by simp)
            · have h := Sum.inr.inj heq
              rw [← h]
          · exact absurd heq (by simp)
        · split
          · split
            · exact commitStep_message_cases env monitor _ _ _ _ _ _
            · right; rfl
          · exact commitStep_message_cases env monitor _ _ _ _ _ _
      · split
        · rename_i r heq
          right
          exact perTeamWebhookLoop_inl_message env _ monitor.message _ svc [] []
            r.1 r.2.1 r.2.2 heq
        · split
          · exact commitStep_message_cases env monitor _ _ _ _ _ _
          · right; rfl
  | removeIncidentioWebhook =>
    simp only []
    split
    · right; rfl
    · exact commitStep_message_cases env monitor _ _ _ _ _ _
  | removePagerduty =>
    simp only []
    split
    · right; rfl
    · exact commitStep_message_cases env monitor _ _ _ _ _ _

theorem processMonitor_not_updated_message (svc : MigrationService) (env : Env)
    (monitor : DatadogMonitor) (options : MigrationOptions)
    (h : (processMonitor svc env monitor options).1.updated = false) :
    (processMonitor svc env monitor options).1.message = monitor.message := by
  rcases processMonitor_message_cases svc env monitor options with h1 | h1
  · rw [h] at h1
    exact absurd h1 (by simp)
  · exact h1

theorem processMonitor_remove_dry (svc : MigrationService) (env : Env)
    (monitor : DatadogMonitor) (options : MigrationOptions)
    (ht : options.type = .removeIncidentioWebhook)
    (hdry : options.dryRun.getD svc.ctorDryRun = true) :
    (processMonitor svc env monitor options).1.message =
      stripMarkers (findIncidentioWebhooks monitor.message) monitor.message := by
  unfold processMonitor
  simp only [ht]
  split
  · rename_i hempty
    have hx : findIncidentioWebhooks monitor.message = [] := by simpa using hempty
    rw [hx]
    rfl
  · unfold commitStep
    rw [hdry]
    simp

theorem strip_append_dest {lit : Str} (hl : ProvLit lit) {A ws : List Str}
    (hA : ∀ t ∈ A, wfTok lit t = true)
    (hAnd : A.filter (fun t => !isDestTok t) = A)
    (hws : ∀ w ∈ ws, isDestTok w = true) :
    stripMarkers (findIncidentioWebhooks (render (A ++ ws))) (render (A ++ ws)) =
      render A := by
  have hwf2 := wf_append_dest hA hws
  rw [findIncidentioWebhooks_render hl _ hwf2,
      stripMarkers_render hl (A ++ ws).length _ (Nat.le_refl _) hwf2,
      List.filter_append, hAnd,
      List.filter_eq_nil_iff.mpr (fun w hw => by
        rw [hws w hw]
        simp),
      List.append_nil]

/-- The three message-level facts about a reconciled message
strip-then-append-ws, on a well-formed token message. -/
theorem reconcile_message_facts {lit : Str} (hl : ProvLit lit) {toks : List Str}
    (ws : List Str)
    (hwf : ∀ t ∈ toks, wfTok lit t = true)
    (hne : toks.filter (fun t => !isDestTok t) ≠ [])
    (hws : ∀ w ∈ ws, isDestTok w = true) :
    findIncidentioWebhooks
      (ws.foldl (fun m w => m ++ ' ' :: w)
        (stripMarkers (findIncidentioWebhooks (render toks)) (render toks))) = ws ∧
    findMatches lit
      (ws.foldl (fun m w => m ++ ' ' :: w)
        (stripMarkers (findIncidentioWebhooks (render toks)) (render toks))) =
      findMatches lit (render toks) ∧
    stripMarkers
      (findIncidentioWebhooks
        (ws.foldl (fun m w => m ++ ' ' :: w)
          (stripMarkers (findIncidentioWebhooks (render toks)) (render toks))))
      (ws.foldl (fun m w => m ++ ' ' :: w)
        (stripMarkers (findIncidentioWebhooks (render toks)) (render toks))) =
      render (toks.filter (fun t => !isDestTok t)) := by
  have hmEq : ws.foldl (fun m w => m ++ ' ' :: w)
      (stripMarkers (findIncidentioWebhooks (render toks)) (render toks)) =
      render (toks.filter (fun t => !isDestTok t) ++ ws) := by
    rw [findIncidentioWebhooks_render hl toks hwf,
        stripMarkers_render hl toks.length toks (Nat.le_refl _) hwf,
        foldl_appendTok_render ws _ hne]
  refine ⟨?_, ?_, ?_⟩
  · rw [hmEq, findIncidentioWebhooks_render hl _ (wf_append_dest (wf_filter _ hwf) hws),
      List.filter_append, filter_not_filter, List.nil_append,
      List.filter_eq_self.mpr hws]
  · rw [hmEq, findMatches_render hl _ (wf_append_dest (wf_filter _ hwf) hws),
      filter_prov_append_dest hl hws, filter_prov_of_not_dest hl,
      findMatches_render hl toks hwf]
  · rw [hmEq, strip_append_dest hl (wf_filter _ hwf) (filter_not_idem _ _) hws]

theorem isDestTok_default : isDestTok ('@' :: getWebhookNameForTeam svc_cfg none) = true := by
  unfold getWebhookNameForTeam
  rw [if_pos (by simp [strTruthy])]
  decide

/-- C1 (amended): on a well-formed token message with token-shaped team
names, whenever the add-destination operation reports updated, the marker
set of the produced message is exactly the expected set — the per-team
expected-webhook set in per-team mode, the single canonical default
marker otherwise — with no duplicates and no stale markers. -/
theorem migrator_C1 (svc : MigrationService) (env : Env) (options : MigrationOptions)
    (monitor : DatadogMonitor) (toks : List Str)
    (hmsg0 : monitor.message = render toks)
    (hwf : ∀ t ∈ toks, wfTok (getServiceRegexForProvider (sourceProvider svc.cfg)) t = true)
    (hteam : ∀ m ∈ svc.mappings, ∀ t, m.incidentioTeam = some (some t) →
      t.all isTokenChar = true)
    (ht : options.type = .addIncidentioWebhook)
    (hup : (processMonitor svc env monitor options).1.updated = true) :
    findIncidentioWebhooks (processMonitor svc env monitor options).1.message =
      (if options.webhookPerTeam = true then
        perTeamExpectedFold svc.cfg svc.mappings []
          (findProviderServices svc.cfg (render toks))
      else ['@' :: getWebhookNameForTeam svc.cfg none]) ∧
    (findIncidentioWebhooks (processMonitor svc env monitor options).1.message).Nodup := by
  have hl := provLit_of_regex (sourceProvider svc.cfg)
  rcases processMonitor_add_outcome svc env monitor options ht with hf | ⟨hne', hcase⟩
  · rw [hup] at hf
    exact absurd hf (by simp)
  · rw [hmsg0] at hne'
    have hneP : toks.filter (isProvTok (getServiceRegexForProvider (sourceProvider svc.cfg))) ≠ [] := by
      intro h
      exact hne' ((providerServices_render hwf).mpr h)
    have hneD : toks.filter (fun t => !isDestTok t) ≠ [] := filter_not_dest_ne_nil hl hneP
    rcases hcase with ⟨hpt, -, hmsg⟩ | ⟨hpt, hmsg⟩
    · rw [hmsg0] at hmsg
      obtain ⟨hfind, -, -⟩ := reconcile_message_facts hl
        ['@' :: getWebhookNameForTeam svc.cfg none] hwf hneD
        (fun w hw => by
          rw [List.mem_singleton.mp hw]
          exact isDestTok_default)
      rw [hmsg, hfind, hpt]
      simp only [Bool.false_eq_true, if_false]
      exact ⟨trivial, List.nodup_singleton _⟩
    · rw [hmsg0] at hmsg
      obtain ⟨hfind, -, -⟩ := reconcile_message_facts hl
        (perTeamExpectedFold svc.cfg svc.mappings []
          (findProviderServices svc.cfg (render toks))) hwf hneD
        (fun w hw => perTeamExpectedFold_dest hteam _ hw)
      rw [hmsg, hfind, hpt]
      simp only [if_true]
      exact ⟨trivial, perTeamExpectedFold_nodup _ _ _⟩

theorem isEmpty_false_of_ne_nil {l : List Str} (h : l ≠ []) : l.isEmpty = false := by
  cases l with
  | nil => exact absurd rfl h
  | cons x xs => rfl

theorem final_on_render_nonDest {lit : Str} (hl : ProvLit lit) {toks : List Str}
    (hwf : ∀ t ∈ toks, wfTok lit t = true) (m : Str)
    (hm : m = render (toks.filter (fun t => !isDestTok t))) :
    findMatches lit m = findMatches lit (render toks) ∧
    findIncidentioWebhooks m = [] := by
  subst hm
  constructor
  · rw [findMatches_render hl _ (wf_filter _ hwf), filter_prov_of_not_dest hl,
      findMatches_render hl toks hwf]
  · rw [findIncidentioWebhooks_render hl _ (wf_filter _ hwf), filter_not_filter]

/-- C6 (amended): on a well-formed token message with token-shaped team
names, an alert the add-destination operation reports updated is reported
unchanged by a second add-destination run over the committed message,
under the same configuration and mappings. -/
theorem migrator_C6 (svc : MigrationService) (env1 env2 : Env) (options : MigrationOptions)
    (monitor monitor2 : DatadogMonitor) (toks : List Str)
    (hmsg0 : monitor.message = render toks)
    (hwf : ∀ t ∈ toks, wfTok (getServiceRegexForProvider (sourceProvider svc.cfg)) t = true)
    (hteam : ∀ m ∈ svc.mappings, ∀ t, m.incidentioTeam = some (some t) →
      t.all isTokenChar = true)
    (ht : options.type = .addIncidentioWebhook)
    (hup : (processMonitor svc env1 monitor options).1.updated = true)
    (hmsg2 : monitor2.message = (processMonitor svc env1 monitor options).1.message) :
    (processMonitor svc env2 monitor2 options).1.updated = false := by
  have hl := provLit_of_regex (sourceProvider svc.cfg)
  rcases processMonitor_add_outcome svc env1 monitor options ht with hf | ⟨hne', hcase⟩
  · rw [hup] at hf
    exact absurd hf (by simp)
  · rw [hmsg0] at hne'
    have hneP : toks.filter
        (isProvTok (getServiceRegexForProvider (sourceProvider svc.cfg))) ≠ [] := by
      intro h
      exact hne' ((providerServices_render hwf).mpr h)
    have hneD : toks.filter (fun t => !isDestTok t) ≠ [] := filter_not_dest_ne_nil hl hneP
    rcases hcase with ⟨hpt, -, hmsg⟩ | ⟨hpt, hmsg⟩
    · rw [hmsg0] at hmsg
      obtain ⟨hfind, -, -⟩ := reconcile_message_facts hl
        ['@' :: getWebhookNameForTeam svc.cfg none] hwf hneD
        (fun w hw => by
          rw [List.mem_singleton.mp hw]
          exact isDestTok_default)
      apply processMonitor_add_single_unchanged svc env2 monitor2 options ht hpt
      rw [hmsg2, hmsg, hfind]
      simp
    · rw [hmsg0] at hmsg
      obtain ⟨hfind, hprov, -⟩ := reconcile_message_facts hl
        (perTeamExpectedFold svc.cfg svc.mappings []
          (findProviderServices svc.cfg (render toks))) hwf hneD
        (fun w hw => perTeamExpectedFold_dest hteam _ hw)
      have hserv : findProviderServices svc.cfg monitor2.message =
          findProviderServices svc.cfg (render toks) := by
        unfold findProviderServices
        rw [hmsg2, hmsg, hprov]
      have hnodup := perTeamExpectedFold_nodup svc.cfg svc.mappings
        (findProviderServices svc.cfg (render toks))
      apply processMonitor_add_team_unchanged svc env2 monitor2 options ht hpt
      · rw [hmsg2, hmsg, hfind]
        exact isEmpty_false_of_ne_nil (perTeamExpectedFold_ne_nil _ _ hne')
      · rw [hserv, hmsg2, hmsg, hfind, List.dedup_eq_self.mpr hnodup]
      · intro w hw
        rw [hmsg2, hmsg, hfind, List.dedup_eq_self.mpr hnodup]
        rw [hserv] at hw
        simpa using hw

/-- C7 (amended): on a well-formed token message with token-shaped team
names, running remove-destination (as a dry run, i.e. the pure message
transformation) after add-destination restores exactly the original
provider-service markers and leaves no destination markers. -/
theorem migrator_C7 (svc : MigrationService) (env1 env2 : Env)
    (options1 options2 : MigrationOptions) (monitor monitor2 : DatadogMonitor)
    (toks : List Str)
    (hmsg0 : monitor.message = render toks)
    (hwf : ∀ t ∈ toks, wfTok (getServiceRegexForProvider (sourceProvider svc.cfg)) t = true)
    (hteam : ∀ m ∈ svc.mappings, ∀ t, m.incidentioTeam = some (some t) →
      t.all isTokenChar = true)
    (ht1 : options1.type = .addIncidentioWebhook)
    (ht2 : options2.type = .removeIncidentioWebhook)
    (hdry2 : options2.dryRun.getD svc.ctorDryRun = true)
    (hmsg2 : monitor2.message = (processMonitor svc env1 monitor options1).1.message) :
    findMatches (getServiceRegexForProvider (sourceProvider svc.cfg))
      (processMonitor svc env2 monitor2 options2).1.message =
      findMatches (getServiceRegexForProvider (sourceProvider svc.cfg)) (render toks) ∧
    findIncidentioWebhooks (processMonitor svc env2 monitor2 options2).1.message = [] := by
  have hl := provLit_of_regex (sourceProvider svc.cfg)
  have hrem := processMonitor_remove_dry svc env2 monitor2 options2 ht2 hdry2
  by_cases hup : (processMonitor svc env1 monitor options1).1.updated = true
  · rcases processMonitor_add_outcome svc env1 monitor options1 ht1 with hf | ⟨hne', hcase⟩
    · rw [hup] at hf
      exact absurd hf (by simp)
    · rw [hmsg0] at hne'
      have hneP : toks.filter
          (isProvTok (getServiceRegexForProvider (sourceProvider svc.cfg))) ≠ [] := by
        intro h
        exact hne' ((providerServices_render hwf).mpr h)
      have hneD : toks.filter (fun t => !isDestTok t) ≠ [] :=
        filter_not_dest_ne_nil hl hneP
      rcases hcase with ⟨hpt, -, hmsg⟩ | ⟨hpt, hmsg⟩
      · rw [hmsg0] at hmsg
        obtain ⟨-, -, hstrip⟩ := reconcile_message_facts hl
          ['@' :: getWebhookNameForTeam svc.cfg none] hwf hneD
          (fun w hw => by
            rw [List.mem_singleton.mp hw]
            exact isDestTok_default)
        rw [hmsg2, hmsg, hstrip] at hrem
        exact final_on_render_nonDest hl hwf _ hrem
      · rw [hmsg0] at hmsg
        obtain ⟨-, -, hstrip⟩ := reconcile_message_facts hl
          (perTeamExpectedFold svc.cfg svc.mappings []
            (findProviderServices svc.cfg (render toks))) hwf hneD
          (fun w hw => perTeamExpectedFold_dest hteam _ hw)
        rw [hmsg2, hmsg, hstrip] at hrem
        exact final_on_render_nonDest hl hwf _ hrem
  · have hm1 : (processMonitor svc env1 monitor options1).1.message = monitor.message :=
      processMonitor_not_updated_message _ _ _ _ (by
        cases hx : (processMonitor svc env1 monitor options1).1.updated with
        | false => rfl
        | true => exact absurd hx hup)
    rw [hmsg2, hm1, hmsg0] at hrem
    rw [findIncidentioWebhooks_render hl toks hwf,
        stripMarkers_render hl toks.length toks (Nat.le_refl _) hwf] at hrem
    exact final_on_render_nonDest hl hwf _ hrem

/-! ### Creation-at-most-once machinery -/

theorem createStep_refl (svc : MigrationService) : CreateStep svc svc [] := by
  intro n
  simp

theorem createStep_comp {svc s1 s2 : MigrationService} {d1 d2 : List RemoteCall}
    (h1 : CreateStep svc s1 d1) (h2 : CreateStep s1 s2 d2) :
    CreateStep svc s2 (d1 ++ d2) := by
  intro n
  obtain ⟨a1, b1, c1⟩ := h1 n
  obtain ⟨a2, b2, c2⟩ := h2 n
  rw [List.count_append]
  refine ⟨?_, ?_, ?_⟩
  · by_cases h : 1 ≤ d1.count (RemoteCall.createW n)
    · have := (c2 (b1 h)).2
      omega
    · omega
  · intro h
    by_cases hq : 1 ≤ d2.count (RemoteCall.createW n)
    · exact b2 hq
    · have h1' : 1 ≤ d1.count (RemoteCall.createW n) := by omega
      exact (c2 (b1 h1')).1
  · intro hm
    obtain ⟨hm1, he1⟩ := c1 hm
    obtain ⟨hm2, he2⟩ := c2 hm1
    exact ⟨hm2, by omega⟩

theorem createStep_noCreate {svc svc' : MigrationService} {Δ : List RemoteCall}
    (hΔ : ∀ n, Δ.count (RemoteCall.createW n) = 0)
    (hsub : ∀ n, n ∈ svc.createdWebhooks → n ∈ svc'.createdWebhooks) :
    CreateStep svc svc' Δ := by
  intro n
  rw [hΔ n]
  exact ⟨by omega, by omega, fun h => ⟨hsub n h, rfl⟩⟩

theorem count_createW_updateM (i : Nat) (m : Str) (tg : Option (List Str)) (n : Str) :
    ([RemoteCall.updateM i m tg] : List RemoteCall).count (RemoteCall.createW n) = 0 := by
  simp [List.count_cons]

theorem count_createW_getW (w n : Str) :
    ([RemoteCall.getW w] : List RemoteCall).count (RemoteCall.createW n) = 0 := by
  simp [List.count_cons]

theorem ensureWebhookExists_createStep (svc : MigrationService) (env : Env)
    (hCreate : ∀ m, env.createOk m = true)
    (w : Str) (team : Option Str) (meta : Option (List (Str × Str))) :
    CreateStep svc (ensureWebhookExists svc env w team meta).2.1
      (ensureWebhookExists svc env w team meta).2.2 := by
  unfold ensureWebhookExists
  by_cases h1 : svc.ctorDryRun = true
  · simp only [h1, if_true]
    exact createStep_refl svc
  · rw [if_neg h1]
    by_cases h2 : getDatadogWebhookName svc.cfg team ∈ svc.createdWebhooks
    · rw [if_pos h2]
      exact createStep_refl svc
    · rw [if_neg h2]
      by_cases h3 : env.getWebhook (getDatadogWebhookName svc.cfg team) = true
      · rw [if_pos h3]
        exact createStep_noCreate (fun n => count_createW_getW _ n)
          (fun n hn => List.mem_cons_of_mem _ hn)
      · rw [if_neg h3]
        by_cases h4 : (!(strTruthy svc.cfg.webhookUrl && strTruthy svc.cfg.webhookToken)) = true
        · rw [if_pos h4]
          exact createStep_noCreate (fun n => count_createW_getW _ n) (fun n hn => hn)
        · rw [if_neg h4]
          rw [if_pos (hCreate (getDatadogWebhookName svc.cfg team))]
          intro n
          by_cases hn : n = getDatadogWebhookName svc.cfg team
          · subst hn
            refine ⟨?_, ?_, ?_⟩
            · simp [List.count_cons]
            · intro _
              exact List.mem_cons_self _ _
            · intro hmem
              exact absurd hmem h2
          · have hcnt : ([RemoteCall.getW (getDatadogWebhookName svc.cfg team),
                RemoteCall.createW (getDatadogWebhookName svc.cfg team)] :
                List RemoteCall).count (RemoteCall.createW n) = 0 := by
              simp [List.count_cons, hn]
            rw [hcnt]
            exact ⟨by omega, by omega,
              fun hmem => ⟨List.mem_cons_of_mem _ hmem, rfl⟩⟩

theorem commitStep_createStep {svc svc' : MigrationService} {Δ : List RemoteCall}
    (h : CreateStep svc svc' Δ) (env : Env) (monitor : DatadogMonitor)
    (dryRun updated : Bool) (newMessage : Str) (tb ta : Option (List Str)) :
    CreateStep svc
      (commitStep env monitor dryRun updated newMessage tb ta svc' Δ).2.1
      (commitStep env monitor dryRun updated newMessage tb ta svc' Δ).2.2 := by
  unfold commitStep
  split
  · split
    · exact createStep_comp h (createStep_noCreate
        (fun n => count_createW_updateM _ _ _ n) (fun n hn => hn))
    · exact createStep_comp h (createStep_noCreate
        (fun n => count_createW_updateM _ _ _ n) (fun n hn => hn))
  · exact h

theorem perTeamWebhookLoop_createStep (env : Env)
    (hCreate : ∀ m, env.createOk m = true) (dry : Bool) (msg : Str) :
    ∀ (services : List Str) (svc : MigrationService) (trace : List RemoteCall)
      (expected : List Str),
      (∀ r s' t', perTeamWebhookLoop env dry msg svc trace expected services =
          Sum.inl (r, s', t') → ∃ Δ, t' = trace ++ Δ ∧ CreateStep svc s' Δ) ∧
      (∀ s' t' e', perTeamWebhookLoop env dry msg svc trace expected services =
          Sum.inr (s', t', e') → ∃ Δ, t' = trace ++ Δ ∧ CreateStep svc s' Δ) := by
  intro services
  induction services with
  | nil =>
    intro svc trace expected
    constructor
    · intro r s' t' h
      exact absurd h (by simp [perTeamWebhookLoop])
    · intro s' t' e' h
      simp only [perTeamWebhookLoop] at h
      have h' := Sum.inr.inj h
      obtain ⟨hA, hB⟩ := Prod.mk.inj h'
      obtain ⟨hC, hD⟩ := Prod.mk.inj hB
      subst hA
      subst hC
      exact ⟨[], by rw [List.append_nil], createStep_refl svc⟩
  | cons s rest ih =>
    intro svc trace expected
    simp only [perTeamWebhookLoop]
    by_cases hdry : dry = true
    · rw [if_pos hdry]
      exact ih svc trace _
    · rw [if_neg hdry]
      set E := ensureWebhookExists svc env
        (getWebhookNameForTeam svc.cfg
          (teamOrUndefined (svc.mappings.find?
            (fun m => decide (m.pagerdutyService = some s)))))
        (teamOrUndefined (svc.mappings.find?
          (fun m => decide (m.pagerdutyService = some s))))
        ((svc.mappings.find? (fun m => decide (m.pagerdutyService = some s))).bind
          (fun m => m.additionalMetadata)) with hE
      have hens : CreateStep svc E.2.1 E.2.2 := by
        rw [hE]
        exact ensureWebhookExists_createStep svc env hCreate _ _ _
      by_cases he : E.1 = true
      · rw [if_pos he]
        constructor
        · intro r s' t' h
          obtain ⟨d2, hT, hcs⟩ := (ih E.2.1 (trace ++ E.2.2) _).1 r s' t' h
          exact ⟨E.2.2 ++ d2, by rw [hT, List.append_assoc],
            createStep_comp hens hcs⟩
        · intro s' t' e' h
          obtain ⟨d2, hT, hcs⟩ := (ih E.2.1 (trace ++ E.2.2) _).2 s' t' e' h
          exact ⟨E.2.2 ++ d2, by rw [hT, List.append_assoc],
            createStep_comp hens hcs⟩
      · rw [if_neg he]
        constructor
        · intro r s' t' h
          have h' := Sum.inl.inj h
          obtain ⟨hA, hB⟩ := Prod.mk.inj h'
          obtain ⟨hC, hD⟩ := Prod.mk.inj hB
          subst hC
          subst hD
          exact ⟨E.2.2, rfl, hens⟩
        · intro s' t' e' h
          exact absurd h (by simp)

theorem processMonitor_createStep (svc : MigrationService) (env : Env)
    (monitor : DatadogMonitor) (options : MigrationOptions)
    (hCreate : ∀ m, env.createOk m = true) :
    CreateStep svc (processMonitor svc env monitor options).2.1
      (processMonitor svc env monitor options).2.2 := by
  unfold processMonitor
  cases htype : options.type with
  | addIncidentioWebhook =>
    simp only []
    split
    · exact createStep_refl svc
    · split
      · split
        · rename_i r heq
          split at heq
          · rename_i hnd
            split at heq
            · exact absurd heq (by simp)
            · rename_i hef
              have h' := Sum.inr.inj heq
              rw [← h']
              exact ensureWebhookExists_createStep svc env hCreate _ _ _
          · exact absurd heq (by simp)
        · rename_i svc1 trace1 heq
          have hens : CreateStep svc svc1 trace1 := by
            split at heq
            · split at heq
              · have h' := Sum.inl.inj heq
                obtain ⟨hA, hB⟩ := Prod.mk.inj h'
                subst hA
                subst hB
                exact ensureWebhookExists_createStep svc env hCreate _ _ _
              · exact absurd heq (by simp)
            · have h' := Sum.inl.inj heq
              obtain ⟨hA, hB⟩ := Prod.mk.inj h'
              subst hA
              subst hB
              exact createStep_refl svc
          split
          · split
            · exact commitStep_createStep hens env monitor _ _ _ _ _
            · exact hens
          · exact commitStep_createStep hens env monitor _ _ _ _ _
      · split
        · rename_i r heq
          obtain ⟨Δ, hT, hcs⟩ := (perTeamWebhookLoop_createStep env hCreate _
            monitor.message _ svc [] []).1 r.1 r.2.1 r.2.2 heq
          rw [List.nil_append] at hT
          rw [hT]
          exact hcs
        · rename_i svc1 trace1 expected heq
          obtain ⟨Δ, hT, hcs⟩ := (perTeamWebhookLoop_createStep env hCreate _
            monitor.message _ svc [] []).2 svc1 trace1 expected heq
          rw [List.nil_append] at hT
          subst hT
          split
          · exact commitStep_createStep hcs env monitor _ _ _ _ _
          · exact hcs
  | removeIncidentioWebhook =>
    simp only []
    split
    · exact createStep_refl svc
    · exact commitStep_createStep (createStep_refl svc) env monitor _ _ _ _ _
  | removePagerduty =>
    simp only []
    split
    · exact createStep_refl svc
    · exact commitStep_createStep (createStep_refl svc) env monitor _ _ _ _ _

theorem traceInv_nil (svc : MigrationService) : TraceInv svc [] := by
  intro n
  simp

theorem traceInv_step {svc svc' : MigrationService} {T Δ : List RemoteCall}
    (hI : TraceInv svc T) (hs : CreateStep svc svc' Δ) : TraceInv svc' (T ++ Δ) := by
  intro n
  obtain ⟨a1, b1⟩ := hI n
  obtain ⟨a2, b2, c2⟩ := hs n
  rw [List.count_append]
  constructor
  · by_cases h : 1 ≤ T.count (RemoteCall.createW n)
    · have := (c2 (b1 h)).2
      omega
    · omega
  · intro h
    by_cases hq : 1 ≤ Δ.count (RemoteCall.createW n)
    · exact b2 hq
    · have h1' : 1 ≤ T.count (RemoteCall.createW n) := by omega
      exact (c2 (b1 h1')).1

theorem runStep_fields (env : Env) (options : MigrationOptions) (acc : RunAcc)
    (monitor : DatadogMonitor) :
    (runStep env options acc monitor).svc =
      (processMonitor acc.svc env monitor options).2.1 ∧
    (runStep env options acc monitor).trace =
      acc.trace ++ (processMonitor acc.svc env monitor options).2.2 ∧
    (runStep env options acc monitor).processed = acc.processed + 1 := by
  refine ⟨?_, ?_, ?_⟩ <;>
  · simp only [runStep]
    by_cases hc : (processMonitor acc.svc env monitor options).1.updated = true
    · rw [if_pos hc]
    · rw [if_neg hc]

theorem foldl_runStep_traceInv (env : Env) (options : MigrationOptions)
    (hCreate : ∀ m, env.createOk m = true) :
    ∀ (monitors : List DatadogMonitor) (acc : RunAcc),
      TraceInv acc.svc acc.trace →
      TraceInv ((monitors.foldl (runStep env options) acc).svc)
        ((monitors.foldl (runStep env options) acc).trace) := by
  intro monitors
  induction monitors with
  | nil => intro acc h; exact h
  | cons mon rest ih =>
    intro acc h
    rw [List.foldl_cons]
    apply ih
    obtain ⟨h1, h2, -⟩ := runStep_fields env options acc mon
    rw [h1, h2]
    exact traceInv_step h (processMonitor_createStep acc.svc env mon options hCreate)

theorem foldl_runStep_processed (env : Env) (options : MigrationOptions) :
    ∀ (monitors : List DatadogMonitor) (acc : RunAcc),
      (monitors.foldl (runStep env options) acc).processed =
        acc.processed + monitors.length := by
  intro monitors
  induction monitors with
  | nil => intro acc; simp
  | cons mon rest ih =>
    intro acc
    rw [List.foldl_cons, ih]
    obtain ⟨-, -, h3⟩ := runStep_fields env options acc mon
    rw [h3, List.length_cons]
    omega

theorem migrateMonitors_ok (svc : MigrationService) (env : Env)
    (allMonitors : List DatadogMonitor) (options : MigrationOptions)
    (res : MigrationResult) (svc' : MigrationService) (trace : List RemoteCall)
    (h : migrateMonitors svc env allMonitors options = .ok (res, svc', trace)) :
    res.processed =
      ((match options.filter with
        | some f => filterMonitors allMonitors f
        | none => allMonitors).foldl (runStep env options)
        { processed := 0, updatedCount := 0, unchangedCount := 0,
          changes := [], svc := svc, trace := [] }).processed ∧
    res.errors = [] ∧
    svc' = ((match options.filter with
        | some f => filterMonitors allMonitors f
        | none => allMonitors).foldl (runStep env options)
        { processed := 0, updatedCount := 0, unchangedCount := 0,
          changes := [], svc := svc, trace := [] }).svc ∧
    trace = ((match options.filter with
        | some f => filterMonitors allMonitors f
        | none => allMonitors).foldl (runStep env options)
        { processed := 0, updatedCount := 0, unchangedCount := 0,
          changes := [], svc := svc, trace := [] }).trace := by
  unfold migrateMonitors at h
  dsimp only at h
  cases hv : validationGate svc options
      (match options.filter with
        | some f => filterMonitors allMonitors f
        | none => allMonitors) with
  | error e =>
    rw [hv] at h
    exact absurd h (by simp)
  | ok v =>
    rw [hv] at h
    simp only [] at h
    have h' := Except.ok.inj h
    obtain ⟨hA, hB⟩ := Prod.mk.inj h'
    obtain ⟨hC, hD⟩ := Prod.mk.inj hB
    subst hC
    subst hD
    rw [← hA]
    exact ⟨rfl, rfl, rfl, rfl⟩

/-- C2 (amended): when webhook creation succeeds, a single run of
migrateMonitors issues at most one createWebhook call per distinct
resource name, however many alerts reference it. -/
theorem migrator_C2 (svc : MigrationService) (env : Env)
    (allMonitors : List DatadogMonitor) (options : MigrationOptions)
    (hCreate : ∀ m, env.createOk m = true)
    (res : MigrationResult) (svc' : MigrationService) (trace : List RemoteCall)
    (h : migrateMonitors svc env allMonitors options = .ok (res, svc', trace)) :
    ∀ n, trace.count (RemoteCall.createW n) ≤ 1 := by
  obtain ⟨-, -, -, hT⟩ := migrateMonitors_ok svc env allMonitors options res svc' trace h
  intro n
  rw [hT]
  exact (foldl_runStep_traceInv env options hCreate _ _ (traceInv_nil svc) n).1

/-- C3 (amended): a failed remote update downgrades the alert to
not-updated with the error text as its reason and the original message
kept; the run still processes every filtered alert, but the run result's
errors list stays empty (the catch block never rethrows into it). -/
theorem migrator_C3 (env : Env) (monitor : DatadogMonitor) (newMessage : Str)
    (tb ta : Option (List Str)) (svc : MigrationService) (trace : List RemoteCall)
    (hfail : env.updateOk monitor.id = false) :
    (commitStep env monitor false true newMessage tb ta svc trace).1.updated = false ∧
    (commitStep env monitor false true newMessage tb ta svc trace).1.message =
      monitor.message ∧
    (commitStep env monitor false true newMessage tb ta svc trace).1.reason =
      some ("API update failed: ".toList ++ env.updateErr monitor.id) ∧
    ∀ (svc0 : MigrationService) (monitors : List DatadogMonitor)
      (options : MigrationOptions) (res : MigrationResult)
      (svc' : MigrationService) (trace' : List RemoteCall),
      migrateMonitors svc0 env monitors options = .ok (res, svc', trace') →
      res.processed = (match options.filter with
        | some f => filterMonitors monitors f
        | none => monitors).length ∧
      res.errors = [] := by
  have hred : commitStep env monitor false true newMessage tb ta svc trace =
      ({ updated := false, message := monitor.message,
         reason := some ("API update failed: ".toList ++ env.updateErr monitor.id),
         tagsBefore := tb, tagsAfter := ta },
        svc, trace ++ [.updateM monitor.id newMessage ta]) := by
    unfold commitStep
    rw [if_pos (show ((true && !false) = true) by decide)]
    rw [if_neg (show ¬(env.updateOk monitor.id = true) by simp [hfail])]
  refine ⟨by rw [hred], by rw [hred], by rw [hred], ?_⟩
  intro svc0 monitors options res svc' trace' h
  obtain ⟨hP, hE, -, -⟩ := migrateMonitors_ok svc0 env monitors options res svc' trace' h
  refine ⟨?_, hE⟩
  rw [hP, foldl_runStep_processed]
  simp

/-- C9: the remove-destination and remove-provider operations carry no
tag changes in their outcome, and any monitor update they issue sends no
tags field. -/
theorem migrator_C9 (svc : MigrationService) (env : Env) (monitor : DatadogMonitor)
    (options : MigrationOptions)
    (ht : options.type = .removeIncidentioWebhook ∨
      options.type = .removePagerduty) :
    (processMonitor svc env monitor options).1.tagsBefore = none ∧
    (processMonitor svc env monitor options).1.tagsAfter = none ∧
    ∀ c ∈ (processMonitor svc env monitor options).2.2,
      ∀ i msg tg, c = RemoteCall.updateM i msg tg → tg = none := by
  have hcs : ∀ (d : Bool) (m : Str) (s : MigrationService),
      (commitStep env monitor d true m none none s []).1.tagsBefore = none ∧
      (commitStep env monitor d true m none none s []).1.tagsAfter = none ∧
      ∀ c ∈ (commitStep env monitor d true m none none s []).2.2,
        ∀ i msg tg, c = RemoteCall.updateM i msg tg → tg = none := by
    intro d m s
    unfold commitStep
    split
    · split
      · refine ⟨rfl, rfl, ?_⟩
        intro c hc i msg tg hctg
        rw [List.nil_append] at hc
        rw [List.mem_singleton.mp hc] at hctg
        injection hctg with h1 h2 h3
        exact h3.symm
      · refine ⟨rfl, rfl, ?_⟩
        intro c hc i msg tg hctg
        rw [List.nil_append] at hc
        rw [List.mem_singleton.mp hc] at hctg
        injection hctg with h1 h2 h3
        exact h3.symm
    · refine ⟨rfl, rfl, ?_⟩
      intro c hc
      exact absurd hc (List.not_mem_nil c)
  rcases ht with ht | ht <;>
  · unfold processMonitor
    simp only [ht]
    split
    · refine ⟨rfl, rfl, ?_⟩
      intro c hc
      exact absurd hc (List.not_mem_nil c)
    · exact hcs _ _ _

/-- C10: in the per-team expected-webhook computation, a provider service
with no mapping or no team resolves to the shared default marker rather
than an error: the loop completes (in a dry run) and the expected set
contains the default marker for that service. -/
theorem migrator_C10 (env : Env) (svc : MigrationService) (message : Str)
    (services : List Str) (s : Str) (hs : s ∈ services)
    (hnoteam : teamOrUndefined (svc.mappings.find?
      (fun m => decide (m.pagerdutyService = some s))) = none) :
    ∃ svc' trace' expected,
      perTeamWebhookLoop env true message svc [] [] services =
        Sum.inr (svc', trace', expected) ∧
      ('@' :: "webhook-incident-io".toList) ∈ expected := by
  refine ⟨svc, [], _, perTeamWebhookLoop_dry env message services svc [] [], ?_⟩
  have hname : '@' :: getWebhookNameForTeam svc.cfg
      (teamOrUndefined (svc.mappings.find?
        (fun m => decide (m.pagerdutyService = some s)))) =
      '@' :: "webhook-incident-io".toList := by
    rw [hnoteam]
    simp [getWebhookNameForTeam, strTruthy]
  rw [← hname]
  unfold perTeamExpectedFold
  exact mem_foldl_setAdd_of_mem _ services [] s hs

theorem classifyStep_unmapped_nulls (cfg : IncidentioConfig)
    (entries : List (Str × Option (Option Str)))
    (acc : List Str × List Str × List (Str × Str)) (s : Str) :
    (classifyStep cfg entries acc s).1 =
      acc.1 ++ (if !mapHas entries s then [s] else []) ∧
    (classifyStep cfg entries acc s).2.1 =
      acc.2.1 ++ (if mapHas entries s && decide (mapGet entries s = some (some none))
        then [s] else []) := by
  unfold classifyStep
  by_cases h1 : mapHas entries s = true
  · by_cases h2 : mapGet entries s = some (some none)
    · simp [h1, h2]
    · have hsplit : ((if (cfg.webhookPerTeam || cfg.addTeamTags) = true then
            match mapGet entries s with
            | some (some (some teamName)) =>
              if (!teamName.isEmpty && !teamName.all isValidTeamChar) = true then
                (acc.1, acc.2.1, acc.2.2 ++ [(s, teamName)])
              else acc
            | _ => acc
          else acc).1 = acc.1 ∧
          (if (cfg.webhookPerTeam || cfg.addTeamTags) = true then
            match mapGet entries s with
            | some (some (some teamName)) =>
              if (!teamName.isEmpty && !teamName.all isValidTeamChar) = true then
                (acc.1, acc.2.1, acc.2.2 ++ [(s, teamName)])
              else acc
            | _ => acc
          else acc).2.1 = acc.2.1) := by
        constructor
        · split
          · split
            · split
              · rfl
              · rfl
            · rfl
          · rfl
        · split
          · split
            · split
              · rfl
              · rfl
            · rfl
          · rfl
      simp only [h1, Bool.not_true, Bool.false_eq_true, if_false, if_neg h2]
      constructor
      · rw [hsplit.1]
        simp
      · rw [hsplit.2]
        simp [h2]
  · simp at h1
    simp [h1]

theorem classify_fold (cfg : IncidentioConfig)
    (entries : List (Str × Option (Option Str))) :
    ∀ (services : List Str) (acc : List Str × List Str × List (Str × Str)),
      (services.foldl (classifyStep cfg entries) acc).1 =
        acc.1 ++ services.filter (fun s => !mapHas entries s) ∧
      (services.foldl (classifyStep cfg entries) acc).2.1 =
        acc.2.1 ++ services.filter (fun s => mapHas entries s &&
          decide (mapGet entries s = some (some none))) := by
  intro services
  induction services with
  | nil => intro acc; simp
  | cons s rest ih =>
    intro acc
    rw [List.foldl_cons]
    obtain ⟨ha, hb⟩ := ih (classifyStep cfg entries acc s)
    obtain ⟨hc, hd⟩ := classifyStep_unmapped_nulls cfg entries acc s
    constructor
    · rw [ha, hc, List.filter_cons, List.append_assoc]
      by_cases h : mapHas entries s = true
      · simp [h]
      · simp at h
        simp [h]
    · rw [hb, hd, List.filter_cons, List.append_assoc]
      by_cases h : (mapHas entries s &&
          decide (mapGet entries s = some (some none))) = true
      · simp [h]
      · simp only [h, Bool.false_eq_true, if_false]
        simp

/-- C8: every provider service referenced across the filtered alerts is
classified into exactly one of the classes unmapped, null-mapped and
mapped-complete by validateProviderMappings. -/
theorem migrator_C8 (cfg : IncidentioConfig) (mappings : List MigrationMapping)
    (monitors : List DatadogMonitor) :
    ∀ s ∈ servicesInMonitors cfg monitors,
      (s ∈ (validateProviderMappings cfg mappings monitors).unmappedServices ∧
        s ∉ (validateProviderMappings cfg mappings monitors).nullMappings ∧
        mappedComplete (mappedServicesEntries cfg mappings) s = false) ∨
      (s ∉ (validateProviderMappings cfg mappings monitors).unmappedServices ∧
        s ∈ (validateProviderMappings cfg mappings monitors).nullMappings ∧
        mappedComplete (mappedServicesEntries cfg mappings) s = false) ∨
      (s ∉ (validateProviderMappings cfg mappings monitors).unmappedServices ∧
        s ∉ (validateProviderMappings cfg mappings monitors).nullMappings ∧
        mappedComplete (mappedServicesEntries cfg mappings) s = true) := by
  intro s hs
  have hu : (validateProviderMappings cfg mappings monitors).unmappedServices =
      (servicesInMonitors cfg monitors).filter
        (fun u => !mapHas (mappedServicesEntries cfg mappings) u) := by
    show (classifyServices cfg (mappedServicesEntries cfg mappings)
      (servicesInMonitors cfg monitors)).1 = _
    unfold classifyServices
    have := (classify_fold cfg (mappedServicesEntries cfg mappings)
      (servicesInMonitors cfg monitors) ([], [], [])).1
    simpa using this
  have hn : (validateProviderMappings cfg mappings monitors).nullMappings =
      (servicesInMonitors cfg monitors).filter
        (fun u => mapHas (mappedServicesEntries cfg mappings) u &&
          decide (mapGet (mappedServicesEntries cfg mappings) u = some (some none))) := by
    show (classifyServices cfg (mappedServicesEntries cfg mappings)
      (servicesInMonitors cfg monitors)).2.1 = _
    unfold classifyServices
    have := (classify_fold cfg (mappedServicesEntries cfg mappings)
      (servicesInMonitors cfg monitors) ([], [], [])).2
    simpa using this
  rw [hu, hn]
  by_cases hhas : mapHas (mappedServicesEntries cfg mappings) s = true
  · by_cases hget : mapGet (mappedServicesEntries cfg mappings) s = some (some none)
    · refine Or.inr (Or.inl ⟨?_, ?_, ?_⟩)
      · intro hmem
        have := (List.mem_filter.mp hmem).2
        simp [hhas] at this
      · exact List.mem_filter.mpr ⟨hs, by simp [hhas, hget]⟩
      · simp [mappedComplete, hhas, hget]
    · refine Or.inr (Or.inr ⟨?_, ?_, ?_⟩)
      · intro hmem
        have := (List.mem_filter.mp hmem).2
        simp [hhas] at this
      · intro hmem
        have := (List.mem_filter.mp hmem).2
        simp [hhas, hget] at this
      · simp [mappedComplete, hhas, hget]
  · simp at hhas
    refine Or.inl ⟨?_, ?_, ?_⟩
    · exact List.mem_filter.mpr ⟨hs, by simp [hhas]⟩
    · intro hmem
      have := (List.mem_filter.mp hmem).2
      simp [hhas] at this
    · simp [mappedComplete, hhas]

/-! ### Counterexamples and failing-input evaluations -/

/-- C1 counterexample to the unamended claim: a message already carrying
the canonical marker twice is returned with both duplicates kept, and on
a spliced message even an updated outcome carries duplicate markers. -/
theorem migrator_C1_counterexample :
    findIncidentioWebhooks (processMonitor svcSingleDry envAllOk monDup optsAddDry).1.message =
      ["@webhook-incident-io".toList, "@webhook-incident-io".toList] ∧
    (processMonitor svcTeamDryQ envAllOk monSpliceQ optsAddTeamDry).1.updated = true ∧
    findIncidentioWebhooks
      (processMonitor svcTeamDryQ envAllOk monSpliceQ optsAddTeamDry).1.message =
      ["@webhook-incident-io-q".toList, "@webhook-incident-io-q".toList] := by
  refine ⟨by decide, by decide, by decide⟩

/-- C2 counterexample to the unamended claim: when creation fails, each
alert referencing the same destination name retries the creation call. -/
theorem migrator_C2_counterexample :
    ∃ res svc' trace,
      migrateMonitors svcCreateRetry envCreateFail [monPd1, monPd2] optsAddLive =
        .ok (res, svc', trace) ∧
      2 ≤ trace.count (RemoteCall.createW ("incident-io".toList)) :=
  ⟨_, _, _, rfl, by decide⟩

/-- C3 counterexample to the unamended claim: a failed update downgrades
the alert (reason recorded on the change entry) and processing continues,
but the run result's errors list stays empty. -/
theorem migrator_C3_counterexample :
    ∃ res svc' trace,
      migrateMonitors svcUpdateFail envUpdateFail [monPdFail] optsAddLiveVerbose =
        .ok (res, svc', trace) ∧
      res.unchanged = 1 ∧ res.errors = [] ∧
      res.changes.map (fun c => c.reason) =
        [some ("API update failed: boom".toList)] :=
  ⟨_, _, _, rfl, by decide, by decide, by decide⟩

/-- C6 counterexample to the unamended claim: a spliced message is
updated and committed by the first per-team run, and the second run over
the committed message reports updated again. -/
theorem migrator_C6_counterexample :
    (processMonitor svcTeamLive envAllOk monSpliceB optsAddTeamLive).1.updated = true ∧
    (processMonitor
      (processMonitor svcTeamLive envAllOk monSpliceB optsAddTeamLive).2.1 envAllOk
      { monSpliceB with
        message := (processMonitor svcTeamLive envAllOk monSpliceB optsAddTeamLive).1.message }
      optsAddTeamLive).1.updated = true := by
  refine ⟨by decide, by decide⟩

/-- C7 counterexample to the unamended claim: on a spliced message,
removing after adding changes the provider-service marker set. -/
theorem migrator_C7_counterexample :
    findProviderServices svcSingleDry.cfg
      (processMonitor svcSingleDry envAllOk
        { monSpliceB with
          message := (processMonitor svcSingleDry envAllOk monSpliceB optsAddDry).1.message }
        optsRemDry).1.message ≠
    findProviderServices svcSingleDry.cfg monSpliceB.message := by
  decide

/-- C4: evaluation of the failing input — the tag-annotation loop adds
the team tag (tagsAfter records it) but the early return still reports
the alert not updated. -/
theorem migrator_C4_evidence :
    (processMonitor svcTagAnnotate envAllOk monTagged optsAddLive).1 =
      { updated := false, message := monTagged.message,
        reason := some ("Already has correct incident.io webhook".toList),
        tagsBefore := some [], tagsAfter := some ["team:api-team".toList] } := by
  decide

/-- C5: evaluation of the failing input — with source opsgenie, the
provider-aware lookup resolves service db to team data, yet the per-team
expected-webhook computation keys by pagerdutyService, misses the
mapping, and emits the default marker instead of the team marker. -/
theorem migrator_C5_evidence :
    getTeamForProviderService svcOpsgenie.cfg svcOpsgenie.mappings ("db".toList) =
      some ("data".toList) ∧
    (processMonitor svcOpsgenie envAllOk monOps optsAddTeamDry).1.message =
      "@opsgenie-db @webhook-incident-io".toList := by
  refine ⟨by decide, by decide⟩

/-! ### Witness instantiations -/

/-- C1 witness: the amended theorem at a concrete dry single-webhook run
that reports updated. -/
theorem migrator_C1_witness :
    findIncidentioWebhooks (processMonitor svcSingleDry envAllOk monW1 optsAddDry).1.message =
      (if optsAddDry.webhookPerTeam = true then
        perTeamExpectedFold svcSingleDry.cfg svcSingleDry.mappings []
          (findProviderServices svcSingleDry.cfg (render toksW1))
      else ['@' :: getWebhookNameForTeam svcSingleDry.cfg none]) ∧
    (findIncidentioWebhooks
      (processMonitor svcSingleDry envAllOk monW1 optsAddDry).1.message).Nodup :=
  migrator_C1 svcSingleDry envAllOk optsAddDry monW1 toksW1 rfl (by decide)
    (fun m hm => absurd hm (List.not_mem_nil m)) rfl (by decide)

/-- C2 witness: the amended theorem on a concrete run that creates the
shared webhook exactly once for two alerts. -/
theorem migrator_C2_witness :
    (match runW2 with
     | .ok (_, _, tr) => tr
     | .error _ => []).count (RemoteCall.createW ("incident-io".toList)) ≤ 1 := by
  cases hrun : runW2 with
  | error e => simp
  | ok v =>
    obtain ⟨res, svc', tr⟩ := v
    have := migrator_C2 svcCreateRetry envNeedsCreate [monPd1, monPd2] optsAddLive
      (fun m => rfl) res svc' tr hrun ("incident-io".toList)
    simpa [hrun] using this

/-- C3 witness: the amended theorem at a concrete failed update. -/
theorem migrator_C3_witness :
    (commitStep envUpdateFail monPdFail false true ("x".toList) none none
      svcUpdateFail []).1.updated = false ∧
    (commitStep envUpdateFail monPdFail false true ("x".toList) none none
      svcUpdateFail []).1.message = monPdFail.message ∧
    (commitStep envUpdateFail monPdFail false true ("x".toList) none none
      svcUpdateFail []).1.reason =
      some ("API update failed: ".toList ++ envUpdateFail.updateErr monPdFail.id) ∧
    (∀ (svc0 : MigrationService) (monitors : List DatadogMonitor)
      (options : MigrationOptions) (res : MigrationResult)
      (svc' : MigrationService) (trace' : List RemoteCall),
      migrateMonitors svc0 envUpdateFail monitors options = .ok (res, svc', trace') →
      res.processed = (match options.filter with
        | some f => filterMonitors monitors f
        | none => monitors).length ∧
      res.errors = []) :=
  migrator_C3 envUpdateFail monPdFail ("x".toList) none none svcUpdateFail [] rfl

/-- C6 witness: the amended theorem at a concrete dry single-webhook
pair of runs. -/
theorem migrator_C6_witness :
    (processMonitor svcSingleDry envAllOk monW6 optsAddDry).1.updated = false :=
  migrator_C6 svcSingleDry envAllOk envAllOk optsAddDry monW1 monW6 toksW1 rfl
    (by decide) (fun m hm => absurd hm (List.not_mem_nil m)) rfl (by decide) rfl

/-- C7 witness: the amended theorem at a concrete dry add-then-remove
pair of runs. -/
theorem migrator_C7_witness :
    findMatches (getServiceRegexForProvider (sourceProvider svcSingleDry.cfg))
      (processMonitor svcSingleDry envAllOk monW6 optsRemDry).1.message =
      findMatches (getServiceRegexForProvider (sourceProvider svcSingleDry.cfg))
        (render toksW1) ∧
    findIncidentioWebhooks
      (processMonitor svcSingleDry envAllOk monW6 optsRemDry).1.message = [] :=
  migrator_C7 svcSingleDry envAllOk envAllOk optsAddDry optsRemDry monW1 monW6 toksW1
    rfl (by decide) (fun m hm => absurd hm (List.not_mem_nil m)) rfl rfl rfl rfl

/-- C8 witness: the classification trichotomy at a concrete unmapped
service. -/
theorem migrator_C8_witness :
    (("a".toList) ∈ (validateProviderMappings svcSingleDry.cfg svcSingleDry.mappings
        [monPd1]).unmappedServices ∧
      ("a".toList) ∉ (validateProviderMappings svcSingleDry.cfg svcSingleDry.mappings
        [monPd1]).nullMappings ∧
      mappedComplete (mappedServicesEntries svcSingleDry.cfg svcSingleDry.mappings)
        ("a".toList) = false) ∨
    (("a".toList) ∉ (validateProviderMappings svcSingleDry.cfg svcSingleDry.mappings
        [monPd1]).unmappedServices ∧
      ("a".toList) ∈ (validateProviderMappings svcSingleDry.cfg svcSingleDry.mappings
        [monPd1]).nullMappings ∧
      mappedComplete (mappedServicesEntries svcSingleDry.cfg svcSingleDry.mappings)
        ("a".toList) = false) ∨
    (("a".toList) ∉ (validateProviderMappings svcSingleDry.cfg svcSingleDry.mappings
        [monPd1]).unmappedServices ∧
      ("a".toList) ∉ (validateProviderMappings svcSingleDry.cfg svcSingleDry.mappings
        [monPd1]).nullMappings ∧
      mappedComplete (mappedServicesEntries svcSingleDry.cfg svcSingleDry.mappings)
        ("a".toList) = true) :=
  migrator_C8 svcSingleDry.cfg svcSingleDry.mappings [monPd1] ("a".toList) (by decide)

/-- C9 witness: the frame property at a concrete dry remove run. -/
theorem migrator_C9_witness :
    (processMonitor svcSingleDry envAllOk monDup optsRemDry).1.tagsBefore = none ∧
    (processMonitor svcSingleDry envAllOk monDup optsRemDry).1.tagsAfter = none ∧
    ∀ c ∈ (processMonitor svcSingleDry envAllOk monDup optsRemDry).2.2,
      ∀ i msg tg, c = RemoteCall.updateM i msg tg → tg = none :=
  migrator_C9 svcSingleDry envAllOk monDup optsRemDry (Or.inl rfl)

/-- C10 witness: the default-marker membership at a concrete unmapped
service. -/
theorem migrator_C10_witness :
    ∃ svc' trace' expected,
      perTeamWebhookLoop envAllOk true ("msg".toList) svcSingleDry [] []
        ["a".toList] = Sum.inr (svc', trace', expected) ∧
      ('@' :: "webhook-incident-io".toList) ∈ expected :=
  migrator_C10 envAllOk svcSingleDry ("msg".toList) ["a".toList] ("a".toList)
    (by decide) rfl

end DatadogMigrator
